import Mathlib

/-!
# coss-reverse-dca: the order ladder of `src/index.js`

A shallow embedding of the trading bot in `src/index.js`.

* In the embedding of the bot the numbers are exact rationals: `*`, `/`, `+`, `-` are the field
  operations of `ℚ`, `Math.ceil` is `Int.ceil`, `Math.pow(10, p)` is `10 ^ p`, and the `Decimal`
  wrapper (package `decimal`, not part of `src/`) is exact.  The theorems about the bot are about
  its control flow: which calls it makes and how its state changes.  They do not state the values
  the binary64 arithmetic of the code produces where these differ from the exact ones.
* The four rounding utilities are embedded a second time in binary64 arithmetic (`Binary64`),
  with rounding to nearest, ties to even, the infinities, `NaN` and the signed zero.
* The exchange client (`ccxt`) is a record of functions over an arbitrary world type `W`: every
  call takes the current world and returns either a response or `none` (the call threw) together
  with the next world.  Every call is appended to a log kept in the bot state.
* The module-level variables and the `lowdb` store are fields of `Bot`.
* An `async` function is a state transformer returning `Res`: a value, an exception (a rejected
  promise), `process.exit`, or a promise that never settles.
-/

namespace CossReverseDca

/-! ## Numbers over exact rationals

The arithmetic of the bot with every operation taken as exact.  The values agree with those of the
code where the binary64 and `Decimal` operations involved are exact (as in the examples on small
integers below); the theorems built on these definitions use them to decide which branch the bot
takes, not to state what the code computes.  The binary64 behaviour of the rounding utilities is
embedded separately in `Binary64`. -/

/-- `getCleanPrice` (line 540) over exact rationals:
`Math.ceil(Math.pow(10, pricePrecision) * price) / Math.pow(10, pricePrecision)`. -/
def getCleanPrice (pricePrecision : ℕ) (price : ℚ) : ℚ :=
  (⌈(10 : ℚ) ^ pricePrecision * price⌉ : ℚ) / (10 : ℚ) ^ pricePrecision

/-- `getCleanPriceFloor` (line 544) over exact rationals: the body is the same `Math.ceil`
expression as `getCleanPrice`. -/
def getCleanPriceFloor (pricePrecision : ℕ) (price : ℚ) : ℚ :=
  (⌈(10 : ℚ) ^ pricePrecision * price⌉ : ℚ) / (10 : ℚ) ^ pricePrecision

/-- `getCleanAmount` (line 548) over exact rationals. -/
def getCleanAmount (amountPrecision : ℕ) (amount : ℚ) : ℚ :=
  (⌈(10 : ℚ) ^ amountPrecision * amount⌉ : ℚ) / (10 : ℚ) ^ amountPrecision

/-- `getCleanAmountFloor` (line 552) over exact rationals: again `Math.ceil`. -/
def getCleanAmountFloor (amountPrecision : ℕ) (amount : ℚ) : ℚ :=
  (⌈(10 : ℚ) ^ amountPrecision * amount⌉ : ℚ) / (10 : ℚ) ^ amountPrecision

/-- `sumProduct(xs, ys)` of the `sum-product` package: the sum of the pairwise products. -/
def sumProduct (xs ys : List ℚ) : ℚ :=
  (List.zipWith (fun x y => x * y) xs ys).foldl (fun acc v => acc + v) 0

/-- `config.json`, with `config.pair` kept as its two halves (`pair.split('/')`). -/
structure Config where
  base : String
  quote : String
  startAmount : ℚ
  startPricePercent : ℚ
  dca : List ℚ
  profit : ℚ
  secondsToKeepDCA : ℚ
  live : Bool

/-- The three parallel arrays of `buildDCA`: the locals `prices`, `amounts` and the module-level
`averages`. -/
structure Rungs where
  prices : List ℚ
  amounts : List ℚ
  averages : List ℚ
  deriving DecidableEq

/-- Lines 150-152 of `buildDCA`: rung 0, with `Decimal(x).mul(y)` and `Decimal(x).div(y)` as the
exact product and quotient. -/
def firstRung (cfg : Config) (pricePrecision amountPrecision : ℕ) (lowestSellPrice : ℚ) : Rungs :=
  let prices := [getCleanPrice pricePrecision (lowestSellPrice * (1 + cfg.startPricePercent / 100))]
  let amounts := [getCleanAmount amountPrecision (cfg.startAmount / prices.headD 0)]
  let averages := [sumProduct prices amounts / amounts.headD 0]
  { prices := prices, amounts := amounts, averages := averages }

/-- Lines 165-176: the body of `config.dca.forEach`, without the balance check of line 178, with
the `Decimal` operations and the sums exact. -/
def dcaStep (pricePrecision : ℕ) (r : Rungs) (dcaAmount : ℚ) : Rungs :=
  let prices := r.prices ++ [getCleanPrice pricePrecision (r.averages.getLastD 0 * (1 + dcaAmount / 100))]
  let sum := r.amounts.foldl (fun acc amount => acc + amount) 0
  let amounts := r.amounts ++ [sum]
  let averages := r.averages ++ [sumProduct prices amounts / (sum * 2)]
  { prices := prices, amounts := amounts, averages := averages }

/-- The rungs `buildDCA` computes (lines 150-182) when no balance check stops it: rung 0 followed
by one `dcaStep` per entry of `config.dca`. -/
def ladder (cfg : Config) (pricePrecision amountPrecision : ℕ) (lowestSellPrice : ℚ) : Rungs :=
  cfg.dca.foldl (dcaStep pricePrecision) (firstRung cfg pricePrecision amountPrecision lowestSellPrice)

/-- Lines 264-266 and 324-326 (the same three statements in both reconcilers): the average fill
price, the buy price and the buy amount, from the arrays `price`, `filled` and the running `sum`,
with the `Decimal` operations exact. -/
def reconcile (cfg : Config) (pricePrecision amountPrecision : ℕ) (price filled : List ℚ) (sum : ℚ) :
    ℚ × ℚ × ℚ :=
  let average := sumProduct price filled / sum
  let buyPrice := getCleanPriceFloor pricePrecision (average * (1 - cfg.profit / 100))
  let amount := getCleanAmountFloor amountPrecision (sum * average / buyPrice)
  (average, buyPrice, amount)

/-! ## The exchange, the store and the bot state -/

/-- An order object as returned by the exchange client (`fetchOrder`, `cancelOrder`,
`createLimitSellOrder`, `createLimitBuyOrder`).  An absent or empty `id` is the empty string, the
only falsy value of the field. -/
structure Order where
  id : String
  status : String
  filled : ℚ
  price : ℚ
  amount : ℚ
  deriving DecidableEq

/-- The lookup `order.success` on an order object: the object has the fields of `Order` and no
`success`, so the lookup yields `undefined`, which is falsy. -/
def Order.success (_order : Order) : Bool := false

/-- An entry of `coss.webGetCoinsGetBaseList()`. -/
structure Limit where
  currency : String
  limit : ℚ
  deriving DecidableEq

/-- An entry of `coss.webGetOrderSymbols()`. -/
structure SymbolInfo where
  symbol : String
  amount_limit_decimal : ℕ
  price_limit_decimal : ℕ
  deriving DecidableEq

/-- The exchange client `coss` over a world `W`.  `none` is a call that threw.  `fetchTicker`
returns `ticker.ask` (`0` when absent), `fetchBalance` returns for each currency the `free` field
of its entry (`none` when the entry is absent), `now` is `Date.now()`. -/
structure Exchange (W : Type) where
  fetchOrder : String → W → Option Order × W
  cancelOrder : String → W → Option Order × W
  createLimitSellOrder : ℚ → ℚ → W → Option Order × W
  createLimitBuyOrder : ℚ → ℚ → W → Option Order × W
  fetchTicker : W → Option ℚ × W
  fetchBalance : W → Option (String → Option ℚ) × W
  webGetCoinsGetBaseList : W → Option (List Limit) × W
  webGetOrderSymbols : W → Option (List SymbolInfo) × W
  now : W → ℤ × W

/-- A call made to the exchange client, the fetches with the response received. -/
inductive Call where
  | fetchOrder (id : String) (response : Option Order)
  | cancelOrder (id : String)
  | createLimitSellOrder (amount price : ℚ)
  | createLimitBuyOrder (amount price : ℚ)
  | fetchTicker
  | fetchBalance
  | webGetCoinsGetBaseList
  | webGetOrderSymbols
  deriving DecidableEq

/-- The calls that change something on the exchange: cancellations and placements. -/
def Call.isMutation : Call → Bool
  | .cancelOrder _ => true
  | .createLimitSellOrder _ _ => true
  | .createLimitBuyOrder _ _ => true
  | _ => false

/-- The content of `data/db.json` (defaults of line 11). -/
structure Db where
  sellOrders : List String
  buyOrder : Option String
  buyOrderPrice : Option ℚ
  firstSellPrice : Option ℚ
  firstSellTime : Option ℤ
  unrecoverable : Bool
  deriving DecidableEq

/-- The module-level variables of lines 18-27.  `balance` is `balance.free`, `none` while
`balance` is `undefined`; `minOrderSize` is `none` while `undefined`; the two precisions are set
by `loadConfigAndTradingInfo` before any use. -/
structure Vars where
  balance : Option ℚ
  minOrderSize : Option ℚ
  amountPrecision : ℕ
  pricePrecision : ℕ
  sellOrders : List String
  buyOrder : Option String
  buyOrderPrice : Option ℚ
  averages : List ℚ
  firstSellPrice : Option ℚ
  deriving DecidableEq

/-- The state of the process: the world of the exchange, the store, the module-level variables,
the log of the calls made to the exchange, and for each of these calls the variables and the
store as they were when it was made (the points where the process is suspended). -/
structure Bot (W : Type) where
  world : W
  db : Db
  vars : Vars
  calls : List Call
  observed : List (Vars × Db)

/-- What a rejected promise or a thrown exception carries. -/
inductive Err where
  | exchange
  | startAmountTooLow (limit : ℚ)
  | unableToFetchMinOrderSize
  | unableToFetchPrecisions
  | unableToFetchOrder (id : String)
  | unableToPlaceSell (price amount : ℚ)
  | unableToPlaceBuy (price amount : ℚ)
  | unableToCancel (id : String)
  | unableToGetBalance
  | unableToGetTicker
  | sellOrderCanceled (id : String)
  | unableToFetchSellOrder (id : String)
  | buyOrderCanceled
  | buyOrderFilled
  | unableToFetchBuyOrder (id : String)
  | referenceError
  | typeError
  deriving DecidableEq

/-- How an awaited computation ends: with a value, with an exception (a rejected promise), with
`process.exit(code)`, or never (a promise that is neither resolved nor rejected). -/
inductive Res (α : Type) where
  | ok (a : α)
  | threw (e : Err)
  | exited (code : ℕ)
  | hang
  deriving DecidableEq

/-- An `async` computation over the bot state. -/
def M (W : Type) (α : Type) : Type := Bot W → Res α × Bot W

/-- Sequencing (`await`): a computation that does not end with a value ends the whole. -/
def M.bind {W α β : Type} (m : M W α) (f : α → M W β) : M W β := fun s =>
  match m s with
  | (.ok a, s') => f a s'
  | (.threw e, s') => (.threw e, s')
  | (.exited code, s') => (.exited code, s')
  | (.hang, s') => (.hang, s')

instance (W : Type) : Monad (M W) where
  pure a := fun s => (.ok a, s)
  bind := M.bind

/-- Read the state. -/
def getBot {W : Type} : M W (Bot W) := fun s => (.ok s, s)

/-- Update the state. -/
def modifyBot {W : Type} (f : Bot W → Bot W) : M W Unit := fun s => (.ok (), f s)

/-- A `throw`, or `reject(e)` followed by `return`. -/
def throwErr {W α : Type} (e : Err) : M W α := fun s => (.threw e, s)

/-- `process.exit(code)`. -/
def processExit {W α : Type} (code : ℕ) : M W α := fun s => (.exited code, s)

/-- A promise that is never settled. -/
def neverSettles {W α : Type} : M W α := fun s => (.hang, s)

/-- `tryCatch` (line 363): a value becomes `success: true`, a rejection `success: false`. -/
def tryCatch {W α : Type} (promise : M W α) : M W (Except Err α) := fun s =>
  match promise s with
  | (.ok a, s') => (.ok (.ok a), s')
  | (.threw e, s') => (.ok (.error e), s')
  | (.exited code, s') => (.exited code, s')
  | (.hang, s') => (.hang, s')

/-- The state after a call to the exchange: the next world, the call logged, and the variables
and the store at the time of the call recorded. -/
def afterCall {W : Type} (s : Bot W) (w : W) (c : Call) : Bot W :=
  { s with world := w, calls := s.calls ++ [c], observed := s.observed ++ [(s.vars, s.db)] }

/-- A call to the exchange client: the response or the thrown error, the next world, and the
entry in the log. -/
def callExchange {W α : Type} (f : W → Option α × W) (entry : Option α → Call) : M W α := fun s =>
  match f s.world with
  | (some a, w) => (.ok a, afterCall s w (entry (some a)))
  | (none, w) => (.threw .exchange, afterCall s w (entry none))

/-- The JavaScript truthiness of `buyOrder`: `null` and the empty string are falsy. -/
def truthy (id : Option String) : Bool :=
  match id with
  | some i => i != ""
  | none => false

/-! ## The remote calls with retry (lines 363-536) -/

/-- The loop of `fetchTradingRestrictionWithRetry` (line 370).  On a non-empty list the first entry
of the quote currency settles the promise: `config.startAmount < minOrderSize` compares with the
module-level `minOrderSize`; without such an entry the function returns with the promise
unsettled. -/
def fetchTradingRestrictionLoop {W : Type} (ex : Exchange W) (cfg : Config) : ℕ → M W ℚ
  | 0 => throwErr .unableToFetchMinOrderSize
  | n + 1 => do
    let limits ← tryCatch (callExchange ex.webGetCoinsGetBaseList (fun _ => .webGetCoinsGetBaseList))
    match limits with
    | .ok result =>
      if result.length > 0 then
        match result.find? (fun limit => limit.currency == cfg.quote) with
        | some limit => do
          let s ← getBot
          match s.vars.minOrderSize with
          | some m => if cfg.startAmount < m then throwErr (.startAmountTooLow limit.limit) else pure limit.limit
          | none => pure limit.limit
        | none => neverSettles
      else fetchTradingRestrictionLoop ex cfg n
    | .error _ => fetchTradingRestrictionLoop ex cfg n

/-- `fetchTradingRestrictionWithRetry(retries = 5)`. -/
def fetchTradingRestrictionWithRetry {W : Type} (ex : Exchange W) (cfg : Config) : M W ℚ :=
  fetchTradingRestrictionLoop ex cfg 5

/-- The loop of `fetchTradingPrecisionWithRetry` (line 392); the symbol is
`config.pair.replace('/', '_')`. -/
def fetchTradingPrecisionLoop {W : Type} (ex : Exchange W) (cfg : Config) : ℕ → M W (ℕ × ℕ)
  | 0 => throwErr .unableToFetchPrecisions
  | n + 1 => do
    let symbols ← tryCatch (callExchange ex.webGetOrderSymbols (fun _ => .webGetOrderSymbols))
    match symbols with
    | .ok result =>
      if result.length > 0 then
        match result.find? (fun symbol => symbol.symbol == cfg.base ++ "_" ++ cfg.quote) with
        | some symbol => pure (symbol.amount_limit_decimal, symbol.price_limit_decimal)
        | none => neverSettles
      else fetchTradingPrecisionLoop ex cfg n
    | .error _ => fetchTradingPrecisionLoop ex cfg n

/-- `fetchTradingPrecisionWithRetry(retries = 5)`: the pair `(amountPrecision, pricePrecision)`. -/
def fetchTradingPrecisionWithRetry {W : Type} (ex : Exchange W) (cfg : Config) : M W (ℕ × ℕ) :=
  fetchTradingPrecisionLoop ex cfg 5

/-- The loop of `fetchOrderWithRetry` (line 413). -/
def fetchOrderLoop {W : Type} (ex : Exchange W) (id : String) : ℕ → M W Order
  | 0 => throwErr (.unableToFetchOrder id)
  | n + 1 => do
    let order ← tryCatch (callExchange (ex.fetchOrder id) (fun r => .fetchOrder id r))
    match order with
    | .ok result => if result.id != "" then pure result else fetchOrderLoop ex id n
    | .error _ => fetchOrderLoop ex id n

/-- `fetchOrderWithRetry(id, retries = 5)`. -/
def fetchOrderWithRetry {W : Type} (ex : Exchange W) (id : String) : M W Order :=
  fetchOrderLoop ex id 5

/-- The loop of `placeSellOrderWithRetry` (line 427). -/
def placeSellOrderLoop {W : Type} (ex : Exchange W) (price amount : ℚ) : ℕ → M W Order
  | 0 => throwErr (.unableToPlaceSell price amount)
  | n + 1 => do
    let order ← tryCatch (callExchange (ex.createLimitSellOrder amount price)
      (fun _ => .createLimitSellOrder amount price))
    match order with
    | .ok result => if result.id != "" then pure result else placeSellOrderLoop ex price amount n
    | .error _ => placeSellOrderLoop ex price amount n

/-- `placeSellOrderWithRetry(price, amount, retries = 5)`. -/
def placeSellOrderWithRetry {W : Type} (ex : Exchange W) (price amount : ℚ) : M W Order :=
  placeSellOrderLoop ex price amount 5

/-- The loop of `placeBuyOrderWithRetry` (line 441).  The call is awaited without `tryCatch`: an
error thrown by the exchange leaves the `async` executor, so the promise is never settled; a
returned order object is tested with `order.success && order.result['id']`. -/
def placeBuyOrderLoop {W : Type} (ex : Exchange W) (price amount : ℚ) : ℕ → M W Order
  | 0 => throwErr (.unableToPlaceBuy price amount)
  | n + 1 => fun s =>
    match callExchange (ex.createLimitBuyOrder amount price)
        (fun _ => Call.createLimitBuyOrder amount price) s with
    | (.ok order, s') =>
      if order.success then (.ok order, s') else placeBuyOrderLoop ex price amount n s'
    | (.threw _, s') => (.hang, s')
    | (.exited code, s') => (.exited code, s')
    | (.hang, s') => (.hang, s')

/-- `placeBuyOrderWithRetry(price, amount, retries = 5)`. -/
def placeBuyOrderWithRetry {W : Type} (ex : Exchange W) (price amount : ℚ) : M W Order :=
  placeBuyOrderLoop ex price amount 5

/-- The `for` loop of `cancelOrderWithRetry` (lines 460-466) and the `reject` of line 473 that
follows it. -/
def cancelOrderLoop {W : Type} (ex : Exchange W) (id : String) : ℕ → M W String
  | 0 => throwErr (.unableToCancel id)
  | n + 1 => do
    let order ← tryCatch (callExchange (ex.cancelOrder id) (fun _ => .cancelOrder id))
    match order with
    | .ok result => if result.id != "" then pure "Order canceled" else cancelOrderLoop ex id n
    | .error _ => cancelOrderLoop ex id n

/-- `cancelOrderWithRetry(id, retries = 5)` (line 455). -/
def cancelOrderWithRetry {W : Type} (ex : Exchange W) (id : String) : M W String := do
  let order ← tryCatch (fetchOrderWithRetry ex id)
  match order with
  | .ok result =>
    if result.status = "open" then cancelOrderLoop ex id 5
    else pure "Order already canceled or closed"
  | .error _ => throwErr (.unableToCancel id)

/-- The inner `for (sellOrder of sellOrdersCopy)` of `cancelAllOrders` (lines 484-493), with the
array `unCanceledOrders` built so far. -/
def cancelPass {W : Type} (ex : Exchange W) : List String → List String → M W (List String)
  | [], unCanceledOrders => pure unCanceledOrders
  | sellOrder :: rest, unCanceledOrders => do
    let canceledOrder ← tryCatch (cancelOrderWithRetry ex sellOrder)
    match canceledOrder with
    | .ok _ => cancelPass ex rest unCanceledOrders
    | .error _ => cancelPass ex rest (unCanceledOrders ++ [sellOrder])

/-- The outer loop of `cancelAllOrders` (lines 482-506) on `sellOrdersCopy`. -/
def cancelAllLoop {W : Type} (ex : Exchange W) : ℕ → List String → M W (List String)
  | 0, _ => do
    modifyBot (fun s => { s with db := { s.db with unrecoverable := true } })
    processExit 1
  | n + 1, sellOrdersCopy => do
    let unCanceledOrders ← cancelPass ex sellOrdersCopy []
    modifyBot (fun s => { s with db := { s.db with sellOrders := unCanceledOrders, firstSellPrice := none } })
    if unCanceledOrders.length = 0 then do
      modifyBot (fun s => { s with vars := { s.vars with sellOrders := unCanceledOrders } })
      pure unCanceledOrders
    else cancelAllLoop ex n unCanceledOrders

/-- `cancelAllOrders(retries = 3)` (line 478). -/
def cancelAllOrders {W : Type} (ex : Exchange W) : M W (List String) := do
  let s ← getBot
  cancelAllLoop ex 3 s.vars.sellOrders

/-- The loop of `fetchBalanceWithRetry` (line 511). -/
def fetchBalanceLoop {W : Type} (ex : Exchange W) : ℕ → M W (String → Option ℚ)
  | 0 => throwErr .unableToGetBalance
  | n + 1 => do
    let balance ← tryCatch (callExchange ex.fetchBalance (fun _ => .fetchBalance))
    match balance with
    | .ok result => pure result
    | .error _ => fetchBalanceLoop ex n

/-- `fetchBalanceWithRetry(retries = 5)`. -/
def fetchBalanceWithRetry {W : Type} (ex : Exchange W) : M W (String → Option ℚ) :=
  fetchBalanceLoop ex 5

/-- The loop of `getLowestSellPriceWithRetry` (line 525): an `ask` of `0` is falsy. -/
def getLowestSellPriceLoop {W : Type} (ex : Exchange W) : ℕ → M W ℚ
  | 0 => throwErr .unableToGetTicker
  | n + 1 => do
    let ticker ← tryCatch (callExchange ex.fetchTicker (fun _ => .fetchTicker))
    match ticker with
    | .ok ask => if ask ≠ 0 then pure ask else getLowestSellPriceLoop ex n
    | .error _ => getLowestSellPriceLoop ex n

/-- `getLowestSellPriceWithRetry(retries = 5)`. -/
def getLowestSellPriceWithRetry {W : Type} (ex : Exchange W) : M W ℚ :=
  getLowestSellPriceLoop ex 5

/-! ## Start-up and recovery (lines 39-138) -/

/-- `Date.now()`. -/
def dateNow {W : Type} (ex : Exchange W) : M W ℤ := fun s =>
  ((Res.ok (ex.now s.world).1), { s with world := (ex.now s.world).2 })

/-- `loadConfigAndTradingInfo` (line 68); `checkConfig` only logs. -/
def loadConfigAndTradingInfo {W : Type} (ex : Exchange W) (cfg : Config) : M W Unit := do
  let restriction ← tryCatch (fetchTradingRestrictionWithRetry ex cfg)
  match restriction with
  | .error _ => processExit 1
  | .ok result => do
    modifyBot (fun s => { s with vars := { s.vars with minOrderSize := some result } })
    let precision ← tryCatch (fetchTradingPrecisionWithRetry ex cfg)
    match precision with
    | .error _ => processExit 1
    | .ok result => do
      modifyBot (fun s => { s with
        vars := { s.vars with amountPrecision := result.1, pricePrecision := result.2 } })
      modifyBot (fun s => { s with
        vars := { s.vars with
          sellOrders := s.db.sellOrders, buyOrder := s.db.buyOrder,
          buyOrderPrice := s.db.buyOrderPrice, firstSellPrice := s.db.firstSellPrice } })
      let s ← getBot
      if s.db.unrecoverable then processExit 1 else pure ()

/-- The loop over `sellOrders` of `canContinue` (lines 107-119). -/
def canContinueSellOrders {W : Type} (ex : Exchange W) : List String → M W Unit
  | [] => pure ()
  | sellOrder :: rest => do
    let order ← tryCatch (fetchOrderWithRetry ex sellOrder)
    match order with
    | .ok result =>
      if result.status = "canceled" then throwErr (.sellOrderCanceled sellOrder)
      else canContinueSellOrders ex rest
    | .error _ => throwErr (.unableToFetchSellOrder sellOrder)

/-- `canContinue` (line 105): resolves with `'All orders in place'` or rejects. -/
def canContinue {W : Type} (ex : Exchange W) : M W String := do
  let s ← getBot
  canContinueSellOrders ex s.vars.sellOrders
  if truthy s.vars.buyOrder then do
    let order ← tryCatch (fetchOrderWithRetry ex (s.vars.buyOrder.getD ""))
    match order with
    | .ok result =>
      if result.status = "canceled" then throwErr .buyOrderCanceled
      else if result.status = "closed" then throwErr .buyOrderFilled
      else pure "All orders in place"
    | .error _ => throwErr (.unableToFetchBuyOrder (s.vars.buyOrder.getD ""))
  else pure "All orders in place"

/-! ## The ladder builder (lines 140-206) -/

/-- The `config.dca.forEach` of `buildDCA` (lines 164-182): each step extends the arrays, stores
`averages`, and in live mode compares `sum * 2` with `balance.free`; reading `free` of an
`undefined` balance throws. -/
def dcaForEach {W : Type} (cfg : Config) : List ℚ → Rungs → M W Rungs
  | [], r => pure r
  | dcaAmount :: rest, r => do
    let s ← getBot
    let r' := dcaStep s.vars.pricePrecision r dcaAmount
    modifyBot (fun s => { s with vars := { s.vars with averages := r'.averages } })
    let sum := r.amounts.foldl (fun acc amount => acc + amount) 0
    if cfg.live then
      match s.vars.balance with
      | some free => if sum * 2 > free then processExit 1 else dcaForEach cfg rest r'
      | none => throwErr .typeError
    else dcaForEach cfg rest r'

/-- The placement loop of `buildDCA` (lines 184-204) from rung `index` on. -/
def placeRungs {W : Type} (ex : Exchange W) (cfg : Config) (amounts : List ℚ) : ℕ → List ℚ → M W Unit
  | _, [] => pure ()
  | index, price :: rest =>
    if cfg.live then do
      let sellOrder ← tryCatch (placeSellOrderWithRetry ex price (amounts.getD index 0))
      match sellOrder with
      | .ok result => do
        modifyBot (fun s => { s with
          vars := { s.vars with sellOrders := s.vars.sellOrders ++ [result.id] },
          db := { s.db with sellOrders := s.vars.sellOrders ++ [result.id] } })
        if index = 0 then do
          let t ← dateNow ex
          modifyBot (fun s => { s with
            vars := { s.vars with firstSellPrice := some price },
            db := { s.db with firstSellTime := some t, firstSellPrice := some price } })
          placeRungs ex cfg amounts (index + 1) rest
        else placeRungs ex cfg amounts (index + 1) rest
      | .error _ => processExit 1
    else placeRungs ex cfg amounts (index + 1) rest

/-- `buildDCA` (line 140). -/
def buildDCA {W : Type} (ex : Exchange W) (cfg : Config) : M W Unit := do
  let sellPrice ← tryCatch (getLowestSellPriceWithRetry ex)
  match sellPrice with
  | .error _ => processExit 1
  | .ok lowestSellPrice => do
    let s ← getBot
    let r0 := firstRung cfg s.vars.pricePrecision s.vars.amountPrecision lowestSellPrice
    modifyBot (fun s => { s with vars := { s.vars with averages := r0.averages } })
    if cfg.live then do
      let allBalance ← tryCatch (fetchBalanceWithRetry ex)
      match allBalance with
      | .ok result => do
        modifyBot (fun s => { s with vars := { s.vars with balance := result cfg.base } })
        let r ← dcaForEach cfg cfg.dca r0
        placeRungs ex cfg r.amounts 0 r.prices
      | .error _ => processExit 1
    else do
      let r ← dcaForEach cfg cfg.dca r0
      placeRungs ex cfg r.amounts 0 r.prices

/-! ## The reconciler (lines 208-359) -/

/-- The loop `for (sellOrder of sellOrders)` of both reconcilers (lines 252-262 and 310-320), with
the arrays `filled`, `price` and the running `sum`; `none` when a fetch failed (`checkForUpdate();
return;`). -/
def scanSellOrders {W : Type} (ex : Exchange W) :
    List String → List ℚ → List ℚ → ℚ → M W (Option (List ℚ × List ℚ × ℚ))
  | [], filled, price, sum => pure (some (filled, price, sum))
  | sellOrder :: rest, filled, price, sum => do
    let order ← tryCatch (fetchOrderWithRetry ex sellOrder)
    match order with
    | .ok result =>
      scanSellOrders ex rest (filled ++ [result.filled]) (price ++ [result.price]) (sum + result.filled)
    | .error _ => pure none

/-- Lines 239-240: `buyOrder = null; db.set('buyOrder', buyOrder).write();`. -/
def clearBuyOrder {W : Type} : M W Unit := do
  modifyBot (fun s => { s with vars := { s.vars with buyOrder := none } })
  modifyBot (fun s => { s with db := { s.db with buyOrder := s.vars.buyOrder } })

/-- Lines 241-242: `buyOrderPrice = null; db.set('buyOrderPrice', buyOrderPrice).write();`. -/
def clearBuyOrderPrice {W : Type} : M W Unit := do
  modifyBot (fun s => { s with vars := { s.vars with buyOrderPrice := none } })
  modifyBot (fun s => { s with db := { s.db with buyOrderPrice := s.vars.buyOrderPrice } })

/-- Lines 333-334: `buyOrder = newBuyOrder.result.id; db.set('buyOrder', buyOrder).write();`. -/
def recordBuyOrder {W : Type} (id : String) : M W Unit := do
  modifyBot (fun s => { s with vars := { s.vars with buyOrder := some id } })
  modifyBot (fun s => { s with db := { s.db with buyOrder := s.vars.buyOrder } })

/-- Lines 335-336: `buyOrderPrice = buyPrice; db.set('buyOrderPrice', buyOrderPrice).write();`. -/
def recordBuyOrderPrice {W : Type} (buyPrice : ℚ) : M W Unit := do
  modifyBot (fun s => { s with vars := { s.vars with buyOrderPrice := some buyPrice } })
  modifyBot (fun s => { s with db := { s.db with buyOrderPrice := s.vars.buyOrderPrice } })

/-- One run of `checkOrdersWithBuyOrder` (line 228), up to the point where it schedules the next
cycle with `checkForUpdate()`.

In the block of line 268 the name `order` is the `const order` declared on line 272 of that same
block, which is uninitialised until its declaration has run: the read `order.result.filled` of
line 269 throws a `ReferenceError`, and the rest of the block (cancel, clear, place, lines 270-297)
is never reached.  A `null` `buyOrderPrice` compares as `0`. -/
def checkOrdersWithBuyOrder {W : Type} (ex : Exchange W) (cfg : Config) : M W Unit := do
  let s ← getBot
  let order ← tryCatch (fetchOrderWithRetry ex (s.vars.buyOrder.getD ""))
  match order with
  | .error _ => pure ()
  | .ok result =>
    if result.status = "closed" then do
      clearBuyOrder
      clearBuyOrderPrice
      let _ ← cancelAllOrders ex
      buildDCA ex cfg
    else do
      let scan ← scanSellOrders ex s.vars.sellOrders [] [] 0
      match scan with
      | none => pure ()
      | some (filled, price, sum) =>
        let q := reconcile cfg s.vars.pricePrecision s.vars.amountPrecision price filled sum
        if q.2.1 > s.vars.buyOrderPrice.getD 0 ∨ q.2.2 > result.amount then
          throwErr .referenceError
        else pure ()

/-- One run of `checkOrders` (line 305), up to the point where it schedules the next cycle.  An
`undefined` `minOrderSize` makes the comparison of line 328 false; a `null` `firstSellTime` or
`firstSellPrice` counts as `0`. -/
def checkOrders {W : Type} (ex : Exchange W) (cfg : Config) : M W Unit := do
  let s ← getBot
  let scan ← scanSellOrders ex s.vars.sellOrders [] [] 0
  match scan with
  | none => pure ()
  | some (filled, price, sum) =>
    if sum > 0 then do
      let q := reconcile cfg s.vars.pricePrecision s.vars.amountPrecision price filled sum
      let buyPrice := q.2.1
      let amount := q.2.2
      if (match s.vars.minOrderSize with
          | some m => decide (amount > buyPrice * m)
          | none => false) then do
        let newBuyOrder ← tryCatch (placeBuyOrderWithRetry ex buyPrice amount)
        match newBuyOrder with
        | .ok result => do
          recordBuyOrder result.id
          recordBuyOrderPrice buyPrice
        | .error _ => pure ()
      else pure ()
    else if cfg.secondsToKeepDCA ≥ 0 then do
      let t ← dateNow ex
      let s1 ← getBot
      if ((t - s1.db.firstSellTime.getD 0 : ℤ) : ℚ) > cfg.secondsToKeepDCA * 1000 then do
        let sellPrice ← tryCatch (getLowestSellPriceWithRetry ex)
        match sellPrice with
        | .ok result =>
          if result < s1.vars.firstSellPrice.getD 0 then do
            let _ ← cancelAllOrders ex
            buildDCA ex cfg
          else pure ()
        | .error _ => pure ()
      else pure ()
    else pure ()

/-- One cycle of `checkForUpdate` (line 208): the reconciler chosen by the truthiness of
`buyOrder`, an exception escaping it caught and logged.  The recursive call that follows is the
next cycle. -/
def checkForUpdate {W : Type} (ex : Exchange W) (cfg : Config) : M W Unit := do
  let s ← getBot
  let _ ← tryCatch
    (if truthy s.vars.buyOrder then checkOrdersWithBuyOrder ex cfg else checkOrders ex cfg)
  pure ()

/-- `startBot` (line 39), up to the first `checkForUpdate()`. -/
def startBot {W : Type} (ex : Exchange W) (cfg : Config) : M W Unit := do
  loadConfigAndTradingInfo ex cfg
  let s ← getBot
  if s.vars.sellOrders.length > 0 then do
    let orderCheck ← tryCatch (canContinue ex)
    match orderCheck with
    | .ok _ => pure ()
    | .error _ => processExit 1
  else buildDCA ex cfg

/-! ## Relations between the state before and after a computation -/

/-- The final state of a computation is related by `R` to the state it started from, however the
computation ends. -/
def Keeps {W α : Type} (R : Bot W → Bot W → Prop) (m : M W α) : Prop :=
  ∀ s, R s (m s).2

/-- A relation on states that is reflexive, transitive, and holds across every call to the
exchange that satisfies `P`. -/
structure Stable {W : Type} (R : Bot W → Bot W → Prop) (P : Call → Prop) : Prop where
  refl : ∀ s, R s s
  trans : ∀ a b c, R a b → R b c → R a c
  call : ∀ s w c, P c → R s (afterCall s w c)

/-- The variables and the store are unchanged; the log of calls and the observations have grown,
the new observations all being the unchanged variables and store. -/
def Frame {W : Type} (s s' : Bot W) : Prop :=
  s'.vars = s.vars ∧ s'.db = s.db ∧
  (∃ new, s'.calls = s.calls ++ new) ∧
  ∃ n, s'.observed = s.observed ++ List.replicate n (s.vars, s.db)

/-- No cancellation and no placement has been added to the log. -/
def NoMutation {W : Type} (s s' : Bot W) : Prop :=
  s'.calls.filter Call.isMutation = s.calls.filter Call.isMutation

/-- `buyOrder` and `buyOrderPrice` are both set or both `null`, in the variables and in the
store. -/
def PairOK (o : Vars × Db) : Prop :=
  (o.1.buyOrder.isSome ↔ o.1.buyOrderPrice.isSome) ∧ (o.2.buyOrder.isSome ↔ o.2.buyOrderPrice.isSome)

/-- The pair invariant holds now and held at every call made so far. -/
def PairGood {W : Type} (s : Bot W) : Prop :=
  PairOK (s.vars, s.db) ∧ ∀ o ∈ s.observed, PairOK o

/-- The four buy-order fields, the log of calls and the observations are unchanged. -/
def BuyFrame {W : Type} (s s' : Bot W) : Prop :=
  s'.vars.buyOrder = s.vars.buyOrder ∧ s'.vars.buyOrderPrice = s.vars.buyOrderPrice ∧
  s'.db.buyOrder = s.db.buyOrder ∧ s'.db.buyOrderPrice = s.db.buyOrderPrice ∧
  s'.calls = s.calls ∧ s'.observed = s.observed

/-! ## Concrete inputs -/

/-- A configuration with two steps, `100` and `20` percent, in demo mode. -/
def twoStepConfig : Config :=
  { base := "ETH", quote := "BTC", startAmount := 100, startPricePercent := 0,
    dca := [100, 20], profit := 1, secondsToKeepDCA := -1, live := false }

/-- The store as `db.defaults` creates it (line 11). -/
def initialDb : Db :=
  { sellOrders := [], buyOrder := none, buyOrderPrice := none, firstSellPrice := none,
    firstSellTime := none, unrecoverable := false }

/-- The module-level variables as declared (lines 18-27). -/
def initialVars : Vars :=
  { balance := none, minOrderSize := none, amountPrecision := 0, pricePrecision := 0,
    sellOrders := [], buyOrder := none, buyOrderPrice := none, averages := [],
    firstSellPrice := none }

/-- A stateless exchange for the pair `ETH_BTC`: `orders` gives the order reported for an id
(`none`: the fetch throws), `cancels` says whether a cancel request for the id is accepted;
placements are accepted, the ask is `100`, the clock stands at `0`. -/
def simpleExchange (orders : String → Option Order) (cancels : String → Bool) : Exchange Unit :=
  { fetchOrder := fun id _ => (orders id, ())
    cancelOrder := fun id _ =>
      (if cancels id then some { id := id, status := "canceled", filled := 0, price := 0, amount := 0 }
        else none, ())
    createLimitSellOrder := fun amount price _ =>
      (some { id := "new-sell", status := "open", filled := 0, price := price, amount := amount }, ())
    createLimitBuyOrder := fun amount price _ =>
      (some { id := "new-buy", status := "open", filled := 0, price := price, amount := amount }, ())
    fetchTicker := fun _ => (some 100, ())
    fetchBalance := fun _ => (some (fun _ => some 1000), ())
    webGetCoinsGetBaseList := fun _ => (some [{ currency := "BTC", limit := 1 }], ())
    webGetOrderSymbols := fun _ =>
      (some [{ symbol := "ETH_BTC", amount_limit_decimal := 0, price_limit_decimal := 0 }], ())
    now := fun _ => (0, ()) }

/-- A process just started on a store that holds the given sell orders and buy order. -/
def startedOn (sellOrders : List String) (buyOrder : Option String) (buyOrderPrice : Option ℚ) :
    Bot Unit :=
  { world := ()
    db := { initialDb with sellOrders := sellOrders, buyOrder := buyOrder, buyOrderPrice := buyOrderPrice }
    vars := initialVars
    calls := []
    observed := [] }

/-- A process that has loaded the given sell orders and buy order from its store. -/
def loadedWith (sellOrders : List String) (buyOrder : Option String) (buyOrderPrice : Option ℚ) :
    Bot Unit :=
  { world := ()
    db := { initialDb with sellOrders := sellOrders, buyOrder := buyOrder, buyOrderPrice := buyOrderPrice }
    vars := { initialVars with
      minOrderSize := some 1, sellOrders := sellOrders, buyOrder := buyOrder,
      buyOrderPrice := buyOrderPrice }
    calls := []
    observed := [] }

/-- The order `id` as an exchange reports it with the given status and filled amount, at price
`100` for an amount of `2`. -/
def orderAt (id status : String) (filled : ℚ) : Order :=
  { id := id, status := status, filled := filled, price := 100, amount := 2 }

/-- An exchange on which the sell order `s1` reports the status `canceled`. -/
def canceledSellExchange : Exchange Unit :=
  simpleExchange (fun id => if id = "s1" then some (orderAt "s1" "canceled" 0) else none)
    (fun _ => true)

/-- An exchange on which the sell order `s1` reports the status `closed` with `2` filled. -/
def closedSellExchange : Exchange Unit :=
  simpleExchange (fun id => if id = "s1" then some (orderAt "s1" "closed" 2) else none)
    (fun _ => true)

/-- An exchange on which every order is open and every cancel request is accepted except those
for `s2`, which throw. -/
def stuckCancelExchange : Exchange Unit :=
  simpleExchange (fun id => some (orderAt id "open" 0)) (fun id => id != "s2")

/-- An exchange on which the sell order `s1` has `1` filled at `100`, the sell order `s2` has `2`
filled at `90`, and the buy order `b1` is open at `90` for an amount of `1`, nothing filled. -/
def filledSellExchange : Exchange Unit :=
  simpleExchange
    (fun id =>
      if id = "s1" then
        some { id := "s1", status := "closed", filled := 1, price := 100, amount := 1 }
      else if id = "s2" then
        some { id := "s2", status := "open", filled := 2, price := 90, amount := 4 }
      else if id = "b1" then
        some { id := "b1", status := "open", filled := 0, price := 90, amount := 1 }
      else none)
    (fun _ => true)

/-! ## Sequences of exchange responses -/

/-- The responses of `n` successive calls of `f`, each call made in the world the previous one
left behind. -/
def responses {W α : Type} (f : W → Option α × W) : ℕ → W → List (Option α)
  | 0, _ => []
  | n + 1, w => (f w).1 :: responses f n (f w).2

/-- A response that is structurally valid for the retry loops: the call did not throw and the
order it returned carries an id. -/
def hasId : Option Order → Bool
  | some o => o.id != ""
  | none => false

/-- The responses a retry loop consumes out of a sequence: all of them up to and including the
first valid one. -/
def attemptsMade : List (Option Order) → List (Option Order)
  | [] => []
  | r :: rest => if hasId r then [r] else r :: attemptsMade rest

/-- The two-step configuration with a `startAmount` of one half. -/
def lowStartConfig : Config :=
  { twoStepConfig with startAmount := 1 / 2 }

/-- An exchange on which every order is open and every cancel is accepted, but every placement
request throws. -/
def rejectingExchange : Exchange Unit :=
  { simpleExchange (fun id => some (orderAt id "open" 0)) (fun _ => true) with
    createLimitSellOrder := fun _ _ _ => (none, ())
    createLimitBuyOrder := fun _ _ _ => (none, ()) }

/-- The two-step configuration in live mode. -/
def liveConfig : Config :=
  { twoStepConfig with live := true }

/-- An exchange that accepts everything but reports a free balance of `3` for every currency. -/
def poorExchange : Exchange Unit :=
  { simpleExchange (fun id => some (orderAt id "open" 0)) (fun _ => true) with
    fetchBalance := fun _ => (some (fun _ => some 3), ()) }

/-- The same process with a `minOrderSize` of one hundredth. -/
def withLowMinimum (s : Bot Unit) : Bot Unit :=
  { s with vars := { s.vars with minOrderSize := some (1 / 100) } }

/-- The call `c` has been added to the log between the states `s` and `s'`. -/
def Issued {W : Type} (s s' : Bot W) (c : Call) : Prop :=
  ∃ pre post, s'.calls = s.calls ++ pre ++ c :: post

/-- An exchange on which the buy order `b1` is closed, every other order is open, and every cancel
request and placement is accepted. -/
def completedBuyExchange : Exchange Unit :=
  simpleExchange (fun id => if id = "b1" then some (orderAt "b1" "closed" 2)
    else some (orderAt id "open" 0)) (fun _ => true)

/-- The placements of a buy order. -/
def Call.isBuyPlacement : Call → Bool
  | .createLimitBuyOrder _ _ => true
  | _ => false

/-- The placements of a sell order. -/
def Call.isSellPlacement : Call → Bool
  | .createLimitSellOrder _ _ => true
  | _ => false

/-- An exchange like `completedBuyExchange` that answers every sell placement with the id `s1`. -/
def recyclingExchange : Exchange Unit :=
  { completedBuyExchange with
    createLimitSellOrder := fun amount price _ =>
      (some { id := "s1", status := "open", filled := 0, price := price, amount := amount }, ()) }

/-! ## The rounding utilities in binary64 arithmetic (lines 540-554)

The four utilities use only `*`, `/`, `Math.ceil` and `Math.pow(10, p)` on JavaScript numbers.
Here these are the operations of IEEE 754 binary64 with rounding to nearest, ties to even. -/

namespace Binary64

/-- A JavaScript number: `NaN`, an infinity, or a finite value given by its sign and its
magnitude, so that `-0` is a value of its own. -/
inductive Num where
  | nan
  | inf (negative : Bool)
  | fin (negative : Bool) (magnitude : ℚ)
  deriving DecidableEq

/-- The integer nearest to `x ≥ 0`, the even one of the two when `x` lies half-way. -/
def nearestEven (x : ℚ) : ℤ :=
  if x - ⌊x⌋ < 1 / 2 then ⌊x⌋
  else if 1 / 2 < x - ⌊x⌋ then ⌊x⌋ + 1
  else if ⌊x⌋ % 2 = 0 then ⌊x⌋ else ⌊x⌋ + 1

/-- The spacing of the binary64 values around the magnitude `x`: `2 ^ (e - 52)` where
`2 ^ e ≤ x < 2 ^ (e + 1)`, and the spacing `2 ^ (-1074)` of the subnormal values below
`2 ^ (-1022)`. -/
def ulp (x : ℚ) : ℚ := 2 ^ (max (Int.log 2 x) (-1022) - 52)

/-- The magnitude `x ≥ 0` rounded to the nearest multiple of the spacing, ties to even. -/
def roundMagnitude (x : ℚ) : ℚ := nearestEven (x / ulp x) * ulp x

/-- The binary64 value of the exact result with the given sign and magnitude: the rounded
magnitude, or an infinity when that is `2 ^ 1024` or more. -/
def ofSignMagnitude (negative : Bool) (x : ℚ) : Num :=
  if roundMagnitude x < 2 ^ 1024 then .fin negative (roundMagnitude x) else .inf negative

/-- The number a decimal literal denotes: the binary64 value nearest to it. -/
def ofRat (q : ℚ) : Num := ofSignMagnitude (decide (q < 0)) |q|

/-- The operator `*`. -/
def mul : Num → Num → Num
  | .fin a m, .fin b n => ofSignMagnitude (a != b) (m * n)
  | .fin a m, .inf b => if m = 0 then .nan else .inf (a != b)
  | .inf a, .fin b n => if n = 0 then .nan else .inf (a != b)
  | .inf a, .inf b => .inf (a != b)
  | _, _ => .nan

/-- The operator `/`. -/
def div : Num → Num → Num
  | .fin a m, .fin b n =>
    if n = 0 then (if m = 0 then .nan else .inf (a != b)) else ofSignMagnitude (a != b) (m / n)
  | .fin a _, .inf b => .fin (a != b) 0
  | .inf a, .fin b _ => .inf (a != b)
  | _, _ => .nan

/-- `Math.ceil`: the least integer not below the argument, `-0` for an argument in `(-1, -0]`;
`NaN` and the infinities are returned as they are. -/
def ceil : Num → Num
  | .fin false m => .fin false ⌈m⌉
  | .fin true m => .fin true ⌊m⌋
  | x => x

/-- `Math.pow(10, p)` for a non-negative integer `p`: the binary64 value nearest to `10 ^ p`,
which is `10 ^ p` itself up to `p = 22`. -/
def pow10 (p : ℕ) : Num := ofRat (10 ^ p)

/-- `getCleanPrice` (line 540). -/
def getCleanPrice (pricePrecision : ℕ) (price : Num) : Num :=
  div (ceil (mul (pow10 pricePrecision) price)) (pow10 pricePrecision)

/-- `getCleanPriceFloor` (line 544): the same expression, with `Math.ceil`. -/
def getCleanPriceFloor (pricePrecision : ℕ) (price : Num) : Num :=
  div (ceil (mul (pow10 pricePrecision) price)) (pow10 pricePrecision)

/-- `getCleanAmount` (line 548). -/
def getCleanAmount (amountPrecision : ℕ) (amount : Num) : Num :=
  div (ceil (mul (pow10 amountPrecision) amount)) (pow10 amountPrecision)

/-- `getCleanAmountFloor` (line 552): the same expression, with `Math.ceil`. -/
def getCleanAmountFloor (amountPrecision : ℕ) (amount : Num) : Num :=
  div (ceil (mul (pow10 amountPrecision) amount)) (pow10 amountPrecision)

end Binary64

/-! ## Theorems -/

theorem ceil_eq_of_bounds (x : ℚ) (z : ℤ) (h1 : (z : ℚ) - 1 < x) (h2 : x ≤ z) : ⌈x⌉ = z := by
  rw [Int.ceil_eq_iff]
  exact ⟨h1, h2⟩

theorem dcaStep_prices (pp : ℕ) (r : Rungs) (d : ℚ) :
    (dcaStep pp r d).prices =
      r.prices ++ [getCleanPrice pp (r.averages.getLastD 0 * (1 + d / 100))] := rfl

theorem dcaStep_amounts (pp : ℕ) (r : Rungs) (d : ℚ) :
    (dcaStep pp r d).amounts =
      r.amounts ++ [r.amounts.foldl (fun acc amount => acc + amount) 0] := rfl

theorem ladder_twoStepConfig :
    ladder twoStepConfig 0 0 100 =
      { prices := [100, 200, 180], amounts := [1, 1, 2], averages := [100, 150, 165] } := by
  have e1 : (⌈(100 : ℚ)⌉ : ℤ) = 100 := by exact_mod_cast Int.ceil_natCast 100
  have e2 : (⌈(1 : ℚ)⌉ : ℤ) = 1 := by exact_mod_cast Int.ceil_natCast 1
  have e3 : (⌈(200 : ℚ)⌉ : ℤ) = 200 := by exact_mod_cast Int.ceil_natCast 200
  have e4 : (⌈(180 : ℚ)⌉ : ℤ) = 180 := by exact_mod_cast Int.ceil_natCast 180
  simp only [ladder, twoStepConfig, List.foldl_cons, List.foldl_nil, firstRung, dcaStep,
    getCleanPrice, getCleanAmount, sumProduct, List.zipWith_cons_cons, List.zipWith_nil_left,
    List.headD_cons, List.getLastD_cons, List.getLastD_nil, List.cons_append, List.nil_append]
  norm_num [e1, e2, e3, e4]

/-! ### Sequencing and the relations kept by the computations -/

theorem pure_apply {W α : Type} (a : α) (s : Bot W) : (pure a : M W α) s = (Res.ok a, s) := rfl

theorem bind_apply {W α β : Type} (m : M W α) (f : α → M W β) (s : Bot W) :
    (m >>= f) s = M.bind m f s := rfl

theorem keeps_pure {W α : Type} {R : Bot W → Bot W → Prop} {P : Call → Prop} (hS : Stable R P)
    (a : α) : Keeps R (pure a : M W α) := fun s => hS.refl s

theorem keeps_throwErr {W α : Type} {R : Bot W → Bot W → Prop} {P : Call → Prop} (hS : Stable R P)
    (e : Err) : Keeps R (throwErr e : M W α) := fun s => hS.refl s

theorem keeps_processExit {W α : Type} {R : Bot W → Bot W → Prop} {P : Call → Prop}
    (hS : Stable R P) (code : ℕ) : Keeps R (processExit code : M W α) := fun s => hS.refl s

theorem keeps_neverSettles {W α : Type} {R : Bot W → Bot W → Prop} {P : Call → Prop}
    (hS : Stable R P) : Keeps R (neverSettles : M W α) := fun s => hS.refl s

theorem keeps_getBot {W : Type} {R : Bot W → Bot W → Prop} {P : Call → Prop} (hS : Stable R P) :
    Keeps R (getBot : M W (Bot W)) := fun s => hS.refl s

theorem keeps_bind {W α β : Type} {R : Bot W → Bot W → Prop} {P : Call → Prop} (hS : Stable R P)
    {m : M W α} {f : α → M W β} (hm : Keeps R m) (hf : ∀ a, Keeps R (f a)) :
    Keeps R (m >>= f) := by
  intro s
  have h1 := hm s
  rw [bind_apply, M.bind]
  rcases hms : m s with ⟨r, s'⟩
  rw [hms] at h1
  cases r with
  | ok a => exact hS.trans _ _ _ h1 (hf a s')
  | threw e => exact h1
  | exited c => exact h1
  | hang => exact h1

theorem keeps_tryCatch {W α : Type} {R : Bot W → Bot W → Prop} {m : M W α} (hm : Keeps R m) :
    Keeps R (tryCatch m) := by
  intro s
  have h1 := hm s
  rw [tryCatch]
  rcases hms : m s with ⟨r, s'⟩
  rw [hms] at h1
  cases r <;> exact h1

theorem keeps_callExchange {W α : Type} {R : Bot W → Bot W → Prop} {P : Call → Prop}
    (hS : Stable R P) (f : W → Option α × W) (entry : Option α → Call) (hP : ∀ r, P (entry r)) :
    Keeps R (callExchange f entry) := by
  intro s
  rw [callExchange]
  rcases hf : f s.world with ⟨r, w⟩
  cases r with
  | some a => exact hS.call s w _ (hP _)
  | none => exact hS.call s w _ (hP _)

theorem keeps_fetchOrderLoop {W : Type} {R : Bot W → Bot W → Prop} {P : Call → Prop}
    (hS : Stable R P) (ex : Exchange W) (id : String) (hP : ∀ r, P (.fetchOrder id r)) (n : ℕ) :
    Keeps R (fetchOrderLoop ex id n) := by
  induction n with
  | zero => exact keeps_throwErr hS _
  | succ n ih =>
    rw [fetchOrderLoop]
    refine keeps_bind hS (keeps_tryCatch (keeps_callExchange hS _ _ hP)) ?_
    intro r
    cases r with
    | ok result =>
      dsimp only
      split
      · exact keeps_pure hS _
      · exact ih
    | error e => exact ih

theorem keeps_modifyBot {W : Type} {R : Bot W → Bot W → Prop} (f : Bot W → Bot W)
    (hf : ∀ s, R s (f s)) : Keeps R (modifyBot f) := fun s => hf s

theorem keeps_dateNow {W : Type} {R : Bot W → Bot W → Prop} (ex : Exchange W)
    (hf : ∀ (s : Bot W) (w : W), R s { s with world := w }) : Keeps R (dateNow ex) :=
  fun s => hf s _

theorem keeps_fetchOrderWithRetry {W : Type} {R : Bot W → Bot W → Prop} {P : Call → Prop}
    (hS : Stable R P) (ex : Exchange W) (id : String) (hP : ∀ r, P (.fetchOrder id r)) :
    Keeps R (fetchOrderWithRetry ex id) := keeps_fetchOrderLoop hS ex id hP 5

theorem keeps_placeSellOrderLoop {W : Type} {R : Bot W → Bot W → Prop} {P : Call → Prop}
    (hS : Stable R P) (ex : Exchange W) (price amount : ℚ)
    (hP : P (.createLimitSellOrder amount price)) (n : ℕ) :
    Keeps R (placeSellOrderLoop ex price amount n) := by
  induction n with
  | zero => exact keeps_throwErr hS _
  | succ n ih =>
    rw [placeSellOrderLoop]
    refine keeps_bind hS (keeps_tryCatch (keeps_callExchange hS _ _ (fun _ => hP))) ?_
    intro r
    cases r with
    | ok result =>
      dsimp only
      split
      · exact keeps_pure hS _
      · exact ih
    | error e => exact ih

theorem keeps_placeBuyOrderLoop {W : Type} {R : Bot W → Bot W → Prop} {P : Call → Prop}
    (hS : Stable R P) (ex : Exchange W) (price amount : ℚ)
    (hP : P (.createLimitBuyOrder amount price)) (n : ℕ) :
    Keeps R (placeBuyOrderLoop ex price amount n) := by
  induction n with
  | zero => exact keeps_throwErr hS _
  | succ n ih =>
    intro s
    have h1 := keeps_callExchange hS (ex.createLimitBuyOrder amount price)
      (fun _ => Call.createLimitBuyOrder amount price) (fun _ => hP) s
    simp only [placeBuyOrderLoop]
    rcases hc : callExchange (ex.createLimitBuyOrder amount price)
      (fun _ => Call.createLimitBuyOrder amount price) s with ⟨r, s'⟩
    rw [hc] at h1
    cases r with
    | ok order =>
      by_cases hs : order.success = true
      · simp only [hs, if_true]
        exact h1
      · simp only [hs, if_false]
        exact hS.trans _ _ _ h1 (ih s')
    | threw e => exact h1
    | exited c => exact h1
    | hang => exact h1

theorem keeps_cancelOrderLoop {W : Type} {R : Bot W → Bot W → Prop} {P : Call → Prop}
    (hS : Stable R P) (ex : Exchange W) (id : String) (hP : P (.cancelOrder id)) (n : ℕ) :
    Keeps R (cancelOrderLoop ex id n) := by
  induction n with
  | zero => exact keeps_throwErr hS _
  | succ n ih =>
    rw [cancelOrderLoop]
    refine keeps_bind hS (keeps_tryCatch (keeps_callExchange hS _ _ (fun _ => hP))) ?_
    intro r
    cases r with
    | ok result =>
      dsimp only
      split
      · exact keeps_pure hS _
      · exact ih
    | error e => exact ih

theorem keeps_cancelOrderWithRetry {W : Type} {R : Bot W → Bot W → Prop} {P : Call → Prop}
    (hS : Stable R P) (ex : Exchange W) (id : String) (hP : ∀ r, P (.fetchOrder id r))
    (hP' : P (.cancelOrder id)) : Keeps R (cancelOrderWithRetry ex id) := by
  rw [cancelOrderWithRetry]
  refine keeps_bind hS (keeps_tryCatch (keeps_fetchOrderWithRetry hS ex id hP)) ?_
  intro r
  cases r with
  | ok result =>
    dsimp only
    split
    · exact keeps_cancelOrderLoop hS ex id hP' 5
    · exact keeps_pure hS _
  | error e => exact keeps_throwErr hS _

theorem keeps_fetchBalanceLoop {W : Type} {R : Bot W → Bot W → Prop} {P : Call → Prop}
    (hS : Stable R P) (ex : Exchange W) (hP : P .fetchBalance) (n : ℕ) :
    Keeps R (fetchBalanceLoop ex n) := by
  induction n with
  | zero => exact keeps_throwErr hS _
  | succ n ih =>
    rw [fetchBalanceLoop]
    refine keeps_bind hS (keeps_tryCatch (keeps_callExchange hS _ _ (fun _ => hP))) ?_
    intro r
    cases r with
    | ok result => exact keeps_pure hS _
    | error e => exact ih

theorem keeps_getLowestSellPriceLoop {W : Type} {R : Bot W → Bot W → Prop} {P : Call → Prop}
    (hS : Stable R P) (ex : Exchange W) (hP : P .fetchTicker) (n : ℕ) :
    Keeps R (getLowestSellPriceLoop ex n) := by
  induction n with
  | zero => exact keeps_throwErr hS _
  | succ n ih =>
    rw [getLowestSellPriceLoop]
    refine keeps_bind hS (keeps_tryCatch (keeps_callExchange hS _ _ (fun _ => hP))) ?_
    intro r
    cases r with
    | ok result =>
      dsimp only
      split
      · exact keeps_pure hS _
      · exact ih
    | error e => exact ih

theorem keeps_scanSellOrders {W : Type} {R : Bot W → Bot W → Prop} {P : Call → Prop}
    (hS : Stable R P) (ex : Exchange W) (hP : ∀ id r, P (.fetchOrder id r)) (ids : List String)
    (filled price : List ℚ) (sum : ℚ) : Keeps R (scanSellOrders ex ids filled price sum) := by
  induction ids generalizing filled price sum with
  | nil => exact keeps_pure hS _
  | cons id rest ih =>
    rw [scanSellOrders]
    refine keeps_bind hS (keeps_tryCatch (keeps_fetchOrderWithRetry hS ex id (hP id))) ?_
    intro r
    cases r with
    | ok result => exact ih _ _ _
    | error e => exact keeps_pure hS _

theorem keeps_cancelPass {W : Type} {R : Bot W → Bot W → Prop} {P : Call → Prop}
    (hS : Stable R P) (ex : Exchange W) (hP : ∀ id r, P (.fetchOrder id r))
    (hP' : ∀ id, P (.cancelOrder id)) (ids un : List String) : Keeps R (cancelPass ex ids un) := by
  induction ids generalizing un with
  | nil => exact keeps_pure hS _
  | cons id rest ih =>
    rw [cancelPass]
    refine keeps_bind hS (keeps_tryCatch (keeps_cancelOrderWithRetry hS ex id (hP id) (hP' id))) ?_
    intro r
    cases r with
    | ok result => exact ih _
    | error e => exact ih _

theorem stable_frame {W : Type} : Stable (Frame : Bot W → Bot W → Prop) (fun _ => True) where
  refl s := ⟨rfl, rfl, ⟨[], by simp⟩, ⟨0, by simp⟩⟩
  trans a b c hab hbc := by
    obtain ⟨h1, h2, ⟨l1, h3⟩, ⟨n1, h4⟩⟩ := hab
    obtain ⟨h5, h6, ⟨l2, h7⟩, ⟨n2, h8⟩⟩ := hbc
    refine ⟨h5.trans h1, h6.trans h2, ⟨l1 ++ l2, by rw [h7, h3, List.append_assoc]⟩, ⟨n1 + n2, ?_⟩⟩
    rw [h8, h4, h1, h2, List.append_assoc, List.replicate_add]
  call s w c _ := ⟨rfl, rfl, ⟨[c], rfl⟩, ⟨1, rfl⟩⟩

theorem stable_noMutation {W : Type} :
    Stable (NoMutation : Bot W → Bot W → Prop) (fun c => c.isMutation = false) where
  refl s := rfl
  trans a b c hab hbc := by
    unfold NoMutation at *
    rw [hbc, hab]
  call s w c hc := by
    unfold NoMutation afterCall
    simp [List.filter_append, hc]

theorem stable_pairGood {W : Type} :
    Stable (fun s s' : Bot W => PairGood s → PairGood s') (fun _ => True) where
  refl s := id
  trans a b c hab hbc := fun h => hbc (hab h)
  call s w c _ := by
    intro h
    refine ⟨h.1, ?_⟩
    intro o ho
    simp only [afterCall, List.mem_append, List.mem_singleton] at ho
    rcases ho with ho | ho
    · exact h.2 o ho
    · rw [ho]
      exact h.1

/-! ### Recovery -/

theorem fetchOrderLoop_settles {W : Type} (ex : Exchange W) (id : String) (n : ℕ) (s : Bot W) :
    (∃ o s', fetchOrderLoop ex id n s = (Res.ok o, s')) ∨
    (∃ e s', fetchOrderLoop ex id n s = (Res.threw e, s')) := by
  induction n generalizing s with
  | zero => exact Or.inr ⟨_, _, rfl⟩
  | succ n ih =>
    simp only [fetchOrderLoop, bind_apply, M.bind, tryCatch, callExchange]
    rcases ex.fetchOrder id s.world with ⟨r, w⟩
    cases r with
    | some o =>
      by_cases h : (o.id != "") = true
      · simp only [h, if_true]
        exact Or.inl ⟨_, _, rfl⟩
      · simp only [h]
        exact ih _
    | none => exact ih _

theorem tryCatch_fetchOrderWithRetry {W : Type} (ex : Exchange W) (id : String) (s : Bot W) :
    ∃ r s', tryCatch (fetchOrderWithRetry ex id) s = (Res.ok r, s') := by
  rcases fetchOrderLoop_settles ex id 5 s with ⟨o, s', h⟩ | ⟨e, s', h⟩
  · exact ⟨Except.ok o, s', by simp only [tryCatch, fetchOrderWithRetry, h]⟩
  · exact ⟨Except.error e, s', by simp only [tryCatch, fetchOrderWithRetry, h]⟩

theorem tryCatch_ok {W α : Type} (m : M W α) (s s' : Bot W) (a : α) (h : m s = (Res.ok a, s')) :
    tryCatch m s = (Res.ok (Except.ok a), s') := by
  simp only [tryCatch, h]

theorem tryCatch_threw {W α : Type} (m : M W α) (s s' : Bot W) (e : Err)
    (h : m s = (Res.threw e, s')) : tryCatch m s = (Res.ok (Except.error e), s') := by
  simp only [tryCatch, h]

theorem tryCatch_eq_ok_ok {W α : Type} (m : M W α) (s s' : Bot W) (a : α)
    (h : tryCatch m s = (Res.ok (Except.ok a), s')) : m s = (Res.ok a, s') := by
  rw [tryCatch] at h
  rcases hm : m s with ⟨r, t⟩
  rw [hm] at h
  cases r <;> simp at h
  obtain ⟨h1, h2⟩ := h
  rw [h1, h2]

theorem canContinueSellOrders_settles {W : Type} (ex : Exchange W) (ids : List String)
    (s : Bot W) :
    (∃ s', canContinueSellOrders ex ids s = (Res.ok (), s')) ∨
    (∃ e s', canContinueSellOrders ex ids s = (Res.threw e, s')) := by
  induction ids generalizing s with
  | nil => exact Or.inl ⟨_, rfl⟩
  | cons id rest ih =>
    obtain ⟨r, s1, h⟩ := tryCatch_fetchOrderWithRetry ex id s
    simp only [canContinueSellOrders, bind_apply, M.bind, h]
    cases r with
    | ok o =>
      by_cases hc : o.status = "canceled"
      · simp only [hc, if_true]
        exact Or.inr ⟨_, _, rfl⟩
      · simp only [hc, if_false]
        exact ih _
    | error e => exact Or.inr ⟨_, _, rfl⟩

theorem canContinueSellOrders_canceled {W : Type} (ex : Exchange W) (id : String)
    (hcan : ∀ t, ∃ o t', fetchOrderWithRetry ex id t = (Res.ok o, t') ∧ o.status = "canceled")
    (ids : List String) (hid : id ∈ ids) (s : Bot W) :
    ∃ e s', canContinueSellOrders ex ids s = (Res.threw e, s') := by
  induction ids generalizing s with
  | nil => simp at hid
  | cons x rest ih =>
    by_cases hx : x = id
    · obtain ⟨o, t', h, hst⟩ := hcan s
      subst hx
      simp only [canContinueSellOrders, bind_apply, M.bind, tryCatch_ok _ _ _ _ h, hst, if_true]
      exact ⟨_, _, rfl⟩
    · have hid' : id ∈ rest := by
        rcases List.mem_cons.mp hid with h | h
        · exact absurd h.symm hx
        · exact h
      obtain ⟨r, s1, h⟩ := tryCatch_fetchOrderWithRetry ex x s
      simp only [canContinueSellOrders, bind_apply, M.bind, h]
      cases r with
      | ok o =>
        by_cases hc : o.status = "canceled"
        · simp only [hc, if_true]
          exact ⟨_, _, rfl⟩
        · simp only [hc, if_false]
          exact ih hid' _
      | error e => exact ⟨_, _, rfl⟩

theorem keeps_fetchTradingRestrictionLoop {W : Type} {R : Bot W → Bot W → Prop} {P : Call → Prop}
    (hS : Stable R P) (ex : Exchange W) (cfg : Config) (hP : P .webGetCoinsGetBaseList) (n : ℕ) :
    Keeps R (fetchTradingRestrictionLoop ex cfg n) := by
  induction n with
  | zero => exact keeps_throwErr hS _
  | succ n ih =>
    rw [fetchTradingRestrictionLoop]
    refine keeps_bind hS (keeps_tryCatch (keeps_callExchange hS _ _ (fun _ => hP))) ?_
    intro r
    cases r with
    | ok result =>
      dsimp only
      split
      · split
        · refine keeps_bind hS (keeps_getBot hS) ?_
          intro s
          dsimp only
          split
          · split
            · exact keeps_throwErr hS _
            · exact keeps_pure hS _
          · exact keeps_pure hS _
        · exact keeps_neverSettles hS
      · exact ih
    | error e => exact ih

theorem keeps_fetchTradingPrecisionLoop {W : Type} {R : Bot W → Bot W → Prop} {P : Call → Prop}
    (hS : Stable R P) (ex : Exchange W) (cfg : Config) (hP : P .webGetOrderSymbols) (n : ℕ) :
    Keeps R (fetchTradingPrecisionLoop ex cfg n) := by
  induction n with
  | zero => exact keeps_throwErr hS _
  | succ n ih =>
    rw [fetchTradingPrecisionLoop]
    refine keeps_bind hS (keeps_tryCatch (keeps_callExchange hS _ _ (fun _ => hP))) ?_
    intro r
    cases r with
    | ok result =>
      dsimp only
      split
      · split
        · exact keeps_pure hS _
        · exact keeps_neverSettles hS
      · exact ih
    | error e => exact ih

theorem bind_eq_ok {W α β : Type} (m : M W α) (f : α → M W β) (s s' : Bot W) (b : β)
    (h : (m >>= f) s = (Res.ok b, s')) : ∃ a s1, m s = (Res.ok a, s1) ∧ f a s1 = (Res.ok b, s') := by
  rw [bind_apply, M.bind] at h
  rcases hm : m s with ⟨r, s1⟩
  rw [hm] at h
  cases r with
  | ok a => exact ⟨a, s1, rfl, h⟩
  | threw e => simp at h
  | exited c => simp at h
  | hang => simp at h

theorem modifyBot_eq_ok {W : Type} (f : Bot W → Bot W) (s s' : Bot W) (u : Unit)
    (h : modifyBot f s = (Res.ok u, s')) : s' = f s := by
  simp only [modifyBot, Prod.mk.injEq] at h
  exact h.2.symm

theorem getBot_eq_ok {W : Type} (s s' a : Bot W) (h : getBot s = (Res.ok a, s')) :
    a = s ∧ s' = s := by
  simp only [getBot, Prod.mk.injEq, Res.ok.injEq] at h
  exact ⟨h.1.symm, h.2.symm⟩

/-- When `loadConfigAndTradingInfo` completes, the variables hold the persisted ladder and the
store is untouched. -/
theorem loadConfigAndTradingInfo_ok {W : Type} (ex : Exchange W) (cfg : Config) (s0 s : Bot W)
    (hload : loadConfigAndTradingInfo ex cfg s0 = (Res.ok (), s)) :
    s.vars.sellOrders = s0.db.sellOrders ∧ s.vars.buyOrder = s0.db.buyOrder ∧
    s.vars.buyOrderPrice = s0.db.buyOrderPrice ∧ s.db = s0.db := by
  rw [loadConfigAndTradingInfo] at hload
  obtain ⟨r1, s1, h1, hload⟩ := bind_eq_ok _ _ _ _ _ hload
  have f1 := keeps_tryCatch (keeps_fetchTradingRestrictionLoop stable_frame ex cfg trivial 5) s0
  rw [← fetchTradingRestrictionWithRetry, h1] at f1
  cases r1 with
  | error e => simp [processExit] at hload
  | ok result =>
    dsimp only at hload
    obtain ⟨u1, s2, h2, hload⟩ := bind_eq_ok _ _ _ _ _ hload
    have e2 := modifyBot_eq_ok _ _ _ _ h2
    obtain ⟨r3, s3, h3, hload⟩ := bind_eq_ok _ _ _ _ _ hload
    have f3 := keeps_tryCatch (keeps_fetchTradingPrecisionLoop stable_frame ex cfg trivial 5) s2
    rw [← fetchTradingPrecisionWithRetry, h3] at f3
    cases r3 with
    | error e => simp [processExit] at hload
    | ok result2 =>
      dsimp only at hload
      obtain ⟨u4, s4, h4, hload⟩ := bind_eq_ok _ _ _ _ _ hload
      have e4 := modifyBot_eq_ok _ _ _ _ h4
      obtain ⟨u5, s5, h5, hload⟩ := bind_eq_ok _ _ _ _ _ hload
      have e5 := modifyBot_eq_ok _ _ _ _ h5
      obtain ⟨a6, s6, h6, hload⟩ := bind_eq_ok _ _ _ _ _ hload
      obtain ⟨_, e6⟩ := getBot_eq_ok _ _ _ h6
      split at hload
      · simp [processExit] at hload
      · simp only [pure_apply, Prod.mk.injEq, true_and] at hload
        obtain ⟨_, hdb1, _, _⟩ := f1
        obtain ⟨_, hdb3, _, _⟩ := f3
        simp only at hdb1 hdb3
        have hdb : s3.db = s0.db := by rw [hdb3, e2]; exact hdb1
        rw [← hload, e6, e5, e4]
        dsimp only
        rw [hdb]
        exact ⟨rfl, rfl, rfl, rfl⟩

/-- C4: after loading a persisted ladder with at least one sell order, if a persisted sell order
reports the status `canceled`, or the persisted buy order reports the status `closed`, then
`canContinue` rejects and `startBot` ends with `process.exit(1)`, whatever the exchange answers
for the other orders. -/
theorem C4_recovery_fails {W : Type} (ex : Exchange W) (cfg : Config) (s0 s : Bot W) (id : String)
    (hload : loadConfigAndTradingInfo ex cfg s0 = (Res.ok (), s))
    (hne : s0.db.sellOrders.length > 0)
    (hrep : (id ∈ s0.db.sellOrders ∧
        ∀ t, ∃ o t', fetchOrderWithRetry ex id t = (Res.ok o, t') ∧ o.status = "canceled") ∨
      (s0.db.buyOrder = some id ∧ id ≠ "" ∧
        ∀ t, ∃ o t', fetchOrderWithRetry ex id t = (Res.ok o, t') ∧ o.status = "closed")) :
    (∃ e s', canContinue ex s = (Res.threw e, s')) ∧
    ∃ s', startBot ex cfg s0 = (Res.exited 1, s') := by
  obtain ⟨hsell, hbuy, _, _⟩ := loadConfigAndTradingInfo_ok ex cfg s0 s hload
  have hcc : ∃ e s', canContinue ex s = (Res.threw e, s') := by
    rcases hrep with ⟨hid, hcan⟩ | ⟨hb, hbne, hclosed⟩
    · obtain ⟨e, s', h⟩ := canContinueSellOrders_canceled ex id hcan s.vars.sellOrders
        (by rw [hsell]; exact hid) s
      exact ⟨e, s', by simp only [canContinue, bind_apply, M.bind, getBot, h]⟩
    · rcases canContinueSellOrders_settles ex s.vars.sellOrders s with ⟨s1, h⟩ | ⟨e, s1, h⟩
      · obtain ⟨o, t', hf, hst⟩ := hclosed s1
        have htr : truthy s.vars.buyOrder = true := by
          rw [hbuy, hb]
          simpa [truthy] using hbne
        have hget : s.vars.buyOrder.getD "" = id := by rw [hbuy, hb]; rfl
        refine ⟨Err.buyOrderFilled, t', ?_⟩
        simp only [canContinue, bind_apply, M.bind, getBot, h, htr, if_true, hget,
          tryCatch_ok _ _ _ _ hf, hst]
        rfl
      · exact ⟨e, s1, by simp only [canContinue, bind_apply, M.bind, getBot, h]⟩
  refine ⟨hcc, ?_⟩
  obtain ⟨e, s', h⟩ := hcc
  refine ⟨s', ?_⟩
  have hlen : s.vars.sellOrders.length > 0 := by rw [hsell]; exact hne
  simp only [startBot, bind_apply, M.bind, hload, getBot, hlen, if_true,
    tryCatch_threw _ _ _ _ h]
  rfl

theorem fetchOrderWithRetry_canceledSellExchange (t : Bot Unit) :
    fetchOrderWithRetry canceledSellExchange "s1" t =
      (Res.ok (orderAt "s1" "canceled" 0),
        afterCall t () (Call.fetchOrder "s1" (some (orderAt "s1" "canceled" 0)))) := by
  simp [fetchOrderWithRetry, fetchOrderLoop, bind_apply, M.bind, tryCatch, callExchange,
    canceledSellExchange, simpleExchange, orderAt, pure_apply]

theorem loadConfigAndTradingInfo_canceledSellExchange :
    (loadConfigAndTradingInfo canceledSellExchange twoStepConfig (startedOn ["s1"] none none)).1 =
      Res.ok () := by
  simp [loadConfigAndTradingInfo, fetchTradingRestrictionWithRetry, fetchTradingRestrictionLoop,
    fetchTradingPrecisionWithRetry, fetchTradingPrecisionLoop, bind_apply, M.bind, tryCatch,
    callExchange, canceledSellExchange, simpleExchange, twoStepConfig, startedOn, initialDb,
    initialVars, pure_apply, getBot, modifyBot, afterCall]

/-- Witness of C4: the persisted sell order `s1` reports `canceled`, and `startBot` exits with
code 1. -/
theorem C4_recovery_fails_witness :
    (∃ e s', canContinue canceledSellExchange
      (loadConfigAndTradingInfo canceledSellExchange twoStepConfig
        (startedOn ["s1"] none none)).2 = (Res.threw e, s')) ∧
    ∃ s', startBot canceledSellExchange twoStepConfig (startedOn ["s1"] none none) =
      (Res.exited 1, s') :=
  C4_recovery_fails canceledSellExchange twoStepConfig (startedOn ["s1"] none none) _ "s1"
    (Prod.ext loadConfigAndTradingInfo_canceledSellExchange rfl)
    (by simp [startedOn, initialDb])
    (Or.inl ⟨by simp [startedOn, initialDb],
      fun t => ⟨_, _, fetchOrderWithRetry_canceledSellExchange t, rfl⟩⟩)

theorem fetchOrderLoop_ok_logged {W : Type} (ex : Exchange W) (id : String) (n : ℕ) (s s' : Bot W)
    (o : Order) (h : fetchOrderLoop ex id n s = (Res.ok o, s')) :
    ∃ new, s'.calls = s.calls ++ new ∧ Call.fetchOrder id (some o) ∈ new ∧ o.id ≠ "" := by
  induction n generalizing s with
  | zero => simp [fetchOrderLoop, throwErr] at h
  | succ n ih =>
    simp only [fetchOrderLoop, bind_apply, M.bind, tryCatch, callExchange] at h
    rcases hf : ex.fetchOrder id s.world with ⟨r, w⟩
    rw [hf] at h
    cases r with
    | some o' =>
      by_cases hid : (o'.id != "") = true
      · simp only [hid, if_true, pure_apply, Prod.mk.injEq, Res.ok.injEq] at h
        obtain ⟨h1, h2⟩ := h
        subst h1
        subst h2
        exact ⟨[Call.fetchOrder id (some o')], rfl, List.mem_singleton.mpr rfl, by simpa using hid⟩
      · simp only [hid] at h
        obtain ⟨new, h1, h2, h3⟩ := ih _ h
        refine ⟨Call.fetchOrder id (some o') :: new, ?_, List.mem_cons_of_mem _ h2, h3⟩
        rw [h1]
        simp [afterCall]
    | none =>
      simp only at h
      obtain ⟨new, h1, h2, h3⟩ := ih _ h
      refine ⟨Call.fetchOrder id none :: new, ?_, List.mem_cons_of_mem _ h2, h3⟩
      rw [h1]
      simp [afterCall]

theorem canContinueSellOrders_ok {W : Type} (ex : Exchange W) (ids : List String) (s s' : Bot W)
    (h : canContinueSellOrders ex ids s = (Res.ok (), s')) :
    ∃ new, s'.calls = s.calls ++ new ∧
      ∀ id ∈ ids, ∃ o, Call.fetchOrder id (some o) ∈ new ∧ o.id ≠ "" ∧ o.status ≠ "canceled" := by
  induction ids generalizing s with
  | nil =>
    simp only [canContinueSellOrders, pure_apply, Prod.mk.injEq, true_and] at h
    exact ⟨[], by simp [h], by simp⟩
  | cons id rest ih =>
    rw [canContinueSellOrders] at h
    obtain ⟨r, s1, h1, h2⟩ := bind_eq_ok _ _ _ _ _ h
    cases r with
    | error e => simp [throwErr] at h2
    | ok o =>
      by_cases hc : o.status = "canceled"
      · simp [hc, throwErr] at h2
      · simp only [hc, if_false] at h2
        obtain ⟨new1, hn1, hm1, hid1⟩ := fetchOrderLoop_ok_logged ex id 5 s s1 o
          (tryCatch_eq_ok_ok _ _ _ _ h1)
        obtain ⟨new2, hn2, hall⟩ := ih _ h2
        refine ⟨new1 ++ new2, by rw [hn2, hn1, List.append_assoc], ?_⟩
        intro x hx
        rcases List.mem_cons.mp hx with hx | hx
        · subst hx
          exact ⟨o, List.mem_append_left _ hm1, hid1, hc⟩
        · obtain ⟨o2, ho2, hr⟩ := hall x hx
          exact ⟨o2, List.mem_append_right _ ho2, hr⟩

/-- C5 as stated fails: on an exchange that reports the only tracked sell order `s1` as `closed`
(filled while the bot was offline), `canContinue` resolves with `'All orders in place'`. -/
theorem C5_closed_sell_order_passes :
    (canContinue closedSellExchange (loadedWith ["s1"] none none)).1 =
      Res.ok "All orders in place" ∧
    (closedSellExchange.fetchOrder "s1" ()).1 = some (orderAt "s1" "closed" 2) ∧
    (orderAt "s1" "closed" 2).status ≠ "open" := by
  refine ⟨?_, ?_, ?_⟩
  · simp [canContinue, canContinueSellOrders, fetchOrderWithRetry, fetchOrderLoop, bind_apply,
      M.bind, tryCatch, callExchange, closedSellExchange, simpleExchange, orderAt, pure_apply,
      getBot, loadedWith, initialVars, truthy]
  · simp [closedSellExchange, simpleExchange]
  · simp [orderAt]

/-- C5 as amended: whenever `canContinue` resolves, every id in `sellOrders` was fetched during
the check with a response that carries an id and a status other than `canceled`, and a tracked
buy order was fetched with a status that is neither `canceled` nor `closed`. -/
theorem C5_recovery_success {W : Type} (ex : Exchange W) (s s' : Bot W) (msg : String)
    (h : canContinue ex s = (Res.ok msg, s')) :
    ∃ new, s'.calls = s.calls ++ new ∧
      (∀ id ∈ s.vars.sellOrders, ∃ o, Call.fetchOrder id (some o) ∈ new ∧ o.id ≠ "" ∧
        o.status ≠ "canceled") ∧
      (∀ b, s.vars.buyOrder = some b → b ≠ "" → ∃ o, Call.fetchOrder b (some o) ∈ new ∧
        o.id ≠ "" ∧ o.status ≠ "canceled" ∧ o.status ≠ "closed") := by
  rw [canContinue] at h
  obtain ⟨a, s1, h1, h⟩ := bind_eq_ok _ _ _ _ _ h
  obtain ⟨ha, hs1⟩ := getBot_eq_ok _ _ _ h1
  rw [ha, hs1] at h
  obtain ⟨u, s2, h2, h⟩ := bind_eq_ok _ _ _ _ _ h
  obtain ⟨new1, hn1, hall⟩ := canContinueSellOrders_ok ex _ _ _ h2
  by_cases htr : truthy s.vars.buyOrder = true
  · simp only [htr, if_true] at h
    obtain ⟨r, s3, h3, h⟩ := bind_eq_ok _ _ _ _ _ h
    cases r with
    | error e => simp [throwErr] at h
    | ok o =>
      by_cases hc : o.status = "canceled"
      · simp [hc, throwErr] at h
      · by_cases hcl : o.status = "closed"
        · simp [hcl, throwErr] at h
        · simp only [hc, hcl, if_false, pure_apply, Prod.mk.injEq] at h
          obtain ⟨new2, hn2, hm2, hid2⟩ := fetchOrderLoop_ok_logged ex _ 5 s2 s3 o
            (tryCatch_eq_ok_ok _ _ _ _ h3)
          refine ⟨new1 ++ new2, by rw [← h.2, hn2, hn1, List.append_assoc], ?_, ?_⟩
          · intro id hid
            obtain ⟨o1, ho1, hr⟩ := hall id hid
            exact ⟨o1, List.mem_append_left _ ho1, hr⟩
          · intro b hb _
            rw [hb] at hm2
            exact ⟨o, List.mem_append_right _ hm2, hid2, hc, hcl⟩
  · simp only [htr] at h
    simp only [Bool.false_eq_true, if_false, pure_apply, Prod.mk.injEq] at h
    refine ⟨new1, by rw [← h.2, hn1], hall, ?_⟩
    intro b hb hne
    exfalso
    apply htr
    rw [hb]
    simpa [truthy] using hne

/-- Witness of the amended C5: an exchange on which `s1` is open. -/
theorem C5_recovery_success_witness :
    ∃ new, (canContinue (simpleExchange (fun id => some (orderAt id "open" 0)) (fun _ => true))
        (loadedWith ["s1"] none none)).2.calls = (loadedWith ["s1"] none none).calls ++ new ∧
      (∀ id ∈ (loadedWith ["s1"] none none).vars.sellOrders, ∃ o,
        Call.fetchOrder id (some o) ∈ new ∧ o.id ≠ "" ∧ o.status ≠ "canceled") ∧
      (∀ b, (loadedWith ["s1"] none none).vars.buyOrder = some b → b ≠ "" → ∃ o,
        Call.fetchOrder b (some o) ∈ new ∧ o.id ≠ "" ∧ o.status ≠ "canceled" ∧
        o.status ≠ "closed") :=
  C5_recovery_success (simpleExchange (fun id => some (orderAt id "open" 0)) (fun _ => true))
    (loadedWith ["s1"] none none) _ "All orders in place"
    (Prod.ext (by
      simp [canContinue, canContinueSellOrders, fetchOrderWithRetry, fetchOrderLoop, bind_apply,
        M.bind, tryCatch, callExchange, simpleExchange, orderAt, pure_apply,
        getBot, loadedWith, initialVars, truthy]) rfl)

/-! ### Cancelling the ladder -/

theorem cancelPass_filter {W : Type} (ex : Exchange W) (fails : String → Bool) (ids : List String)
    (hfail : ∀ id ∈ ids, ∀ t, fails id = true →
      ∃ e t', cancelOrderWithRetry ex id t = (Res.threw e, t'))
    (hok : ∀ id ∈ ids, ∀ t, fails id = false →
      ∃ m t', cancelOrderWithRetry ex id t = (Res.ok m, t'))
    (un : List String) (s : Bot W) :
    ∃ s', cancelPass ex ids un s = (Res.ok (un ++ ids.filter fails), s') ∧ Frame s s' := by
  induction ids generalizing un s with
  | nil => exact ⟨s, by simp [cancelPass, pure_apply], stable_frame.refl s⟩
  | cons id rest ih =>
    have hfr := keeps_cancelOrderWithRetry stable_frame ex id (fun _ => trivial) trivial s
    have hfail' : ∀ x ∈ rest, ∀ t, fails x = true →
        ∃ e t', cancelOrderWithRetry ex x t = (Res.threw e, t') :=
      fun x hx => hfail x (List.mem_cons_of_mem _ hx)
    have hok' : ∀ x ∈ rest, ∀ t, fails x = false →
        ∃ m t', cancelOrderWithRetry ex x t = (Res.ok m, t') :=
      fun x hx => hok x (List.mem_cons_of_mem _ hx)
    by_cases hf : fails id = true
    · obtain ⟨e, t', h⟩ := hfail id (List.mem_cons_self _ _) s hf
      rw [h] at hfr
      obtain ⟨s', h1, h2⟩ := ih hfail' hok' (un ++ [id]) t'
      refine ⟨s', ?_, stable_frame.trans _ _ _ hfr h2⟩
      simp only [cancelPass, bind_apply, M.bind, tryCatch_threw _ _ _ _ h, h1, List.filter_cons, hf,
        if_true, List.append_assoc, List.singleton_append]
    · have hf' : fails id = false := by simpa using hf
      obtain ⟨m, t', h⟩ := hok id (List.mem_cons_self _ _) s hf'
      rw [h] at hfr
      obtain ⟨s', h1, h2⟩ := ih hfail' hok' un t'
      refine ⟨s', ?_, stable_frame.trans _ _ _ hfr h2⟩
      simp only [cancelPass, bind_apply, M.bind, tryCatch_ok _ _ _ _ h, h1, List.filter_cons, hf']
      simp

theorem cancelAllLoop_stuck {W : Type} (ex : Exchange W) (fails : String → Bool) (n : ℕ)
    (ids : List String)
    (hfail : ∀ id ∈ ids, ∀ t, fails id = true →
      ∃ e t', cancelOrderWithRetry ex id t = (Res.threw e, t'))
    (hok : ∀ id ∈ ids, ∀ t, fails id = false →
      ∃ m t', cancelOrderWithRetry ex id t = (Res.ok m, t'))
    (hM : ids.filter fails ≠ []) (s : Bot W) :
    ∃ s', cancelAllLoop ex (n + 1) ids s = (Res.exited 1, s') ∧ s'.db.unrecoverable = true ∧
      s'.db.sellOrders = ids.filter fails ∧ s'.vars = s.vars := by
  induction n generalizing ids s with
  | zero =>
    obtain ⟨s1, h1, hfr⟩ := cancelPass_filter ex fails ids hfail hok [] s
    have hlen : ¬ (List.filter fails ids).length = 0 := by
      rw [List.length_eq_zero]
      exact hM
    have hrun : cancelAllLoop ex (0 + 1) ids s =
        (Res.exited 1, { s1 with db := { s1.db with
          sellOrders := ids.filter fails, firstSellPrice := none, unrecoverable := true } }) := by
      simp only [cancelAllLoop, bind_apply, M.bind, h1, List.nil_append, modifyBot, hlen, if_false,
        processExit]
    exact ⟨_, hrun, rfl, rfl, hfr.1⟩
  | succ n ih =>
    obtain ⟨s1, h1, hfr⟩ := cancelPass_filter ex fails ids hfail hok [] s
    have hlen : ¬ (List.filter fails ids).length = 0 := by
      rw [List.length_eq_zero]
      exact hM
    have hsub : ∀ x ∈ ids.filter fails, x ∈ ids := fun x hx => List.mem_of_mem_filter hx
    obtain ⟨s', h2, h3, h4, h5⟩ := ih (ids.filter fails) (fun x hx => hfail x (hsub x hx))
      (fun x hx => hok x (hsub x hx)) (by rw [List.filter_filter]; simpa using hM)
      { s1 with db := { s1.db with sellOrders := ids.filter fails, firstSellPrice := none } }
    refine ⟨s', ?_, h3, ?_, ?_⟩
    · rw [cancelAllLoop]
      simp only [bind_apply, M.bind, h1, List.nil_append, modifyBot, hlen, if_false]
      exact h2
    · rw [h4, List.filter_filter]
      simp
    · rw [h5]
      exact hfr.1

/-- C6: when the cancel of some tracked sell orders fails on every attempt (`fails`) and the cancel
of the others succeeds, `cancelAllOrders` ends with `process.exit(1)`, the store holding
`unrecoverable = true` and as `sellOrders` exactly the orders that failed, in their original
order. -/
theorem C6_cancel_all_unrecoverable {W : Type} (ex : Exchange W) (fails : String → Bool)
    (s : Bot W)
    (hfail : ∀ id ∈ s.vars.sellOrders, ∀ t, fails id = true →
      ∃ e t', cancelOrderWithRetry ex id t = (Res.threw e, t'))
    (hok : ∀ id ∈ s.vars.sellOrders, ∀ t, fails id = false →
      ∃ m t', cancelOrderWithRetry ex id t = (Res.ok m, t'))
    (hM : 1 ≤ (s.vars.sellOrders.filter fails).length) :
    ∃ s', cancelAllOrders ex s = (Res.exited 1, s') ∧ s'.db.unrecoverable = true ∧
      s'.db.sellOrders = s.vars.sellOrders.filter fails := by
  have hne : s.vars.sellOrders.filter fails ≠ [] := by
    intro h
    rw [h] at hM
    simp at hM
  obtain ⟨s', h1, h2, h3, _⟩ := cancelAllLoop_stuck ex fails 2 s.vars.sellOrders hfail hok hne s
  exact ⟨s', by simp only [cancelAllOrders, bind_apply, M.bind, getBot, h1], h2, h3⟩

theorem cancelOrderWithRetry_stuck_s2 (t : Bot Unit) :
    ∃ e t', cancelOrderWithRetry stuckCancelExchange "s2" t = (Res.threw e, t') := by
  refine ⟨Err.unableToCancel "s2", (cancelOrderWithRetry stuckCancelExchange "s2" t).2,
    Prod.ext ?_ rfl⟩
  simp [cancelOrderWithRetry, cancelOrderLoop, fetchOrderWithRetry, fetchOrderLoop, bind_apply,
    M.bind, tryCatch, callExchange, stuckCancelExchange, simpleExchange, orderAt, pure_apply,
    throwErr]

theorem cancelOrderWithRetry_stuck_other (id : String) (h1 : id ≠ "") (h2 : id ≠ "s2")
    (t : Bot Unit) :
    ∃ m t', cancelOrderWithRetry stuckCancelExchange id t = (Res.ok m, t') := by
  refine ⟨"Order canceled", (cancelOrderWithRetry stuckCancelExchange id t).2, Prod.ext ?_ rfl⟩
  simp [cancelOrderWithRetry, cancelOrderLoop, fetchOrderWithRetry, fetchOrderLoop, bind_apply,
    M.bind, tryCatch, callExchange, stuckCancelExchange, simpleExchange, orderAt, pure_apply,
    h1, h2]

/-- Witness of C6: of the three orders `s1`, `s2`, `s3` only `s2` cannot be cancelled. -/
theorem C6_cancel_all_unrecoverable_witness :
    ∃ s', cancelAllOrders stuckCancelExchange (loadedWith ["s1", "s2", "s3"] none none) =
        (Res.exited 1, s') ∧ s'.db.unrecoverable = true ∧ s'.db.sellOrders = ["s2"] :=
  C6_cancel_all_unrecoverable stuckCancelExchange (fun id => id == "s2")
    (loadedWith ["s1", "s2", "s3"] none none)
    (by
      intro id hid t hf
      have : id = "s2" := by simpa using hf
      rw [this]
      exact cancelOrderWithRetry_stuck_s2 t)
    (by
      intro id hid t hf
      have h2 : id ≠ "s2" := by simpa using hf
      have h1 : id ≠ "" := by
        simp [loadedWith, initialVars] at hid
        rcases hid with h | h | h <;> rw [h] <;> decide
      exact cancelOrderWithRetry_stuck_other id h1 h2 t)
    (by simp [loadedWith, initialVars, List.filter])

/-! ### The reconciliation cycle -/

theorem keeps_cancelAllLoop {W : Type} {R : Bot W → Bot W → Prop} {P : Call → Prop}
    (hS : Stable R P) (hB : ∀ s s', BuyFrame s s' → R s s') (ex : Exchange W)
    (hP : ∀ id r, P (.fetchOrder id r)) (hP' : ∀ id, P (.cancelOrder id)) (n : ℕ)
    (ids : List String) : Keeps R (cancelAllLoop ex n ids) := by
  induction n generalizing ids with
  | zero =>
    rw [cancelAllLoop]
    exact keeps_bind hS (keeps_modifyBot _ (fun s => hB _ _ ⟨rfl, rfl, rfl, rfl, rfl, rfl⟩))
      (fun _ => keeps_processExit hS _)
  | succ n ih =>
    rw [cancelAllLoop]
    refine keeps_bind hS (keeps_cancelPass hS ex hP hP' _ _) ?_
    intro un
    refine keeps_bind hS (keeps_modifyBot _ (fun s => hB _ _ ⟨rfl, rfl, rfl, rfl, rfl, rfl⟩)) ?_
    intro _
    split
    · exact keeps_bind hS (keeps_modifyBot _ (fun s => hB _ _ ⟨rfl, rfl, rfl, rfl, rfl, rfl⟩))
        (fun _ => keeps_pure hS _)
    · exact ih _

theorem keeps_cancelAllOrders {W : Type} {R : Bot W → Bot W → Prop} {P : Call → Prop}
    (hS : Stable R P) (hB : ∀ s s', BuyFrame s s' → R s s') (ex : Exchange W)
    (hP : ∀ id r, P (.fetchOrder id r)) (hP' : ∀ id, P (.cancelOrder id)) :
    Keeps R (cancelAllOrders ex) := by
  rw [cancelAllOrders]
  exact keeps_bind hS (keeps_getBot hS) (fun s => keeps_cancelAllLoop hS hB ex hP hP' 3 _)

theorem keeps_dcaForEach {W : Type} {R : Bot W → Bot W → Prop} {P : Call → Prop}
    (hS : Stable R P) (hB : ∀ s s', BuyFrame s s' → R s s') (cfg : Config) (dca : List ℚ)
    (r : Rungs) : Keeps R (dcaForEach cfg dca r : M W Rungs) := by
  induction dca generalizing r with
  | nil => exact keeps_pure hS _
  | cons d rest ih =>
    rw [dcaForEach]
    refine keeps_bind hS (keeps_getBot hS) ?_
    intro s
    refine keeps_bind hS (keeps_modifyBot _ (fun s => hB _ _ ⟨rfl, rfl, rfl, rfl, rfl, rfl⟩)) ?_
    intro _
    dsimp only
    split
    · split
      · split
        · exact keeps_processExit hS _
        · exact ih _
      · exact keeps_throwErr hS _
    · exact ih _

theorem keeps_placeRungs {W : Type} {R : Bot W → Bot W → Prop} {P : Call → Prop}
    (hS : Stable R P) (hB : ∀ s s', BuyFrame s s' → R s s') (ex : Exchange W) (cfg : Config)
    (hP : ∀ amount price, P (.createLimitSellOrder amount price)) (amounts : List ℚ) (index : ℕ)
    (prices : List ℚ) : Keeps R (placeRungs ex cfg amounts index prices) := by
  induction prices generalizing index with
  | nil =>
    rw [placeRungs]
    exact keeps_pure hS _
  | cons price rest ih =>
    rw [placeRungs]
    split
    · refine keeps_bind hS (keeps_tryCatch (keeps_placeSellOrderLoop hS ex _ _ (hP _ _) 5)) ?_
      intro r
      cases r with
      | error e => exact keeps_processExit hS _
      | ok result =>
        dsimp only
        refine keeps_bind hS
          (keeps_modifyBot _ (fun s => hB _ _ ⟨rfl, rfl, rfl, rfl, rfl, rfl⟩)) ?_
        intro _
        split
        · refine keeps_bind hS
            (keeps_dateNow ex (fun s w => hB _ _ ⟨rfl, rfl, rfl, rfl, rfl, rfl⟩)) ?_
          intro t
          exact keeps_bind hS
            (keeps_modifyBot _ (fun s => hB _ _ ⟨rfl, rfl, rfl, rfl, rfl, rfl⟩)) (fun _ => ih _)
        · exact ih _
    · exact ih _

theorem keeps_buildDCA {W : Type} {R : Bot W → Bot W → Prop} {P : Call → Prop}
    (hS : Stable R P) (hB : ∀ s s', BuyFrame s s' → R s s') (ex : Exchange W) (cfg : Config)
    (hP : ∀ amount price, P (.createLimitSellOrder amount price)) (hP' : P .fetchTicker)
    (hP'' : P .fetchBalance) : Keeps R (buildDCA ex cfg) := by
  rw [buildDCA]
  refine keeps_bind hS (keeps_tryCatch (keeps_getLowestSellPriceLoop hS ex hP' 5)) ?_
  intro r
  cases r with
  | error e => exact keeps_processExit hS _
  | ok lowestSellPrice =>
    dsimp only
    refine keeps_bind hS (keeps_getBot hS) ?_
    intro s
    refine keeps_bind hS (keeps_modifyBot _ (fun s => hB _ _ ⟨rfl, rfl, rfl, rfl, rfl, rfl⟩)) ?_
    intro _
    split
    · refine keeps_bind hS (keeps_tryCatch (keeps_fetchBalanceLoop hS ex hP'' 5)) ?_
      intro b
      cases b with
      | error e => exact keeps_processExit hS _
      | ok result =>
        dsimp only
        refine keeps_bind hS
          (keeps_modifyBot _ (fun s => hB _ _ ⟨rfl, rfl, rfl, rfl, rfl, rfl⟩)) ?_
        intro _
        exact keeps_bind hS (keeps_dcaForEach hS hB cfg _ _)
          (fun r => keeps_placeRungs hS hB ex cfg hP _ _ _)
    · exact keeps_bind hS (keeps_dcaForEach hS hB cfg _ _)
        (fun r => keeps_placeRungs hS hB ex cfg hP _ _ _)

theorem clearBuyOrder_apply {W : Type} (s : Bot W) :
    clearBuyOrder s =
      (Res.ok (), { s with
        vars := { s.vars with buyOrder := none }, db := { s.db with buyOrder := none } }) := rfl

theorem clearBuyOrderPrice_apply {W : Type} (s : Bot W) :
    clearBuyOrderPrice s =
      (Res.ok (), { s with
        vars := { s.vars with buyOrderPrice := none },
        db := { s.db with buyOrderPrice := none } }) := rfl

theorem recordBuyOrder_apply {W : Type} (id : String) (s : Bot W) :
    recordBuyOrder id s =
      (Res.ok (), { s with
        vars := { s.vars with buyOrder := some id }, db := { s.db with buyOrder := some id } }) :=
  rfl

theorem recordBuyOrderPrice_apply {W : Type} (buyPrice : ℚ) (s : Bot W) :
    recordBuyOrderPrice buyPrice s =
      (Res.ok (), { s with
        vars := { s.vars with buyOrderPrice := some buyPrice },
        db := { s.db with buyOrderPrice := some buyPrice } }) := rfl

theorem keeps_clearBuyPair {W β : Type} {R : Bot W → Bot W → Prop} {P : Call → Prop}
    (hS : Stable R P) (k : M W β)
    (hclear : ∀ s : Bot W, R s { s with
      vars := { s.vars with buyOrder := none, buyOrderPrice := none },
      db := { s.db with buyOrder := none, buyOrderPrice := none } })
    (hk : Keeps R k) :
    Keeps R (clearBuyOrder >>= fun _ => clearBuyOrderPrice >>= fun _ => k) := by
  intro s
  simp only [bind_apply, M.bind, clearBuyOrder_apply, clearBuyOrderPrice_apply]
  exact hS.trans _ _ _ (hclear s) (hk _)

theorem keeps_recordBuyPair {W : Type} {R : Bot W → Bot W → Prop} (id : String) (buyPrice : ℚ)
    (hrecord : ∀ s : Bot W, R s { s with
      vars := { s.vars with buyOrder := some id, buyOrderPrice := some buyPrice },
      db := { s.db with buyOrder := some id, buyOrderPrice := some buyPrice } }) :
    Keeps R (recordBuyOrder id >>= fun _ => recordBuyOrderPrice buyPrice) := by
  intro s
  simp only [bind_apply, M.bind, recordBuyOrder_apply, recordBuyOrderPrice_apply]
  exact hrecord s

theorem pairGood_of_buyFrame {W : Type} (s s' : Bot W) (h : BuyFrame s s') :
    PairGood s → PairGood s' := by
  obtain ⟨h1, h2, h3, h4, _, h6⟩ := h
  intro hg
  refine ⟨?_, ?_⟩
  · have := hg.1
    simp only [PairOK] at this ⊢
    rw [h1, h2, h3, h4]
    exact this
  · rw [h6]
    exact hg.2

theorem keeps_pair_checkOrders {W : Type} (ex : Exchange W) (cfg : Config) :
    Keeps (fun s s' : Bot W => PairGood s → PairGood s') (checkOrders ex cfg) := by
  have hS := stable_pairGood (W := W)
  have hB := pairGood_of_buyFrame (W := W)
  rw [checkOrders]
  refine keeps_bind hS (keeps_getBot hS) ?_
  intro s
  refine keeps_bind hS (keeps_scanSellOrders hS ex (fun _ _ => trivial) _ _ _ _) ?_
  intro scan
  cases scan with
  | none => exact keeps_pure hS _
  | some v =>
    obtain ⟨filled, price, sum⟩ := v
    dsimp only
    split
    · split
      · refine keeps_bind hS (keeps_tryCatch (keeps_placeBuyOrderLoop hS ex _ _ trivial 5)) ?_
        intro r
        cases r with
        | error e => exact keeps_pure hS _
        | ok result =>
          dsimp only
          refine keeps_recordBuyPair _ _ ?_
          intro t hg
          exact ⟨⟨by simp, by simp⟩, hg.2⟩
      · exact keeps_pure hS _
    · split
      · refine keeps_bind hS
          (keeps_dateNow ex (fun s w => hB _ _ ⟨rfl, rfl, rfl, rfl, rfl, rfl⟩)) ?_
        intro t
        refine keeps_bind hS (keeps_getBot hS) ?_
        intro s1
        split
        · refine keeps_bind hS (keeps_tryCatch (keeps_getLowestSellPriceLoop hS ex trivial 5)) ?_
          intro r
          cases r with
          | error e => exact keeps_pure hS _
          | ok result =>
            dsimp only
            split
            · exact keeps_bind hS
                (keeps_cancelAllOrders hS hB ex (fun _ _ => trivial) (fun _ => trivial))
                (fun _ => keeps_buildDCA hS hB ex cfg (fun _ _ => trivial) trivial trivial)
            · exact keeps_pure hS _
        · exact keeps_pure hS _
      · exact keeps_pure hS _

theorem keeps_pair_checkOrdersWithBuyOrder {W : Type} (ex : Exchange W) (cfg : Config) :
    Keeps (fun s s' : Bot W => PairGood s → PairGood s') (checkOrdersWithBuyOrder ex cfg) := by
  have hS := stable_pairGood (W := W)
  have hB := pairGood_of_buyFrame (W := W)
  rw [checkOrdersWithBuyOrder]
  refine keeps_bind hS (keeps_getBot hS) ?_
  intro s
  refine keeps_bind hS (keeps_tryCatch (keeps_fetchOrderWithRetry hS ex _ (fun _ => trivial))) ?_
  intro order
  cases order with
  | error e => exact keeps_pure hS _
  | ok result =>
    dsimp only
    split
    · refine keeps_clearBuyPair hS _ ?_ ?_
      · intro t hg
        exact ⟨⟨by simp, by simp⟩, hg.2⟩
      · exact keeps_bind hS
          (keeps_cancelAllOrders hS hB ex (fun _ _ => trivial) (fun _ => trivial))
          (fun _ => keeps_buildDCA hS hB ex cfg (fun _ _ => trivial) trivial trivial)
    · refine keeps_bind hS (keeps_scanSellOrders hS ex (fun _ _ => trivial) _ _ _ _) ?_
      intro scan
      cases scan with
      | none => exact keeps_pure hS _
      | some v =>
        obtain ⟨filled, price, sum⟩ := v
        dsimp only
        split
        · exact keeps_throwErr hS _
        · exact keeps_pure hS _

theorem keeps_pair_checkForUpdate {W : Type} (ex : Exchange W) (cfg : Config) :
    Keeps (fun s s' : Bot W => PairGood s → PairGood s') (checkForUpdate ex cfg) := by
  have hS := stable_pairGood (W := W)
  rw [checkForUpdate]
  refine keeps_bind hS (keeps_getBot hS) ?_
  intro s
  refine keeps_bind hS (keeps_tryCatch ?_) (fun _ => keeps_pure hS _)
  split
  · exact keeps_pair_checkOrdersWithBuyOrder ex cfg
  · exact keeps_pair_checkOrders ex cfg

/-- C7 as amended: a reconciliation cycle (`checkOrders`, `checkOrdersWithBuyOrder`, or the one
`checkForUpdate` selects) started in a state where `buyOrder` and `buyOrderPrice` are both set or
both `null`, in the variables and in the store, ends in such a state however it ends and whatever
the exchange answers, and the process is in such a state at every call it makes to the exchange
during the cycle.  The states between the statements that write the two fields one after the
other are not among these. -/
theorem C7_buy_pair_invariant {W : Type} (ex : Exchange W) (cfg : Config) (s : Bot W)
    (h : PairGood s) :
    PairGood (checkOrders ex cfg s).2 ∧ PairGood (checkOrdersWithBuyOrder ex cfg s).2 ∧
    PairGood (checkForUpdate ex cfg s).2 :=
  ⟨keeps_pair_checkOrders ex cfg s h, keeps_pair_checkOrdersWithBuyOrder ex cfg s h,
    keeps_pair_checkForUpdate ex cfg s h⟩

/-- Witness of C7: a process tracking the sell order `s1` and the buy order `b1` at price `90`,
on an exchange that does not know `b1`; and a process tracking `s1`, `s2` and `b1` in live mode
on an exchange that reports `b1` closed, so that the cycle clears the pair and rebuilds the
ladder. -/
theorem C7_buy_pair_invariant_witness :
    (PairGood (loadedWith ["s1"] (some "b1") (some 90)) ∧
    PairGood (checkOrders closedSellExchange twoStepConfig
      (loadedWith ["s1"] (some "b1") (some 90))).2 ∧
    PairGood (checkOrdersWithBuyOrder closedSellExchange twoStepConfig
      (loadedWith ["s1"] (some "b1") (some 90))).2 ∧
    PairGood (checkForUpdate closedSellExchange twoStepConfig
      (loadedWith ["s1"] (some "b1") (some 90))).2) ∧
    PairGood (checkOrders completedBuyExchange liveConfig
      (loadedWith ["s1", "s2"] (some "b1") (some 90))).2 ∧
    PairGood (checkOrdersWithBuyOrder completedBuyExchange liveConfig
      (loadedWith ["s1", "s2"] (some "b1") (some 90))).2 ∧
    PairGood (checkForUpdate completedBuyExchange liveConfig
      (loadedWith ["s1", "s2"] (some "b1") (some 90))).2 :=
  ⟨⟨by simp [PairGood, PairOK, loadedWith, initialVars, initialDb],
    C7_buy_pair_invariant closedSellExchange twoStepConfig
      (loadedWith ["s1"] (some "b1") (some 90))
      (by simp [PairGood, PairOK, loadedWith, initialVars, initialDb])⟩,
   C7_buy_pair_invariant completedBuyExchange liveConfig
    (loadedWith ["s1", "s2"] (some "b1") (some 90))
    (by simp [PairGood, PairOK, loadedWith, initialVars, initialDb])⟩

theorem fetchOrderLoop_ok_response {W : Type} (ex : Exchange W) (id : String) (n : ℕ)
    (s s' : Bot W) (o : Order) (h : fetchOrderLoop ex id n s = (Res.ok o, s')) :
    ∃ w, (ex.fetchOrder id w).1 = some o := by
  induction n generalizing s with
  | zero => simp [fetchOrderLoop, throwErr] at h
  | succ n ih =>
    simp only [fetchOrderLoop, bind_apply, M.bind, tryCatch, callExchange] at h
    rcases hf : ex.fetchOrder id s.world with ⟨r, w⟩
    rw [hf] at h
    cases r with
    | some o' =>
      by_cases hid : (o'.id != "") = true
      · simp only [hid, if_true, pure_apply, Prod.mk.injEq, Res.ok.injEq] at h
        exact ⟨s.world, by rw [hf, ← h.1]⟩
      · simp only [hid] at h
        exact ih _ h
    | none =>
      simp only at h
      exact ih _ h

theorem scanSellOrders_zero {W : Type} (ex : Exchange W) (ids : List String)
    (hzero : ∀ id ∈ ids, ∀ t o t', fetchOrderWithRetry ex id t = (Res.ok o, t') → o.filled = 0)
    (filled price : List ℚ) (sum : ℚ) (s : Bot W) :
    ∃ r s', scanSellOrders ex ids filled price sum s = (Res.ok r, s') ∧
      ∀ f p sm, r = some (f, p, sm) → sm = sum := by
  induction ids generalizing filled price sum s with
  | nil =>
    refine ⟨_, s, rfl, ?_⟩
    intro f p sm h
    simp only [Option.some.injEq, Prod.mk.injEq] at h
    exact h.2.2.symm
  | cons id rest ih =>
    obtain ⟨r, s1, h⟩ := tryCatch_fetchOrderWithRetry ex id s
    cases r with
    | error e =>
      refine ⟨none, s1, ?_, ?_⟩
      · simp only [scanSellOrders, bind_apply, M.bind, h, pure_apply]
      · intro f p sm hr
        cases hr
    | ok o =>
      have ho := hzero id (List.mem_cons_self _ _) s o s1 (tryCatch_eq_ok_ok _ _ _ _ h)
      obtain ⟨r', s', h1, h2⟩ := ih (fun x hx => hzero x (List.mem_cons_of_mem _ hx))
        (filled ++ [o.filled]) (price ++ [o.price]) (sum + o.filled) s1
      refine ⟨r', s', ?_, ?_⟩
      · simp only [scanSellOrders, bind_apply, M.bind, h, h1]
      · intro f p sm hr
        rw [h2 f p sm hr, ho, add_zero]

/-- C8: with `secondsToKeepDCA = -1`, a `checkOrders` cycle in which every sell order that is
fetched reports a filled amount of zero completes without issuing a cancellation or a placement
and leaves the variables (`sellOrders`, `buyOrder`, `buyOrderPrice` among them) and the store
unchanged, whatever the clock, the first sell price and time, and the market. -/
theorem C8_no_rebuild_when_disabled {W : Type} (ex : Exchange W) (cfg : Config) (s : Bot W)
    (hkeep : cfg.secondsToKeepDCA = -1)
    (hzero : ∀ id ∈ s.vars.sellOrders, ∀ t o t',
      fetchOrderWithRetry ex id t = (Res.ok o, t') → o.filled = 0) :
    ∃ s', checkOrders ex cfg s = (Res.ok (), s') ∧ s'.vars = s.vars ∧ s'.db = s.db ∧
      s'.calls.filter Call.isMutation = s.calls.filter Call.isMutation := by
  obtain ⟨r, s', h, hsum⟩ := scanSellOrders_zero ex s.vars.sellOrders hzero [] [] 0 s
  have hfr := keeps_scanSellOrders stable_frame ex (fun _ _ => trivial) s.vars.sellOrders [] [] 0 s
  have hnm := keeps_scanSellOrders stable_noMutation ex (fun _ _ => rfl) s.vars.sellOrders [] [] 0 s
  rw [h] at hfr hnm
  refine ⟨s', ?_, hfr.1, hfr.2.1, hnm⟩
  cases r with
  | none => simp only [checkOrders, bind_apply, M.bind, getBot, h, pure_apply]
  | some v =>
    obtain ⟨f, p, sm⟩ := v
    have hsm := hsum f p sm rfl
    subst hsm
    have hk : ¬ (cfg.secondsToKeepDCA ≥ 0) := by
      rw [hkeep]
      norm_num
    have h0 : ¬ ((0 : ℚ) > 0) := lt_irrefl _
    simp only [checkOrders, bind_apply, M.bind, getBot, h, hk, h0, if_false, pure_apply]

/-- Witness of C8: one open sell order with nothing filled. -/
theorem C8_no_rebuild_when_disabled_witness :
    ∃ s', checkOrders (simpleExchange (fun id => some (orderAt id "open" 0)) (fun _ => true))
        twoStepConfig (loadedWith ["s1"] none none) = (Res.ok (), s') ∧
      s'.vars = (loadedWith ["s1"] none none).vars ∧ s'.db = (loadedWith ["s1"] none none).db ∧
      s'.calls.filter Call.isMutation =
        (loadedWith ["s1"] none none).calls.filter Call.isMutation :=
  C8_no_rebuild_when_disabled (simpleExchange (fun id => some (orderAt id "open" 0)) (fun _ => true))
    twoStepConfig (loadedWith ["s1"] none none) rfl
    (by
      intro id _ t o t' h
      obtain ⟨w, hw⟩ := fetchOrderLoop_ok_response _ id 5 t t' o h
      simp only [simpleExchange, Option.some.injEq] at hw
      rw [← hw]
      rfl)

/-! ### The buy order recomputed from the fills -/

theorem reconcile_example :
    reconcile twoStepConfig 0 0 [100, 90] [1, 2] 3 = (280 / 3, 93, 4) := by
  have e1 : (⌈(462 / 5 : ℚ)⌉ : ℤ) = 93 := ceil_eq_of_bounds _ _ (by norm_num) (by norm_num)
  have e2 : (⌈(280 / 93 : ℚ)⌉ : ℤ) = 4 := ceil_eq_of_bounds _ _ (by norm_num) (by norm_num)
  have h1 : sumProduct [100, 90] [1, 2] / 3 = 280 / 3 := by norm_num [sumProduct]
  have h2 : getCleanPriceFloor 0 (280 / 3 * (1 - twoStepConfig.profit / 100)) = 93 := by
    have : (10 : ℚ) ^ 0 * (280 / 3 * (1 - twoStepConfig.profit / 100)) = 462 / 5 := by
      norm_num [twoStepConfig]
    rw [getCleanPriceFloor, this, e1]
    norm_num
  have h3 : getCleanAmountFloor 0 (3 * (280 / 3) / 93) = 4 := by
    have : (10 : ℚ) ^ 0 * (3 * (280 / 3) / 93) = 280 / 93 := by norm_num
    rw [getCleanAmountFloor, this, e2]
    norm_num
  simp only [reconcile, h1, h2, h3]

/-- C10 on the code: the buy order `b1` is open at `90` for an amount of `1`, the sell orders
report the fills `(100, 1)` and `(90, 2)`, so the recomputed buy price `93` is higher than
`buyOrderPrice` and the recomputed amount `4` exceeds the order's amount.  The cycle ends with a
`ReferenceError`: no cancellation and no placement is issued and `buyOrder`, `buyOrderPrice` still
hold `b1` and `90`; `checkForUpdate` catches the error and leaves the same state. -/
theorem C10_stale_buy_order_not_replaced :
    reconcile twoStepConfig 0 0 [100, 90] [1, 2] 3 = (280 / 3, 93, 4) ∧
    (checkOrdersWithBuyOrder filledSellExchange twoStepConfig
      (loadedWith ["s1", "s2"] (some "b1") (some 90))).1 = Res.threw Err.referenceError ∧
    (checkOrdersWithBuyOrder filledSellExchange twoStepConfig
      (loadedWith ["s1", "s2"] (some "b1") (some 90))).2.calls.filter Call.isMutation = [] ∧
    (checkForUpdate filledSellExchange twoStepConfig
      (loadedWith ["s1", "s2"] (some "b1") (some 90))).1 = Res.ok () ∧
    (checkForUpdate filledSellExchange twoStepConfig
      (loadedWith ["s1", "s2"] (some "b1") (some 90))).2.calls.filter Call.isMutation = [] ∧
    (checkForUpdate filledSellExchange twoStepConfig
      (loadedWith ["s1", "s2"] (some "b1") (some 90))).2.vars.buyOrder = some "b1" ∧
    (checkForUpdate filledSellExchange twoStepConfig
      (loadedWith ["s1", "s2"] (some "b1") (some 90))).2.vars.buyOrderPrice = some 90 := by
  have hrun : checkOrdersWithBuyOrder filledSellExchange twoStepConfig
      (loadedWith ["s1", "s2"] (some "b1") (some 90)) =
      (Res.threw Err.referenceError,
        { loadedWith ["s1", "s2"] (some "b1") (some 90) with
          calls := [
            Call.fetchOrder "b1"
              (some { id := "b1", status := "open", filled := 0, price := 90, amount := 1 }),
            Call.fetchOrder "s1"
              (some { id := "s1", status := "closed", filled := 1, price := 100, amount := 1 }),
            Call.fetchOrder "s2"
              (some { id := "s2", status := "open", filled := 2, price := 90, amount := 4 })],
          observed := List.replicate 3
            ((loadedWith ["s1", "s2"] (some "b1") (some 90)).vars,
              (loadedWith ["s1", "s2"] (some "b1") (some 90)).db) }) := by
    have h3 : (1 : ℚ) + 2 = 3 := by norm_num
    simp [checkOrdersWithBuyOrder, scanSellOrders, fetchOrderWithRetry, fetchOrderLoop,
      bind_apply, M.bind, tryCatch, callExchange, filledSellExchange, simpleExchange, pure_apply,
      getBot, loadedWith, initialVars, initialDb, afterCall, h3, reconcile_example, throwErr,
      List.replicate]
  refine ⟨reconcile_example, ?_, ?_, ?_, ?_, ?_, ?_⟩
  · rw [hrun]
  · rw [hrun]
    simp [Call.isMutation]
  all_goals
    have htr : truthy (loadedWith ["s1", "s2"] (some "b1") (some 90)).vars.buyOrder = true := by
      simp [truthy, loadedWith]
    simp only [checkForUpdate, bind_apply, M.bind, getBot, htr, if_true, tryCatch, hrun,
      pure_apply]
    try simp [Call.isMutation, loadedWith]

/-! ### The ladder builder runs the fold -/

/-- When the `forEach` of `buildDCA` completes (it always does in demo mode), the arrays it built
are those of the fold `ladder` is defined by. -/
theorem dcaForEach_ok {W : Type} (cfg : Config) (dca : List ℚ) (r r' : Rungs) (s s' : Bot W)
    (h : dcaForEach cfg dca r s = (Res.ok r', s')) :
    r' = dca.foldl (dcaStep s.vars.pricePrecision) r ∧
    s'.vars.pricePrecision = s.vars.pricePrecision := by
  induction dca generalizing r s with
  | nil =>
    simp only [dcaForEach, pure_apply, Prod.mk.injEq, Res.ok.injEq] at h
    exact ⟨h.1.symm, by rw [h.2]⟩
  | cons d rest ih =>
    rw [dcaForEach] at h
    obtain ⟨a, s1, h1, h⟩ := bind_eq_ok _ _ _ _ _ h
    obtain ⟨ha, hs1⟩ := getBot_eq_ok _ _ _ h1
    rw [ha, hs1] at h
    obtain ⟨u, s2, h2, h⟩ := bind_eq_ok _ _ _ _ _ h
    have e2 := modifyBot_eq_ok _ _ _ _ h2
    have hpp : s2.vars.pricePrecision = s.vars.pricePrecision := by rw [e2]
    by_cases hl : cfg.live = true
    · simp only [hl, if_true] at h
      cases hb : s.vars.balance with
      | none =>
        rw [hb] at h
        simp [throwErr] at h
      | some free =>
        rw [hb] at h
        by_cases hc : List.foldl (fun acc amount => acc + amount) 0 r.amounts * 2 > free
        · simp [hc, processExit] at h
        · simp only [hc, if_false] at h
          obtain ⟨h3, h4⟩ := ih _ _ h
          rw [hpp] at h3 h4
          exact ⟨h3, h4⟩
    · simp only [hl] at h
      obtain ⟨h3, h4⟩ := ih _ _ h
      rw [hpp] at h3 h4
      exact ⟨h3, h4⟩

theorem dcaForEach_demo {W : Type} (cfg : Config) (hdemo : cfg.live = false) (dca : List ℚ)
    (r : Rungs) (s : Bot W) :
    (dcaForEach cfg dca r s).1 = Res.ok (dca.foldl (dcaStep s.vars.pricePrecision) r) := by
  induction dca generalizing r s with
  | nil => rfl
  | cons d rest ih =>
    simp only [dcaForEach, bind_apply, M.bind, getBot, modifyBot, hdemo, Bool.false_eq_true,
      if_false]
    exact ih _ _

/-! ### The retry loops -/

theorem attemptsMade_length_le (rs : List (Option Order)) :
    (attemptsMade rs).length ≤ rs.length := by
  induction rs with
  | nil => exact le_refl _
  | cons r rest ih =>
    rw [attemptsMade]
    split
    · simp
    · simp only [List.length_cons]
      omega

theorem responses_length {W α : Type} (f : W → Option α × W) (n : ℕ) (w : W) :
    (responses f n w).length = n := by
  induction n generalizing w with
  | zero => rfl
  | succ n ih => simp [responses, ih]

theorem fetchOrderLoop_spec {W : Type} (ex : Exchange W) (id : String) (n : ℕ) (s : Bot W) :
    (fetchOrderLoop ex id n s).1 =
      (match (responses (ex.fetchOrder id) n s.world).find? hasId with
        | some (some o) => Res.ok o
        | _ => Res.threw (Err.unableToFetchOrder id)) ∧
    (fetchOrderLoop ex id n s).2.calls =
      s.calls ++ (attemptsMade (responses (ex.fetchOrder id) n s.world)).map (Call.fetchOrder id) := by
  induction n generalizing s with
  | zero => simp [fetchOrderLoop, throwErr, responses, attemptsMade]
  | succ n ih =>
    simp only [fetchOrderLoop, bind_apply, M.bind, tryCatch, callExchange, responses]
    rcases hf : ex.fetchOrder id s.world with ⟨r, w⟩
    cases r with
    | some o =>
      by_cases hid : (o.id != "") = true
      · simp [hid, pure_apply, hasId, attemptsMade, afterCall]
      · have hid' : hasId (some o) = false := by simpa [hasId] using hid
        obtain ⟨h1, h2⟩ := ih (afterCall s w (Call.fetchOrder id (some o)))
        simp only [hid, Bool.false_eq_true, if_false]
        refine ⟨?_, ?_⟩
        · rw [h1]
          simp [List.find?, hid', afterCall]
        · rw [h2]
          simp [attemptsMade, hid', afterCall]
    | none =>
      obtain ⟨h1, h2⟩ := ih (afterCall s w (Call.fetchOrder id none))
      refine ⟨?_, ?_⟩
      · rw [h1]
        simp [List.find?, hasId, afterCall]
      · rw [h2]
        simp [attemptsMade, hasId, afterCall]

theorem find?_hasId_cases (rs : List (Option Order)) :
    (∃ o, rs.find? hasId = some (some o) ∧ (o.id != "") = true) ∨
    (rs.find? hasId = none ∧ ∀ r ∈ rs, hasId r = false) := by
  cases h : rs.find? hasId with
  | none =>
    right
    refine ⟨rfl, ?_⟩
    intro r hr
    have := List.find?_eq_none.mp h r hr
    simpa using this
  | some r =>
    left
    have hr := List.find?_some h
    cases r with
    | none => simp [hasId] at hr
    | some o => exact ⟨o, rfl, by simpa [hasId] using hr⟩

theorem attemptsMade_dropLast (rs : List (Option Order)) :
    ∀ r ∈ (attemptsMade rs).dropLast, hasId r = false := by
  induction rs with
  | nil => simp [attemptsMade]
  | cons x rest ih =>
    rw [attemptsMade]
    by_cases hx : hasId x = true
    · simp [hx]
    · simp only [hx, Bool.false_eq_true, if_false]
      intro r hr
      cases hrest : attemptsMade rest with
      | nil =>
        rw [hrest] at hr
        simp at hr
      | cons y ys =>
        rw [hrest, List.dropLast_cons₂] at hr
        rcases List.mem_cons.mp hr with h | h
        · rw [h]
          simpa using hx
        · apply ih
          rw [hrest]
          exact h

/-- C12: `fetchOrderWithRetry` calls the remote fetch on the successive responses of the exchange,
at most 5 times and only up to the first response that succeeded and carries an id; it resolves
with that response, and it rejects with the error naming the order exactly when none of the 5
responses is valid. -/
theorem C12_fetch_order_retry {W : Type} (ex : Exchange W) (id : String) (s : Bot W) :
    (fetchOrderWithRetry ex id s).2.calls =
      s.calls ++
        (attemptsMade (responses (ex.fetchOrder id) 5 s.world)).map (Call.fetchOrder id) ∧
    (attemptsMade (responses (ex.fetchOrder id) 5 s.world)).length ≤ 5 ∧
    (∀ r ∈ (attemptsMade (responses (ex.fetchOrder id) 5 s.world)).dropLast, hasId r = false) ∧
    (fetchOrderWithRetry ex id s).1 =
      (match (responses (ex.fetchOrder id) 5 s.world).find? hasId with
        | some (some o) => Res.ok o
        | _ => Res.threw (Err.unableToFetchOrder id)) ∧
    ((fetchOrderWithRetry ex id s).1 = Res.threw (Err.unableToFetchOrder id) ↔
      ∀ r ∈ responses (ex.fetchOrder id) 5 s.world, hasId r = false) := by
  obtain ⟨h1, h2⟩ := fetchOrderLoop_spec ex id 5 s
  refine ⟨h2, ?_, attemptsMade_dropLast _, h1, ?_⟩
  · have := attemptsMade_length_le (responses (ex.fetchOrder id) 5 s.world)
    rw [responses_length] at this
    exact this
  · rw [fetchOrderWithRetry, h1]
    rcases find?_hasId_cases (responses (ex.fetchOrder id) 5 s.world) with ⟨o, ho, hid⟩ | ⟨hn, hall⟩
    · rw [ho]
      constructor
      · intro h
        cases h
      · intro h
        have := h (some o) (List.mem_of_find?_eq_some ho)
        simp [hasId, hid] at this
    · rw [hn]
      exact ⟨fun _ => hall, fun _ => rfl⟩

theorem cancelOrderLoop_spec {W : Type} (ex : Exchange W) (id : String) (n : ℕ) (s : Bot W) :
    (cancelOrderLoop ex id n s).1 =
      (if (responses (ex.cancelOrder id) n s.world).any hasId then Res.ok "Order canceled"
        else Res.threw (Err.unableToCancel id)) ∧
    (cancelOrderLoop ex id n s).2.calls =
      s.calls ++
        (attemptsMade (responses (ex.cancelOrder id) n s.world)).map (fun _ => Call.cancelOrder id) := by
  induction n generalizing s with
  | zero => simp [cancelOrderLoop, throwErr, responses, attemptsMade]
  | succ n ih =>
    obtain ⟨r, w, hf⟩ : ∃ r w, ex.cancelOrder id s.world = (r, w) := ⟨_, _, rfl⟩
    simp only [cancelOrderLoop, bind_apply, M.bind, tryCatch, callExchange, responses, hf]
    cases r with
    | some o =>
      by_cases hid : (o.id != "") = true
      · simp [hid, pure_apply, hasId, attemptsMade, afterCall]
      · have hid' : hasId (some o) = false := by simpa [hasId] using hid
        obtain ⟨h1, h2⟩ := ih (afterCall s w (Call.cancelOrder id))
        simp only [hid, Bool.false_eq_true, if_false]
        refine ⟨?_, ?_⟩
        · rw [h1]
          simp [hid', afterCall]
        · rw [h2]
          simp [attemptsMade, hid', afterCall]
    | none =>
      obtain ⟨h1, h2⟩ := ih (afterCall s w (Call.cancelOrder id))
      refine ⟨?_, ?_⟩
      · rw [h1]
        simp [hasId, afterCall]
      · rw [h2]
        simp [attemptsMade, hasId, afterCall]

/-- C19: `cancelOrderWithRetry` first fetches the order.  When the fetch fails it rejects without
any cancel request; when the fetched status is anything other than `open` it resolves in the state
the fetch left, so without any cancel request; when the status is `open` it sends cancel requests
on the successive responses of the exchange, at most 5 and only up to the first response that
carries an id, and it resolves exactly when one of the 5 responses carries an id and rejects
exactly when none does. -/
theorem C19_cancel_order_retry {W : Type} (ex : Exchange W) (id : String) (s : Bot W) :
    (∀ e s1, fetchOrderWithRetry ex id s = (Res.threw e, s1) →
      cancelOrderWithRetry ex id s = (Res.threw (Err.unableToCancel id), s1) ∧
      s1.calls.filter Call.isMutation = s.calls.filter Call.isMutation) ∧
    (∀ o s1, fetchOrderWithRetry ex id s = (Res.ok o, s1) → o.status ≠ "open" →
      cancelOrderWithRetry ex id s = (Res.ok "Order already canceled or closed", s1) ∧
      s1.calls.filter Call.isMutation = s.calls.filter Call.isMutation) ∧
    (∀ o s1, fetchOrderWithRetry ex id s = (Res.ok o, s1) → o.status = "open" →
      (cancelOrderWithRetry ex id s).2.calls =
        s1.calls ++ (attemptsMade (responses (ex.cancelOrder id) 5 s1.world)).map
          (fun _ => Call.cancelOrder id) ∧
      (attemptsMade (responses (ex.cancelOrder id) 5 s1.world)).length ≤ 5 ∧
      (∀ r ∈ (attemptsMade (responses (ex.cancelOrder id) 5 s1.world)).dropLast, hasId r = false) ∧
      ((cancelOrderWithRetry ex id s).1 = Res.ok "Order canceled" ↔
        ∃ r ∈ responses (ex.cancelOrder id) 5 s1.world, hasId r = true) ∧
      ((cancelOrderWithRetry ex id s).1 = Res.threw (Err.unableToCancel id) ↔
        ∀ r ∈ responses (ex.cancelOrder id) 5 s1.world, hasId r = false)) := by
  have hnm := keeps_fetchOrderWithRetry stable_noMutation ex id (fun _ => rfl) s
  refine ⟨?_, ?_, ?_⟩
  · intro e s1 h
    rw [h] at hnm
    refine ⟨?_, hnm⟩
    simp only [cancelOrderWithRetry, bind_apply, M.bind, tryCatch_threw _ _ _ _ h, throwErr]
  · intro o s1 h hst
    rw [h] at hnm
    refine ⟨?_, hnm⟩
    simp only [cancelOrderWithRetry, bind_apply, M.bind, tryCatch_ok _ _ _ _ h, hst, if_false,
      pure_apply]
  · intro o s1 h hst
    have hrun : cancelOrderWithRetry ex id s = cancelOrderLoop ex id 5 s1 := by
      simp only [cancelOrderWithRetry, bind_apply, M.bind, tryCatch_ok _ _ _ _ h, hst, if_true]
    obtain ⟨h1, h2⟩ := cancelOrderLoop_spec ex id 5 s1
    rw [hrun]
    refine ⟨h2, ?_, attemptsMade_dropLast _, ?_, ?_⟩
    · have := attemptsMade_length_le (responses (ex.cancelOrder id) 5 s1.world)
      rw [responses_length] at this
      exact this
    · rw [h1]
      by_cases hany : (responses (ex.cancelOrder id) 5 s1.world).any hasId = true
      · simp only [hany, if_true, true_iff]
        simpa using hany
      · simp only [hany, Bool.false_eq_true, if_false]
        constructor
        · intro h'
          cases h'
        · intro h'
          exact absurd (by simpa using h') hany
    · rw [h1]
      by_cases hany : (responses (ex.cancelOrder id) 5 s1.world).any hasId = true
      · simp only [hany, if_true]
        constructor
        · intro h'
          cases h'
        · intro h'
          exfalso
          obtain ⟨r, hr, hr'⟩ := List.any_eq_true.mp hany
          rw [h' r hr] at hr'
          cases hr'
      · simp only [hany, Bool.false_eq_true, if_false, true_iff]
        intro r hr
        by_contra hc
        apply hany
        exact List.any_eq_true.mpr ⟨r, hr, by simpa using hc⟩

theorem fetchTradingRestrictionLoop_never_too_low {W : Type} (ex : Exchange W) (cfg : Config)
    (n : ℕ) (s : Bot W) (h : s.vars.minOrderSize = none) (limit : ℚ) :
    (fetchTradingRestrictionLoop ex cfg n s).1 ≠ Res.threw (Err.startAmountTooLow limit) := by
  induction n generalizing s with
  | zero => simp [fetchTradingRestrictionLoop, throwErr]
  | succ n ih =>
    obtain ⟨r, w, hf⟩ : ∃ r w, ex.webGetCoinsGetBaseList s.world = (r, w) := ⟨_, _, rfl⟩
    simp only [fetchTradingRestrictionLoop, bind_apply, M.bind, tryCatch, callExchange, hf]
    cases r with
    | none => exact ih _ h
    | some result =>
      by_cases hl : result.length > 0
      · simp only [hl, if_true]
        cases hfind : result.find? (fun limit => limit.currency == cfg.quote) with
        | none => simp [neverSettles]
        | some l =>
          simp only [bind_apply, M.bind, getBot, afterCall, h]
          simp [pure_apply]
      · simp only [hl, if_false]
        exact ih _ h

theorem fetchOrderWithRetry_closedSellExchange_unknown (t : Bot Unit) :
    (fetchOrderWithRetry closedSellExchange "zz" t).1 = Res.threw (Err.unableToFetchOrder "zz") := by
  simp [fetchOrderWithRetry, fetchOrderLoop, bind_apply, M.bind, tryCatch, callExchange,
    closedSellExchange, simpleExchange, throwErr]

theorem fetchOrderWithRetry_closedSellExchange_s1 (t : Bot Unit) :
    (fetchOrderWithRetry closedSellExchange "s1" t).1 = Res.ok (orderAt "s1" "closed" 2) := by
  simp [fetchOrderWithRetry, fetchOrderLoop, bind_apply, M.bind, tryCatch, callExchange,
    closedSellExchange, simpleExchange, orderAt, pure_apply]

theorem fetchOrderWithRetry_stuckCancelExchange_s1 (t : Bot Unit) :
    (fetchOrderWithRetry stuckCancelExchange "s1" t).1 = Res.ok (orderAt "s1" "open" 0) := by
  simp [fetchOrderWithRetry, fetchOrderLoop, bind_apply, M.bind, tryCatch, callExchange,
    stuckCancelExchange, simpleExchange, orderAt, pure_apply]

/-- Witness of C19: an order that cannot be fetched, an order reported `closed`, and an open order
whose cancel request is accepted. -/
theorem C19_cancel_order_retry_witness :
    (cancelOrderWithRetry closedSellExchange "zz" (loadedWith ["s1"] none none)).1 =
      Res.threw (Err.unableToCancel "zz") ∧
    cancelOrderWithRetry closedSellExchange "s1" (loadedWith ["s1"] none none) =
      (Res.ok "Order already canceled or closed",
        (fetchOrderWithRetry closedSellExchange "s1" (loadedWith ["s1"] none none)).2) ∧
    (cancelOrderWithRetry stuckCancelExchange "s1" (loadedWith ["s1"] none none)).1 =
      Res.ok "Order canceled" := by
  refine ⟨?_, ?_, ?_⟩
  · rw [((C19_cancel_order_retry closedSellExchange "zz" (loadedWith ["s1"] none none)).1 _ _
      (Prod.ext (fetchOrderWithRetry_closedSellExchange_unknown _) rfl)).1]
  · exact ((C19_cancel_order_retry closedSellExchange "s1" (loadedWith ["s1"] none none)).2.1 _ _
      (Prod.ext (fetchOrderWithRetry_closedSellExchange_s1 _) rfl) (by simp [orderAt])).1
  · refine ((C19_cancel_order_retry stuckCancelExchange "s1" (loadedWith ["s1"] none none)).2.2 _ _
      (Prod.ext (fetchOrderWithRetry_stuckCancelExchange_s1 _) rfl) rfl).2.2.2.1.mpr ?_
    simp [responses, stuckCancelExchange, simpleExchange, hasId]

theorem placeBuyOrderLoop_never_ok {W : Type} (ex : Exchange W) (price amount : ℚ) (n : ℕ)
    (s : Bot W) (o : Order) : (placeBuyOrderLoop ex price amount n s).1 ≠ Res.ok o := by
  induction n generalizing s with
  | zero => simp [placeBuyOrderLoop, throwErr]
  | succ n ih =>
    obtain ⟨r, w, hf⟩ : ∃ r w, ex.createLimitBuyOrder amount price s.world = (r, w) := ⟨_, _, rfl⟩
    simp only [placeBuyOrderLoop, callExchange, hf]
    cases r with
    | some o' =>
      simp only [Order.success, Bool.false_eq_true, if_false]
      exact ih _
    | none => simp

/-- C11 on the code: on an exchange that accepts the first placement request,
`placeSellOrderWithRetry` resolves with the order after one request, while
`placeBuyOrderWithRetry` sends five requests, each accepted with the id `new-buy`, and rejects;
on an exchange whose placement requests throw, `placeSellOrderWithRetry` rejects after its five
attempts while the promise of `placeBuyOrderWithRetry` is never settled; on no exchange does
`placeBuyOrderWithRetry` resolve. -/
theorem C11_place_buy_order_retry_differs :
    (placeSellOrderWithRetry closedSellExchange 93 4 (loadedWith [] none none)).1 =
      Res.ok { id := "new-sell", status := "open", filled := 0, price := 93, amount := 4 } ∧
    (placeSellOrderWithRetry closedSellExchange 93 4 (loadedWith [] none none)).2.calls =
      [Call.createLimitSellOrder 4 93] ∧
    (closedSellExchange.createLimitBuyOrder 4 93 ()).1 =
      some { id := "new-buy", status := "open", filled := 0, price := 93, amount := 4 } ∧
    (placeBuyOrderWithRetry closedSellExchange 93 4 (loadedWith [] none none)).1 =
      Res.threw (Err.unableToPlaceBuy 93 4) ∧
    (placeBuyOrderWithRetry closedSellExchange 93 4 (loadedWith [] none none)).2.calls =
      List.replicate 5 (Call.createLimitBuyOrder 4 93) ∧
    (placeSellOrderWithRetry rejectingExchange 93 4 (loadedWith [] none none)).1 =
      Res.threw (Err.unableToPlaceSell 93 4) ∧
    (placeBuyOrderWithRetry rejectingExchange 93 4 (loadedWith [] none none)).1 = Res.hang ∧
    (∀ (W : Type) (ex : Exchange W) (price amount : ℚ) (s : Bot W) (o : Order),
      (placeBuyOrderWithRetry ex price amount s).1 ≠ Res.ok o) := by
  refine ⟨?_, ?_, ?_, ?_, ?_, ?_, ?_, ?_⟩
  · simp [placeSellOrderWithRetry, placeSellOrderLoop, bind_apply, M.bind, tryCatch, callExchange,
      closedSellExchange, simpleExchange, pure_apply]
  · simp [placeSellOrderWithRetry, placeSellOrderLoop, bind_apply, M.bind, tryCatch, callExchange,
      closedSellExchange, simpleExchange, pure_apply, afterCall, loadedWith]
  · simp [closedSellExchange, simpleExchange]
  · simp [placeBuyOrderWithRetry, placeBuyOrderLoop, callExchange, closedSellExchange,
      simpleExchange, Order.success, throwErr]
  · simp [placeBuyOrderWithRetry, placeBuyOrderLoop, callExchange, closedSellExchange,
      simpleExchange, Order.success, throwErr, afterCall, loadedWith, List.replicate]
  · simp [placeSellOrderWithRetry, placeSellOrderLoop, bind_apply, M.bind, tryCatch, callExchange,
      rejectingExchange, simpleExchange, throwErr]
  · simp [placeBuyOrderWithRetry, placeBuyOrderLoop, callExchange, rejectingExchange,
      simpleExchange]
  · intro W ex price amount s o
    exact placeBuyOrderLoop_never_ok ex price amount 5 s o

/-- C13 on the code: the exchange lists the quote currency `BTC` with a limit of `1` and
`config.startAmount` is one half, below the limit.  `fetchTradingRestrictionWithRetry` resolves
with `1` and `loadConfigAndTradingInfo` completes with `minOrderSize = 1`; nothing is rejected and
the process does not exit.  As long as `minOrderSize` is still `undefined`, which it is at the only
call, the rejection `startAmount is to low` is never produced, whatever the exchange lists. -/
theorem C13_low_start_amount_accepted :
    lowStartConfig.startAmount < 1 ∧
    (closedSellExchange.webGetCoinsGetBaseList ()).1 = some [{ currency := "BTC", limit := 1 }] ∧
    lowStartConfig.quote = "BTC" ∧
    (fetchTradingRestrictionWithRetry closedSellExchange lowStartConfig
      (startedOn [] none none)).1 = Res.ok 1 ∧
    (loadConfigAndTradingInfo closedSellExchange lowStartConfig
      (startedOn [] none none)).1 = Res.ok () ∧
    (loadConfigAndTradingInfo closedSellExchange lowStartConfig
      (startedOn [] none none)).2.vars.minOrderSize = some 1 ∧
    (∀ (W : Type) (ex : Exchange W) (cfg : Config) (s : Bot W) (limit : ℚ),
      s.vars.minOrderSize = none →
      (fetchTradingRestrictionWithRetry ex cfg s).1 ≠ Res.threw (Err.startAmountTooLow limit)) := by
  refine ⟨?_, ?_, ?_, ?_, ?_, ?_, fun W ex cfg s limit h =>
    fetchTradingRestrictionLoop_never_too_low ex cfg 5 s h limit⟩
  · norm_num [lowStartConfig]
  · simp [closedSellExchange, simpleExchange]
  · simp [lowStartConfig, twoStepConfig]
  · simp [fetchTradingRestrictionWithRetry, fetchTradingRestrictionLoop, bind_apply, M.bind,
      tryCatch, callExchange, closedSellExchange, simpleExchange, lowStartConfig, twoStepConfig,
      startedOn, initialVars, pure_apply, getBot, afterCall]
  · simp [loadConfigAndTradingInfo, fetchTradingRestrictionWithRetry, fetchTradingRestrictionLoop,
      fetchTradingPrecisionWithRetry, fetchTradingPrecisionLoop, bind_apply, M.bind, tryCatch,
      callExchange, closedSellExchange, simpleExchange, lowStartConfig, twoStepConfig, startedOn,
      initialDb, initialVars, pure_apply, getBot, modifyBot, afterCall]
  · simp [loadConfigAndTradingInfo, fetchTradingRestrictionWithRetry, fetchTradingRestrictionLoop,
      fetchTradingPrecisionWithRetry, fetchTradingPrecisionLoop, bind_apply, M.bind, tryCatch,
      callExchange, closedSellExchange, simpleExchange, lowStartConfig, twoStepConfig, startedOn,
      initialDb, initialVars, pure_apply, getBot, modifyBot, afterCall]

/-! ### The amounts of the ladder -/

theorem foldl_dcaStep_amounts_length (pp : ℕ) (dca : List ℚ) (r : Rungs) :
    (dca.foldl (dcaStep pp) r).amounts.length = r.amounts.length + dca.length := by
  induction dca generalizing r with
  | nil => rfl
  | cons d ds ih =>
    rw [List.foldl_cons, ih, dcaStep_amounts]
    simp
    omega

/-! ### The balance check of the ladder builder -/

theorem foldl_dcaStep_amounts_prefix (pp : ℕ) (dca : List ℚ) (r : Rungs) :
    ∃ more, (dca.foldl (dcaStep pp) r).amounts = r.amounts ++ more := by
  induction dca generalizing r with
  | nil => exact ⟨[], by simp⟩
  | cons d ds ih =>
    obtain ⟨more, h⟩ := ih (dcaStep pp r d)
    refine ⟨r.amounts.foldl (fun acc amount => acc + amount) 0 :: more, ?_⟩
    rw [List.foldl_cons, h, dcaStep_amounts]
    simp

theorem dcaForEach_exits {W : Type} (cfg : Config) (hlive : cfg.live = true) (free : ℚ)
    (dca : List ℚ) (r : Rungs) (s : Bot W) (hbal : s.vars.balance = some free)
    (hover : ∃ a ∈ (dca.foldl (dcaStep s.vars.pricePrecision) r).amounts.drop r.amounts.length,
      a * 2 > free) :
    ∃ s', dcaForEach cfg dca r s = (Res.exited 1, s') ∧ s'.vars.sellOrders = s.vars.sellOrders ∧
      s'.db = s.db ∧ s'.calls = s.calls := by
  induction dca generalizing r s with
  | nil =>
    obtain ⟨a, ha, _⟩ := hover
    simp at ha
  | cons d rest ih =>
    by_cases hc : List.foldl (fun acc amount => acc + amount) 0 r.amounts * 2 > free
    · refine ⟨{ s with vars := { s.vars with
          averages := (dcaStep s.vars.pricePrecision r d).averages } }, ?_, rfl, rfl, rfl⟩
      simp only [dcaForEach, bind_apply, M.bind, getBot, modifyBot, hlive, if_true, hbal, hc,
        processExit]
    · obtain ⟨a, ha, hgt⟩ := hover
      obtain ⟨more, hmore⟩ := foldl_dcaStep_amounts_prefix s.vars.pricePrecision rest
        (dcaStep s.vars.pricePrecision r d)
      have hover' : ∃ a ∈ (rest.foldl (dcaStep s.vars.pricePrecision)
          (dcaStep s.vars.pricePrecision r d)).amounts.drop
            (dcaStep s.vars.pricePrecision r d).amounts.length, a * 2 > free := by
        rw [List.foldl_cons, hmore, dcaStep_amounts, List.append_assoc,
          List.drop_left] at ha
        rw [hmore, List.drop_left]
        rcases List.mem_append.mp ha with h | h
        · rw [List.mem_singleton] at h
          rw [h] at hgt
          exact absurd hgt hc
        · exact ⟨a, h, hgt⟩
      obtain ⟨s', h1, h2, h3, h4⟩ := ih (dcaStep s.vars.pricePrecision r d)
        { s with vars := { s.vars with
          averages := (dcaStep s.vars.pricePrecision r d).averages } } hbal hover'
      refine ⟨s', ?_, h2, h3, h4⟩
      simp only [dcaForEach, bind_apply, M.bind, getBot, modifyBot, hlive, if_true, hbal, hc,
        if_false]
      simpa only [hbal] using h1

theorem getLowestSellPriceLoop_settles {W : Type} (ex : Exchange W) (n : ℕ) (s : Bot W) :
    ∃ r s', tryCatch (getLowestSellPriceLoop ex n) s = (Res.ok r, s') := by
  induction n generalizing s with
  | zero => exact ⟨Except.error _, s, rfl⟩
  | succ n ih =>
    obtain ⟨r, w, hf⟩ : ∃ r w, ex.fetchTicker s.world = (r, w) := ⟨_, _, rfl⟩
    cases r with
    | none =>
      obtain ⟨r', s', h⟩ := ih (afterCall s w Call.fetchTicker)
      refine ⟨r', s', ?_⟩
      rw [← h]
      simp only [tryCatch, getLowestSellPriceLoop, bind_apply, M.bind, callExchange, hf]
    | some ask =>
      by_cases h0 : ask ≠ 0
      · refine ⟨Except.ok ask, afterCall s w Call.fetchTicker, ?_⟩
        simp only [tryCatch, getLowestSellPriceLoop, bind_apply, M.bind, callExchange, hf]
        rw [if_pos h0]
      · obtain ⟨r', s', h⟩ := ih (afterCall s w Call.fetchTicker)
        refine ⟨r', s', ?_⟩
        rw [← h]
        simp only [tryCatch, getLowestSellPriceLoop, bind_apply, M.bind, callExchange, hf]
        rw [if_neg h0]

theorem fetchBalanceLoop_settles {W : Type} (ex : Exchange W) (n : ℕ) (s : Bot W) :
    ∃ r s', tryCatch (fetchBalanceLoop ex n) s = (Res.ok r, s') := by
  induction n generalizing s with
  | zero => exact ⟨Except.error _, s, rfl⟩
  | succ n ih =>
    obtain ⟨r, w, hf⟩ : ∃ r w, ex.fetchBalance s.world = (r, w) := ⟨_, _, rfl⟩
    cases r with
    | none =>
      obtain ⟨r', s', h⟩ := ih (afterCall s w Call.fetchBalance)
      refine ⟨r', s', ?_⟩
      rw [← h]
      simp only [tryCatch, fetchBalanceLoop, bind_apply, M.bind, callExchange, hf]
    | some b =>
      refine ⟨Except.ok b, afterCall s w Call.fetchBalance, ?_⟩
      simp only [tryCatch, fetchBalanceLoop, bind_apply, M.bind, callExchange, hf, pure_apply]

/-- C15: in live mode, when for the ask and the balance the exchange returns there is a step at
which twice the cumulative amount exceeds the free balance of the base currency, `buildDCA` ends
with `process.exit(1)` without having issued any placement (or cancellation) and without having
touched `sellOrders`, in the variables or in the store. -/
theorem C15_insufficient_balance_is_fatal {W : Type} (ex : Exchange W) (cfg : Config) (s : Bot W)
    (hlive : cfg.live = true)
    (hover : ∀ t ask t', getLowestSellPriceWithRetry ex t = (Res.ok ask, t') →
      ∀ u b u', fetchBalanceWithRetry ex u = (Res.ok b, u') →
      ∃ free, b cfg.base = some free ∧
        ∃ a ∈ (ladder cfg s.vars.pricePrecision s.vars.amountPrecision ask).amounts.tail,
          a * 2 > free) :
    ∃ s', buildDCA ex cfg s = (Res.exited 1, s') ∧ s'.vars.sellOrders = s.vars.sellOrders ∧
      s'.db.sellOrders = s.db.sellOrders ∧
      s'.calls.filter Call.isMutation = s.calls.filter Call.isMutation := by
  obtain ⟨r1, s1, h1⟩ := getLowestSellPriceLoop_settles ex 5 s
  have f1 := keeps_tryCatch (keeps_getLowestSellPriceLoop stable_frame ex trivial 5) s
  have n1 := keeps_tryCatch (keeps_getLowestSellPriceLoop stable_noMutation ex rfl 5) s
  rw [h1] at f1 n1
  obtain ⟨hv1, hd1, _, _⟩ := f1
  simp only at hv1 hd1 n1
  cases r1 with
  | error e =>
    refine ⟨s1, ?_, by rw [hv1], by rw [hd1], n1⟩
    simp only [buildDCA, getLowestSellPriceWithRetry, bind_apply, M.bind, h1, processExit]
  | ok ask =>
    obtain ⟨r3, s3, h3⟩ := fetchBalanceLoop_settles ex 5
      { s1 with vars := { s1.vars with
        averages := (firstRung cfg s1.vars.pricePrecision s1.vars.amountPrecision ask).averages } }
    have f3 := keeps_tryCatch (keeps_fetchBalanceLoop stable_frame ex trivial 5)
      { s1 with vars := { s1.vars with
        averages := (firstRung cfg s1.vars.pricePrecision s1.vars.amountPrecision ask).averages } }
    have n3 := keeps_tryCatch (keeps_fetchBalanceLoop stable_noMutation ex rfl 5)
      { s1 with vars := { s1.vars with
        averages := (firstRung cfg s1.vars.pricePrecision s1.vars.amountPrecision ask).averages } }
    rw [h3] at f3 n3
    obtain ⟨hv3, hd3, _, _⟩ := f3
    simp only at hv3 hd3
    simp only [NoMutation] at n3
    cases r3 with
    | error e =>
      refine ⟨s3, ?_, by rw [hv3, hv1], by rw [hd3, hd1], by rw [n3]; exact n1⟩
      simp only [buildDCA, getLowestSellPriceWithRetry, fetchBalanceWithRetry, bind_apply, M.bind,
        h1, getBot, modifyBot, hlive, if_true, h3, processExit]
    | ok b =>
      obtain ⟨free, hb, a, ha, hgt⟩ := hover s ask s1 (tryCatch_eq_ok_ok _ _ _ _ h1) _ b s3
        (tryCatch_eq_ok_ok _ _ _ _ h3)
      have hpp : s3.vars.pricePrecision = s.vars.pricePrecision := by rw [hv3, hv1]
      obtain ⟨s', h5, h6, h7, h8⟩ := dcaForEach_exits cfg hlive free cfg.dca
        (firstRung cfg s1.vars.pricePrecision s1.vars.amountPrecision ask)
        { s3 with vars := { s3.vars with balance := b cfg.base } } hb
        (by
          refine ⟨a, ?_, hgt⟩
          rw [ladder] at ha
          simp only [hpp, hv1]
          simpa [firstRung] using ha)
      refine ⟨s', ?_, ?_, ?_, ?_⟩
      · simp only [buildDCA, getLowestSellPriceWithRetry, fetchBalanceWithRetry, bind_apply,
          M.bind, h1, getBot, modifyBot, hlive, if_true, h3, h5]
      · rw [h6]
        simp only [hv3, hv1]
      · rw [h7]
        simp only [hd3, hd1]
      · rw [h8]
        simp only [n3]
        exact n1

theorem getLowestSellPriceWithRetry_poorExchange (t : Bot Unit) :
    (getLowestSellPriceWithRetry poorExchange t).1 = Res.ok 100 := by
  simp [getLowestSellPriceWithRetry, getLowestSellPriceLoop, bind_apply, M.bind, tryCatch,
    callExchange, poorExchange, simpleExchange, pure_apply]

theorem fetchBalanceWithRetry_poorExchange (t : Bot Unit) :
    (fetchBalanceWithRetry poorExchange t).1 = Res.ok (fun _ => some 3) := by
  simp [fetchBalanceWithRetry, fetchBalanceLoop, bind_apply, M.bind, tryCatch, callExchange,
    poorExchange, pure_apply]

theorem ladder_liveConfig :
    ladder liveConfig 0 0 100 =
      { prices := [100, 200, 180], amounts := [1, 1, 2], averages := [100, 150, 165] } :=
  ladder_twoStepConfig

/-- Witness of C15: the ask is `100` and the free balance `3`; the cumulative amounts are `1`,
`1`, `2`, so the second step needs `4`. -/
theorem C15_insufficient_balance_is_fatal_witness :
    ∃ s', buildDCA poorExchange liveConfig (loadedWith [] none none) = (Res.exited 1, s') ∧
      s'.vars.sellOrders = (loadedWith [] none none).vars.sellOrders ∧
      s'.db.sellOrders = (loadedWith [] none none).db.sellOrders ∧
      s'.calls.filter Call.isMutation =
        (loadedWith [] none none).calls.filter Call.isMutation :=
  C15_insufficient_balance_is_fatal poorExchange liveConfig (loadedWith [] none none) rfl
    (by
      intro t ask t' h u b u' h'
      have ha : Res.ok ask = (Res.ok 100 : Res ℚ) := by
        rw [← getLowestSellPriceWithRetry_poorExchange t, h]
      have hb : Res.ok b = (Res.ok (fun _ => some 3) : Res (String → Option ℚ)) := by
        rw [← fetchBalanceWithRetry_poorExchange u, h']
      simp only [Res.ok.injEq] at ha hb
      subst ha
      subst hb
      refine ⟨3, rfl, 2, ?_, by norm_num⟩
      have : (loadedWith [] none none).vars.pricePrecision = 0 ∧
          (loadedWith [] none none).vars.amountPrecision = 0 := ⟨rfl, rfl⟩
      rw [this.1, this.2, ladder_liveConfig]
      simp)

/-! ### Buy orders the bot does not track -/

/-- C17 on the code: no buy order is tracked, the sell orders report the fills `(100, 1)` and
`(90, 2)` and `minOrderSize` is `1 / 100`.  One `checkOrders` cycle sends five buy placements of
`4` at `93`; the exchange accepts each of them (it answers with an order whose id is `new-buy`),
so five buy orders are open, and the cycle ends with `buyOrder` and `buyOrderPrice` still null in
the variables and in the store.  The next cycle of `checkForUpdate` therefore runs `checkOrders`
again and sends five more. -/
theorem C17_five_buy_orders_untracked :
    (loadedWith ["s1", "s2"] none none).vars.buyOrder = none ∧
    (∃ o : Order, o.id = "new-buy" ∧ ∀ w, (filledSellExchange.createLimitBuyOrder 4 93 w).1 = some o) ∧
    (checkOrders filledSellExchange twoStepConfig
      (withLowMinimum (loadedWith ["s1", "s2"] none none))).1 = Res.ok () ∧
    (checkOrders filledSellExchange twoStepConfig
      (withLowMinimum (loadedWith ["s1", "s2"] none none))).2.calls.filter Call.isMutation =
        List.replicate 5 (Call.createLimitBuyOrder 4 93) ∧
    (checkOrders filledSellExchange twoStepConfig
      (withLowMinimum (loadedWith ["s1", "s2"] none none))).2.vars.buyOrder = none ∧
    (checkOrders filledSellExchange twoStepConfig
      (withLowMinimum (loadedWith ["s1", "s2"] none none))).2.vars.buyOrderPrice = none ∧
    (checkOrders filledSellExchange twoStepConfig
      (withLowMinimum (loadedWith ["s1", "s2"] none none))).2.db.buyOrder = none ∧
    (checkForUpdate filledSellExchange twoStepConfig
      (checkForUpdate filledSellExchange twoStepConfig
        (withLowMinimum (loadedWith ["s1", "s2"] none none))).2).1 = Res.ok () ∧
    (checkForUpdate filledSellExchange twoStepConfig
      (checkForUpdate filledSellExchange twoStepConfig
        (withLowMinimum (loadedWith ["s1", "s2"] none none))).2).2.calls.filter Call.isMutation =
        List.replicate 10 (Call.createLimitBuyOrder 4 93) ∧
    (checkForUpdate filledSellExchange twoStepConfig
      (checkForUpdate filledSellExchange twoStepConfig
        (withLowMinimum (loadedWith ["s1", "s2"] none none))).2).2.vars.buyOrder = none := by
  have h3 : (1 : ℚ) + 2 = 3 := by norm_num
  have hgt : (93 : ℚ) * 100⁻¹ < 4 := by norm_num
  have hcycle : ∀ t : Bot Unit, t.vars.sellOrders = ["s1", "s2"] → t.vars.pricePrecision = 0 →
      t.vars.amountPrecision = 0 → t.vars.minOrderSize = some (1 / 100) →
      checkOrders filledSellExchange twoStepConfig t =
        (Res.ok (), { t with
          calls := t.calls ++ [
            Call.fetchOrder "s1"
              (some { id := "s1", status := "closed", filled := 1, price := 100, amount := 1 }),
            Call.fetchOrder "s2"
              (some { id := "s2", status := "open", filled := 2, price := 90, amount := 4 })] ++
              List.replicate 5 (Call.createLimitBuyOrder 4 93),
          observed := t.observed ++ List.replicate 7 (t.vars, t.db) }) := by
    intro t h1 h2 h4 h5
    simp [checkOrders, scanSellOrders, fetchOrderWithRetry, fetchOrderLoop, bind_apply, M.bind,
      tryCatch, callExchange, filledSellExchange, simpleExchange, pure_apply, getBot, afterCall,
      h1, h2, h4, h5, h3, hgt, reconcile_example, placeBuyOrderWithRetry, placeBuyOrderLoop,
      Order.success, throwErr, List.replicate]
  have hupdate : ∀ t : Bot Unit, t.vars.buyOrder = none → t.vars.sellOrders = ["s1", "s2"] →
      t.vars.pricePrecision = 0 → t.vars.amountPrecision = 0 →
      t.vars.minOrderSize = some (1 / 100) →
      checkForUpdate filledSellExchange twoStepConfig t =
        (Res.ok (), { t with
          calls := t.calls ++ [
            Call.fetchOrder "s1"
              (some { id := "s1", status := "closed", filled := 1, price := 100, amount := 1 }),
            Call.fetchOrder "s2"
              (some { id := "s2", status := "open", filled := 2, price := 90, amount := 4 })] ++
              List.replicate 5 (Call.createLimitBuyOrder 4 93),
          observed := t.observed ++ List.replicate 7 (t.vars, t.db) }) := by
    intro t h0 h1 h2 h4 h5
    have htr : truthy t.vars.buyOrder = false := by rw [h0]; rfl
    simp only [checkForUpdate, bind_apply, M.bind, getBot, htr, Bool.false_eq_true, if_false,
      tryCatch, hcycle t h1 h2 h4 h5, pure_apply]
  refine ⟨rfl, ⟨_, rfl, fun _ => rfl⟩, ?_, ?_, ?_, ?_, ?_, ?_, ?_, ?_⟩
  · rw [hcycle _ rfl rfl rfl rfl]
  · rw [hcycle _ rfl rfl rfl rfl]
    simp [Call.isMutation, loadedWith, withLowMinimum, List.replicate]
  · rw [hcycle _ rfl rfl rfl rfl]
    rfl
  · rw [hcycle _ rfl rfl rfl rfl]
    rfl
  · rw [hcycle _ rfl rfl rfl rfl]
    rfl
  · rw [hupdate (withLowMinimum (loadedWith ["s1", "s2"] none none)) rfl rfl rfl rfl rfl]
    rw [hupdate _ rfl rfl rfl rfl rfl]
  · rw [hupdate (withLowMinimum (loadedWith ["s1", "s2"] none none)) rfl rfl rfl rfl rfl]
    rw [hupdate _ rfl rfl rfl rfl rfl]
    simp [Call.isMutation, loadedWith, withLowMinimum, List.replicate]
  · rw [hupdate (withLowMinimum (loadedWith ["s1", "s2"] none none)) rfl rfl rfl rfl rfl]
    rw [hupdate _ rfl rfl rfl rfl rfl]
    rfl

/-! ### A failed fetch defers the cycle -/

theorem scanSellOrders_append {W : Type} (ex : Exchange W) (pre rest : List String)
    (filled price : List ℚ) (sum : ℚ) (s t : Bot W) (acc : List ℚ × List ℚ × ℚ)
    (h : scanSellOrders ex pre filled price sum s = (Res.ok (some acc), t)) :
    scanSellOrders ex (pre ++ rest) filled price sum s =
      scanSellOrders ex rest acc.1 acc.2.1 acc.2.2 t := by
  induction pre generalizing filled price sum s with
  | nil =>
    simp only [scanSellOrders, pure_apply, Prod.mk.injEq, Res.ok.injEq, Option.some.injEq] at h
    obtain ⟨h1, h2⟩ := h
    subst h1 h2
    rfl
  | cons id pre ih =>
    obtain ⟨r, s1, hr⟩ := tryCatch_fetchOrderWithRetry ex id s
    simp only [List.cons_append, scanSellOrders, bind_apply, M.bind, hr] at h ⊢
    cases r with
    | ok result => exact ih _ _ _ _ h
    | error e => simp [pure_apply] at h

theorem scanSellOrders_fetch_fails {W : Type} (ex : Exchange W) (pre post : List String)
    (id : String) (s t s' : Bot W) (acc : List ℚ × List ℚ × ℚ) (e : Err)
    (hpre : scanSellOrders ex pre [] [] 0 s = (Res.ok (some acc), t))
    (hfail : fetchOrderWithRetry ex id t = (Res.threw e, s')) :
    scanSellOrders ex (pre ++ id :: post) [] [] 0 s = (Res.ok none, s') := by
  rw [scanSellOrders_append ex pre (id :: post) [] [] 0 s t acc hpre]
  simp only [scanSellOrders, bind_apply, M.bind, tryCatch_threw _ _ _ _ hfail, pure_apply]

/-- C18: a cycle in which one of the reconciler's fetches fails after its retries ends there,
normally, so that the next poll follows: no placement and no cancellation has been issued, and the
variables and the store (with `sellOrders`, `buyOrder` and `buyOrderPrice`) are as they were.
This holds in `checkOrders` when the fetch of a sell order fails after the orders before it were
fetched, in `checkOrdersWithBuyOrder` when the fetch of the tracked buy order fails, and in
`checkOrdersWithBuyOrder` when the buy order was fetched, is not closed, and the fetch of a sell
order fails.  The fetches are those of the reconcilers themselves (lines 230, 253 and 311). -/
theorem C18_fetch_failure_defers {W : Type} (ex : Exchange W) (cfg : Config) (s : Bot W) :
    (∀ (pre post : List String) (id : String) (acc : List ℚ × List ℚ × ℚ) (t s' : Bot W) (e : Err),
      s.vars.sellOrders = pre ++ id :: post →
      scanSellOrders ex pre [] [] 0 s = (Res.ok (some acc), t) →
      fetchOrderWithRetry ex id t = (Res.threw e, s') →
      checkOrders ex cfg s = (Res.ok (), s') ∧ s'.vars = s.vars ∧ s'.db = s.db ∧
        s'.calls.filter Call.isMutation = s.calls.filter Call.isMutation) ∧
    (∀ (s' : Bot W) (e : Err),
      fetchOrderWithRetry ex (s.vars.buyOrder.getD "") s = (Res.threw e, s') →
      checkOrdersWithBuyOrder ex cfg s = (Res.ok (), s') ∧ s'.vars = s.vars ∧ s'.db = s.db ∧
        s'.calls.filter Call.isMutation = s.calls.filter Call.isMutation) ∧
    (∀ (o : Order) (s1 : Bot W) (pre post : List String) (id : String)
        (acc : List ℚ × List ℚ × ℚ) (t s' : Bot W) (e : Err),
      fetchOrderWithRetry ex (s.vars.buyOrder.getD "") s = (Res.ok o, s1) →
      o.status ≠ "closed" →
      s.vars.sellOrders = pre ++ id :: post →
      scanSellOrders ex pre [] [] 0 s1 = (Res.ok (some acc), t) →
      fetchOrderWithRetry ex id t = (Res.threw e, s') →
      checkOrdersWithBuyOrder ex cfg s = (Res.ok (), s') ∧ s'.vars = s.vars ∧ s'.db = s.db ∧
        s'.calls.filter Call.isMutation = s.calls.filter Call.isMutation) := by
  refine ⟨?_, ?_, ?_⟩
  · intro pre post id acc t s' e hsplit hpre hfail
    have hscan := scanSellOrders_fetch_fails ex pre post id s t s' acc e hpre hfail
    rw [← hsplit] at hscan
    have hfr := keeps_scanSellOrders stable_frame ex (fun _ _ => trivial) s.vars.sellOrders
      [] [] 0 s
    have hnm := keeps_scanSellOrders stable_noMutation ex (fun _ _ => rfl) s.vars.sellOrders
      [] [] 0 s
    rw [hscan] at hfr hnm
    refine ⟨?_, hfr.1, hfr.2.1, hnm⟩
    simp only [checkOrders, bind_apply, M.bind, getBot, hscan, pure_apply]
  · intro s' e hfail
    have hfr := keeps_fetchOrderWithRetry stable_frame ex (s.vars.buyOrder.getD "")
      (fun _ => trivial) s
    have hnm := keeps_fetchOrderWithRetry stable_noMutation ex (s.vars.buyOrder.getD "")
      (fun _ => rfl) s
    rw [hfail] at hfr hnm
    refine ⟨?_, hfr.1, hfr.2.1, hnm⟩
    simp only [checkOrdersWithBuyOrder, bind_apply, M.bind, getBot,
      tryCatch_threw _ _ _ _ hfail, pure_apply]
  · intro o s1 pre post id acc t s' e hbuy hopen hsplit hpre hfail
    have hscan := scanSellOrders_fetch_fails ex pre post id s1 t s' acc e hpre hfail
    rw [← hsplit] at hscan
    have hfr1 := keeps_fetchOrderWithRetry stable_frame ex (s.vars.buyOrder.getD "")
      (fun _ => trivial) s
    have hnm1 := keeps_fetchOrderWithRetry stable_noMutation ex (s.vars.buyOrder.getD "")
      (fun _ => rfl) s
    rw [hbuy] at hfr1 hnm1
    have hfr := keeps_scanSellOrders stable_frame ex (fun _ _ => trivial) s.vars.sellOrders
      [] [] 0 s1
    have hnm := keeps_scanSellOrders stable_noMutation ex (fun _ _ => rfl) s.vars.sellOrders
      [] [] 0 s1
    rw [hscan] at hfr hnm
    refine ⟨?_, hfr.1.trans hfr1.1, hfr.2.1.trans hfr1.2.1, hnm.trans hnm1⟩
    simp only [checkOrdersWithBuyOrder, bind_apply, M.bind, getBot,
      tryCatch_ok _ _ _ _ hbuy, hopen, if_false, hscan, pure_apply]

theorem fetchOrderWithRetry_filledSellExchange_unknown (t : Bot Unit) :
    (fetchOrderWithRetry filledSellExchange "zz" t).1 = Res.threw (Err.unableToFetchOrder "zz") := by
  simp [fetchOrderWithRetry, fetchOrderLoop, bind_apply, M.bind, tryCatch, callExchange,
    filledSellExchange, simpleExchange, throwErr]

theorem fetchOrderWithRetry_filledSellExchange_b1 (t : Bot Unit) :
    (fetchOrderWithRetry filledSellExchange "b1" t).1 =
      Res.ok { id := "b1", status := "open", filled := 0, price := 90, amount := 1 } := by
  simp [fetchOrderWithRetry, fetchOrderLoop, bind_apply, M.bind, tryCatch, callExchange,
    filledSellExchange, simpleExchange, pure_apply]

theorem scanSellOrders_filledSellExchange_s1 (t : Bot Unit) :
    (scanSellOrders filledSellExchange ["s1"] [] [] 0 t).1 = Res.ok (some ([1], [100], 1)) := by
  simp [scanSellOrders, fetchOrderWithRetry, fetchOrderLoop, bind_apply, M.bind, tryCatch,
    callExchange, filledSellExchange, simpleExchange, pure_apply]

/-- Witness of C18: the order `zz` is unknown to the exchange, so its fetch fails after five
attempts.  It is the second sell order of a `checkOrders` cycle, the tracked buy order of a
`checkOrdersWithBuyOrder` cycle, and the second sell order of a `checkOrdersWithBuyOrder` cycle
whose buy order `b1` is open. -/
theorem C18_fetch_failure_defers_witness :
    ((checkOrders filledSellExchange twoStepConfig (loadedWith ["s1", "zz"] none none)).1 =
        Res.ok () ∧
      (checkOrders filledSellExchange twoStepConfig (loadedWith ["s1", "zz"] none none)).2.vars =
        (loadedWith ["s1", "zz"] none none).vars ∧
      (checkOrders filledSellExchange twoStepConfig (loadedWith ["s1", "zz"] none none)).2.db =
        (loadedWith ["s1", "zz"] none none).db ∧
      (checkOrders filledSellExchange twoStepConfig
        (loadedWith ["s1", "zz"] none none)).2.calls.filter Call.isMutation =
        (loadedWith ["s1", "zz"] none none).calls.filter Call.isMutation) ∧
    ((checkOrdersWithBuyOrder filledSellExchange twoStepConfig
        (loadedWith ["s1"] (some "zz") (some 90))).1 = Res.ok () ∧
      (checkOrdersWithBuyOrder filledSellExchange twoStepConfig
        (loadedWith ["s1"] (some "zz") (some 90))).2.vars =
        (loadedWith ["s1"] (some "zz") (some 90)).vars ∧
      (checkOrdersWithBuyOrder filledSellExchange twoStepConfig
        (loadedWith ["s1"] (some "zz") (some 90))).2.db =
        (loadedWith ["s1"] (some "zz") (some 90)).db ∧
      (checkOrdersWithBuyOrder filledSellExchange twoStepConfig
        (loadedWith ["s1"] (some "zz") (some 90))).2.calls.filter Call.isMutation =
        (loadedWith ["s1"] (some "zz") (some 90)).calls.filter Call.isMutation) ∧
    ((checkOrdersWithBuyOrder filledSellExchange twoStepConfig
        (loadedWith ["s1", "zz"] (some "b1") (some 90))).1 = Res.ok () ∧
      (checkOrdersWithBuyOrder filledSellExchange twoStepConfig
        (loadedWith ["s1", "zz"] (some "b1") (some 90))).2.vars =
        (loadedWith ["s1", "zz"] (some "b1") (some 90)).vars ∧
      (checkOrdersWithBuyOrder filledSellExchange twoStepConfig
        (loadedWith ["s1", "zz"] (some "b1") (some 90))).2.db =
        (loadedWith ["s1", "zz"] (some "b1") (some 90)).db ∧
      (checkOrdersWithBuyOrder filledSellExchange twoStepConfig
        (loadedWith ["s1", "zz"] (some "b1") (some 90))).2.calls.filter Call.isMutation =
        (loadedWith ["s1", "zz"] (some "b1") (some 90)).calls.filter Call.isMutation) := by
  have h1 := (C18_fetch_failure_defers filledSellExchange twoStepConfig
    (loadedWith ["s1", "zz"] none none)).1 ["s1"] [] "zz" _ _ _ _ rfl
    (Prod.ext (scanSellOrders_filledSellExchange_s1 _) rfl)
    (Prod.ext (fetchOrderWithRetry_filledSellExchange_unknown _) rfl)
  have h2 := (C18_fetch_failure_defers filledSellExchange twoStepConfig
    (loadedWith ["s1"] (some "zz") (some 90))).2.1 _ _
    (Prod.ext (fetchOrderWithRetry_filledSellExchange_unknown _) rfl)
  have h3 := (C18_fetch_failure_defers filledSellExchange twoStepConfig
    (loadedWith ["s1", "zz"] (some "b1") (some 90))).2.2 _ _ ["s1"] [] "zz" _ _ _ _
    (Prod.ext (fetchOrderWithRetry_filledSellExchange_b1 _) rfl) (by decide) rfl
    (Prod.ext (scanSellOrders_filledSellExchange_s1 _) rfl)
    (Prod.ext (fetchOrderWithRetry_filledSellExchange_unknown _) rfl)
  refine ⟨?_, ?_, ?_⟩
  · rw [h1.1]
    exact ⟨rfl, h1.2⟩
  · rw [h2.1]
    exact ⟨rfl, h2.2⟩
  · rw [h3.1]
    exact ⟨rfl, h3.2⟩

/-! ### A closed buy order restarts the ladder -/

theorem issued_of_left {W : Type} (s t s' : Bot W) (c : Call) (h : Issued s t c)
    (hext : ∃ new, s'.calls = t.calls ++ new) : Issued s s' c := by
  obtain ⟨pre, post, h⟩ := h
  obtain ⟨new, hext⟩ := hext
  exact ⟨pre, post ++ new, by rw [hext, h]; simp⟩

theorem issued_of_right {W : Type} (s t s' : Bot W) (c : Call)
    (hext : ∃ new, t.calls = s.calls ++ new) (h : Issued t s' c) : Issued s s' c := by
  obtain ⟨pre, post, h⟩ := h
  obtain ⟨new, hext⟩ := hext
  exact ⟨new ++ pre, post, by rw [h, hext]; simp⟩

theorem issued_of_mem {W : Type} (s s' : Bot W) (c : Call) (new : List Call)
    (h : s'.calls = s.calls ++ new) (hc : c ∈ new) : Issued s s' c := by
  obtain ⟨pre, post, hsplit⟩ := List.append_of_mem hc
  exact ⟨pre, post, by rw [h, hsplit]; simp⟩

theorem attemptsMade_ne_nil (rs : List (Option Order)) (h : rs ≠ []) : attemptsMade rs ≠ [] := by
  cases rs with
  | nil => exact absurd rfl h
  | cons r rest =>
    rw [attemptsMade]
    split <;> simp

theorem cancelOrderWithRetry_ok_issued {W : Type} (ex : Exchange W) (id : String) (t t' : Bot W)
    (m : String) (h : cancelOrderWithRetry ex id t = (Res.ok m, t')) :
    ∃ o, Issued t t' (Call.fetchOrder id (some o)) ∧
      (o.status = "open" → Issued t t' (Call.cancelOrder id)) := by
  rcases fetchOrderLoop_settles ex id 5 t with ⟨o, s1, hf⟩ | ⟨e, s1, hf⟩
  · rw [← fetchOrderWithRetry] at hf
    obtain ⟨new, hnew, hmem, _⟩ := fetchOrderLoop_ok_logged ex id 5 t s1 o hf
    simp only [cancelOrderWithRetry, bind_apply, M.bind, tryCatch_ok _ _ _ _ hf] at h
    by_cases hopen : o.status = "open"
    · simp only [hopen, if_true] at h
      obtain ⟨hres, hcalls⟩ := cancelOrderLoop_spec ex id 5 s1
      rw [h] at hres hcalls
      have hany : (responses (ex.cancelOrder id) 5 s1.world).any hasId = true := by
        by_contra hno
        simp only [hno] at hres
        simp at hres
      have hne : responses (ex.cancelOrder id) 5 s1.world ≠ [] := by
        intro hnil
        rw [hnil] at hany
        simp at hany
      have hatt := attemptsMade_ne_nil _ hne
      refine ⟨o, issued_of_left t s1 t' _ (issued_of_mem t s1 _ new hnew hmem) ⟨_, hcalls⟩,
        fun _ => issued_of_right t s1 t' _ ⟨new, hnew⟩ (issued_of_mem s1 t' _ _ hcalls ?_)⟩
      cases hl : attemptsMade (responses (ex.cancelOrder id) 5 s1.world) with
      | nil => exact absurd hl hatt
      | cons a rest => simp
    · simp only [hopen, if_false, pure_apply, Prod.mk.injEq] at h
      obtain ⟨_, hs⟩ := h
      subst hs
      exact ⟨o, issued_of_mem t s1 _ new hnew hmem, fun ho => absurd ho hopen⟩
  · rw [← fetchOrderWithRetry] at hf
    simp [cancelOrderWithRetry, bind_apply, M.bind, tryCatch_threw _ _ _ _ hf, throwErr] at h

theorem cancelPass_all_ok {W : Type} (ex : Exchange W) (ids : List String)
    (hok : ∀ id ∈ ids, ∀ t, ∃ m t', cancelOrderWithRetry ex id t = (Res.ok m, t'))
    (un : List String) (s : Bot W) :
    ∃ s', cancelPass ex ids un s = (Res.ok un, s') ∧ Frame s s' ∧
      ∀ id ∈ ids, ∃ o, Issued s s' (Call.fetchOrder id (some o)) ∧
        (o.status = "open" → Issued s s' (Call.cancelOrder id)) := by
  induction ids generalizing s with
  | nil => exact ⟨s, by simp [cancelPass, pure_apply], stable_frame.refl s, by simp⟩
  | cons id rest ih =>
    have hfr := keeps_cancelOrderWithRetry stable_frame ex id (fun _ => trivial) trivial s
    obtain ⟨m, t', h⟩ := hok id (List.mem_cons_self _ _) s
    rw [h] at hfr
    obtain ⟨s', h1, h2, h3⟩ := ih (fun x hx => hok x (List.mem_cons_of_mem _ hx)) t'
    refine ⟨s', ?_, stable_frame.trans _ _ _ hfr h2, ?_⟩
    · simp only [cancelPass, bind_apply, M.bind, tryCatch_ok _ _ _ _ h, h1]
    · intro x hx
      rcases List.mem_cons.mp hx with hx | hx
      · subst hx
        obtain ⟨o, ho1, ho2⟩ := cancelOrderWithRetry_ok_issued ex x s t' m h
        exact ⟨o, issued_of_left s t' s' _ ho1 h2.2.2.1,
          fun hopen => issued_of_left s t' s' _ (ho2 hopen) h2.2.2.1⟩
      · obtain ⟨o, ho1, ho2⟩ := h3 x hx
        exact ⟨o, issued_of_right s t' s' _ hfr.2.2.1 ho1,
          fun hopen => issued_of_right s t' s' _ hfr.2.2.1 (ho2 hopen)⟩

theorem cancelAllOrders_all_ok {W : Type} (ex : Exchange W) (s : Bot W)
    (hok : ∀ id ∈ s.vars.sellOrders, ∀ t, ∃ m t', cancelOrderWithRetry ex id t = (Res.ok m, t')) :
    ∃ s1, cancelAllOrders ex s =
        (Res.ok [], { s1 with
          vars := { s1.vars with sellOrders := [] },
          db := { s1.db with sellOrders := [], firstSellPrice := none } }) ∧
      Frame s s1 ∧
      ∀ id ∈ s.vars.sellOrders, ∃ o, Issued s s1 (Call.fetchOrder id (some o)) ∧
        (o.status = "open" → Issued s s1 (Call.cancelOrder id)) := by
  obtain ⟨s1, h1, h2, h3⟩ := cancelPass_all_ok ex s.vars.sellOrders hok [] s
  refine ⟨s1, ?_, h2, h3⟩
  simp only [cancelAllOrders, cancelAllLoop, bind_apply, M.bind, getBot, h1, modifyBot,
    List.length_nil, if_true, pure_apply]

theorem foldl_dcaStep_prices_length (pp : ℕ) (dca : List ℚ) (r : Rungs) :
    (dca.foldl (dcaStep pp) r).prices.length = r.prices.length + dca.length := by
  induction dca generalizing r with
  | nil => rfl
  | cons d ds ih =>
    rw [List.foldl_cons, ih, dcaStep_prices]
    simp
    omega

theorem dcaForEach_live_ok {W : Type} (cfg : Config) (hlive : cfg.live = true) (free : ℚ)
    (dca : List ℚ) (r : Rungs) (s : Bot W) (hbal : s.vars.balance = some free)
    (hfree : ∀ a ∈ (dca.foldl (dcaStep s.vars.pricePrecision) r).amounts.drop r.amounts.length,
      a * 2 ≤ free) :
    ∃ av, dcaForEach cfg dca r s =
      (Res.ok (dca.foldl (dcaStep s.vars.pricePrecision) r),
        { s with vars := { s.vars with averages := av } }) := by
  induction dca generalizing r s with
  | nil => exact ⟨s.vars.averages, rfl⟩
  | cons d rest ih =>
    obtain ⟨more, hmore⟩ := foldl_dcaStep_amounts_prefix s.vars.pricePrecision rest
      (dcaStep s.vars.pricePrecision r d)
    have hc : ¬ List.foldl (fun acc amount => acc + amount) 0 r.amounts * 2 > free := by
      have := hfree (List.foldl (fun acc amount => acc + amount) 0 r.amounts) (by
        rw [List.foldl_cons, hmore, dcaStep_amounts, List.append_assoc, List.drop_left]
        simp)
      exact not_lt.mpr this
    have hfree' : ∀ a ∈ (rest.foldl (dcaStep s.vars.pricePrecision)
        (dcaStep s.vars.pricePrecision r d)).amounts.drop
          (dcaStep s.vars.pricePrecision r d).amounts.length, a * 2 ≤ free := by
      intro a ha
      apply hfree a
      rw [hmore, List.drop_left] at ha
      rw [List.foldl_cons, hmore, dcaStep_amounts, List.append_assoc, List.drop_left]
      exact List.mem_append_right _ ha
    obtain ⟨av, h1⟩ := ih (dcaStep s.vars.pricePrecision r d)
      { s with vars := { s.vars with
        averages := (dcaStep s.vars.pricePrecision r d).averages } } hbal hfree'
    refine ⟨av, ?_⟩
    simp only [dcaForEach, bind_apply, M.bind, getBot, modifyBot, hlive, if_true, hbal, hc,
      if_false, List.foldl_cons]
    simpa only [hbal] using h1

theorem stable_buyFields {W : Type} :
    Stable (fun s s' : Bot W => s'.vars.buyOrder = s.vars.buyOrder ∧
      s'.vars.buyOrderPrice = s.vars.buyOrderPrice ∧ s'.db.buyOrder = s.db.buyOrder ∧
      s'.db.buyOrderPrice = s.db.buyOrderPrice) (fun _ => True) where
  refl := fun _ => ⟨rfl, rfl, rfl, rfl⟩
  trans := fun _ _ _ h1 h2 =>
    ⟨h2.1.trans h1.1, h2.2.1.trans h1.2.1, h2.2.2.1.trans h1.2.2.1, h2.2.2.2.trans h1.2.2.2⟩
  call := fun _ _ _ _ => ⟨rfl, rfl, rfl, rfl⟩

theorem stable_extends {W : Type} :
    Stable (fun s s' : Bot W => ∃ new, s'.calls = s.calls ++ new) (fun _ => True) where
  refl := fun _ => ⟨[], by simp⟩
  trans := fun _ _ _ h1 h2 => by
    obtain ⟨n1, h1⟩ := h1
    obtain ⟨n2, h2⟩ := h2
    exact ⟨n1 ++ n2, by rw [h2, h1]; simp⟩
  call := fun _ _ c _ => ⟨[c], rfl⟩

theorem ladder_lengths (cfg : Config) (pp ap : ℕ) (ask : ℚ) :
    (ladder cfg pp ap ask).prices.length = 1 + cfg.dca.length ∧
    (ladder cfg pp ap ask).amounts.length = 1 + cfg.dca.length := by
  rw [ladder, foldl_dcaStep_prices_length, foldl_dcaStep_amounts_length]
  simp [firstRung]

theorem fetchOrderWithRetry_completedBuyExchange_b1 (t : Bot Unit) :
    (fetchOrderWithRetry completedBuyExchange "b1" t).1 = Res.ok (orderAt "b1" "closed" 2) := by
  simp [fetchOrderWithRetry, fetchOrderLoop, bind_apply, M.bind, tryCatch, callExchange,
    completedBuyExchange, simpleExchange, orderAt, pure_apply]

theorem cancelOrderWithRetry_completedBuyExchange (id : String) (h1 : id ≠ "") (h2 : id ≠ "b1")
    (t : Bot Unit) :
    (cancelOrderWithRetry completedBuyExchange id t).1 = Res.ok "Order canceled" := by
  simp [cancelOrderWithRetry, cancelOrderLoop, fetchOrderWithRetry, fetchOrderLoop, bind_apply,
    M.bind, tryCatch, callExchange, completedBuyExchange, simpleExchange, orderAt, pure_apply,
    h1, h2]

theorem placeSellOrderWithRetry_accepted {W : Type} (ex : Exchange W) (price amount : ℚ)
    (s : Bot W) (o : Order) (w : W)
    (h : ex.createLimitSellOrder amount price s.world = (some o, w)) (hid : o.id ≠ "") :
    placeSellOrderWithRetry ex price amount s =
      (Res.ok o, afterCall s w (Call.createLimitSellOrder amount price)) := by
  have hid' : (o.id != "") = true := by simpa using hid
  simp only [placeSellOrderWithRetry, placeSellOrderLoop, bind_apply, M.bind, tryCatch,
    callExchange, h, hid', if_true, pure_apply]

theorem placeRungs_live_ok {W : Type} (ex : Exchange W) (cfg : Config) (hlive : cfg.live = true)
    (hplace : ∀ amount price w,
      ∃ o w', ex.createLimitSellOrder amount price w = (some o, w') ∧ o.id ≠ "")
    (amounts : List ℚ) (index : ℕ) (rest as : List ℚ) (hdrop : amounts.drop index = as)
    (hlen : as.length = rest.length) (s : Bot W) (hdb : s.db.sellOrders = s.vars.sellOrders) :
    ∃ s' ids, placeRungs ex cfg amounts index rest s = (Res.ok (), s') ∧
      s'.vars.sellOrders = s.vars.sellOrders ++ ids ∧ s'.db.sellOrders = s'.vars.sellOrders ∧
      List.Forall₂
        (fun pa id => ∃ o w w', ex.createLimitSellOrder pa.2 pa.1 w = (some o, w') ∧ o.id = id)
        (rest.zip as) ids ∧
      s'.calls.filter Call.isSellPlacement =
        s.calls.filter Call.isSellPlacement ++
          List.zipWith (fun p a => Call.createLimitSellOrder a p) rest as := by
  induction rest generalizing index as s with
  | nil =>
    exact ⟨s, [], by simp [placeRungs, pure_apply], by simp, hdb, by simp, by simp⟩
  | cons price rest ih =>
    cases as with
    | nil => simp at hlen
    | cons a as' =>
      have hget : amounts.getD index 0 = a := by
        have h0 : (amounts.drop index)[0]? = some a := by rw [hdrop]; simp
        rw [List.getElem?_drop, Nat.add_zero] at h0
        rw [List.getD_eq_getElem?_getD, h0]
        rfl
      have hdrop' : amounts.drop (index + 1) = as' := by
        have h1 : (amounts.drop index).drop 1 = as' := by rw [hdrop]; rfl
        rw [List.drop_drop] at h1
        rw [← h1]
      have hlen' : as'.length = rest.length := by simpa using hlen
      obtain ⟨o, w', ho, hid⟩ := hplace a price s.world
      have hrun := placeSellOrderWithRetry_accepted ex price a s o w' ho hid
      have key : ∀ u : Bot W, u.vars.sellOrders = s.vars.sellOrders ++ [o.id] →
          u.db.sellOrders = u.vars.sellOrders →
          u.calls = s.calls ++ [Call.createLimitSellOrder a price] →
          ∃ s' ids, placeRungs ex cfg amounts (index + 1) rest u = (Res.ok (), s') ∧
            s'.vars.sellOrders = s.vars.sellOrders ++ ids ∧
            s'.db.sellOrders = s'.vars.sellOrders ∧
            List.Forall₂
              (fun pa id =>
                ∃ o w w', ex.createLimitSellOrder pa.2 pa.1 w = (some o, w') ∧ o.id = id)
              ((price :: rest).zip (a :: as')) ids ∧
            s'.calls.filter Call.isSellPlacement =
              s.calls.filter Call.isSellPlacement ++
                List.zipWith (fun p a => Call.createLimitSellOrder a p) (price :: rest)
                  (a :: as') := by
        intro u hu1 hu2 hu3
        obtain ⟨s', ids, h1, h2, h3, h4, h5⟩ := ih (index + 1) as' hdrop' hlen' u hu2
        refine ⟨s', o.id :: ids, h1, ?_, h3, ?_, ?_⟩
        · rw [h2, hu1]
          simp
        · exact List.Forall₂.cons ⟨o, s.world, w', ho, rfl⟩ h4
        · rw [h5, hu3]
          simp [List.filter_append, Call.isSellPlacement]
      by_cases h0 : index = 0
      · subst h0
        obtain ⟨s', ids, h1, hrest⟩ := key
          { afterCall s w' (Call.createLimitSellOrder a price) with
            world := (ex.now w').2,
            db := { s.db with
              sellOrders := s.vars.sellOrders ++ [o.id],
              firstSellTime := some (ex.now w').1,
              firstSellPrice := some price },
            vars := { s.vars with
              sellOrders := s.vars.sellOrders ++ [o.id],
              firstSellPrice := some price } } rfl rfl rfl
        refine ⟨s', ids, ?_, hrest⟩
        rw [← h1]
        simp only [placeRungs, hlive, if_true, bind_apply, M.bind, hget,
          tryCatch_ok _ _ _ _ hrun, modifyBot, dateNow]
        rfl
      · obtain ⟨s', ids, h1, hrest⟩ := key
          { afterCall s w' (Call.createLimitSellOrder a price) with
            vars := { s.vars with sellOrders := s.vars.sellOrders ++ [o.id] },
            db := { s.db with sellOrders := s.vars.sellOrders ++ [o.id] } } rfl rfl rfl
        refine ⟨s', ids, ?_, hrest⟩
        rw [← h1]
        simp only [placeRungs, hlive, if_true, bind_apply, M.bind, hget,
          tryCatch_ok _ _ _ _ hrun, modifyBot, h0, if_false]
        rfl

theorem stable_noSellPlacement {W : Type} :
    Stable (fun s s' : Bot W =>
      s'.calls.filter Call.isSellPlacement = s.calls.filter Call.isSellPlacement)
      (fun c => c.isSellPlacement = false) where
  refl := fun _ => rfl
  trans := fun _ _ _ h1 h2 => h2.trans h1
  call := fun s w c hc => by simp [afterCall, List.filter_append, hc]

theorem getLowestSellPriceWithRetry_answered {W : Type} (ex : Exchange W) (s : Bot W) (ask : ℚ)
    (w : W) (h : ex.fetchTicker s.world = (some ask, w)) (h0 : ask ≠ 0) :
    getLowestSellPriceWithRetry ex s = (Res.ok ask, afterCall s w Call.fetchTicker) := by
  simp only [getLowestSellPriceWithRetry, getLowestSellPriceLoop, bind_apply, M.bind, tryCatch,
    callExchange, h]
  rw [if_pos h0]
  rfl

theorem fetchBalanceWithRetry_answered {W : Type} (ex : Exchange W) (s : Bot W)
    (b : String → Option ℚ) (w : W) (h : ex.fetchBalance s.world = (some b, w)) :
    fetchBalanceWithRetry ex s = (Res.ok b, afterCall s w Call.fetchBalance) := by
  simp only [fetchBalanceWithRetry, fetchBalanceLoop, bind_apply, M.bind, tryCatch,
    callExchange, h, pure_apply]

theorem buildDCA_live_ok {W : Type} (ex : Exchange W) (cfg : Config) (hlive : cfg.live = true)
    (ask free : ℚ) (s : Bot W) (hempty : s.vars.sellOrders = []) (hdb : s.db.sellOrders = [])
    (hask : ∀ w, ∃ w', ex.fetchTicker w = (some ask, w')) (hask0 : ask ≠ 0)
    (hbal : ∀ w, ∃ b w', ex.fetchBalance w = (some b, w') ∧ b cfg.base = some free)
    (hfree : ∀ a ∈ (ladder cfg s.vars.pricePrecision s.vars.amountPrecision ask).amounts.tail,
      a * 2 ≤ free)
    (hplace : ∀ amount price w,
      ∃ o w', ex.createLimitSellOrder amount price w = (some o, w') ∧ o.id ≠ "") :
    ∃ s', buildDCA ex cfg s = (Res.ok (), s') ∧ s'.db.sellOrders = s'.vars.sellOrders ∧
      List.Forall₂
        (fun pa id => ∃ o w w', ex.createLimitSellOrder pa.2 pa.1 w = (some o, w') ∧ o.id = id)
        ((ladder cfg s.vars.pricePrecision s.vars.amountPrecision ask).prices.zip
          (ladder cfg s.vars.pricePrecision s.vars.amountPrecision ask).amounts)
        s'.vars.sellOrders ∧
      s'.calls.filter Call.isSellPlacement =
        s.calls.filter Call.isSellPlacement ++
          List.zipWith (fun p a => Call.createLimitSellOrder a p)
            (ladder cfg s.vars.pricePrecision s.vars.amountPrecision ask).prices
            (ladder cfg s.vars.pricePrecision s.vars.amountPrecision ask).amounts := by
  obtain ⟨w1, hw1⟩ := hask s.world
  have h1 := getLowestSellPriceWithRetry_answered ex s ask w1 hw1 hask0
  generalize afterCall s w1 Call.fetchTicker = s1 at h1
  have f1 := keeps_getLowestSellPriceLoop stable_frame ex trivial 5 s
  have n1 := keeps_getLowestSellPriceLoop stable_noSellPlacement ex rfl 5 s
  rw [← getLowestSellPriceWithRetry, h1] at f1 n1
  obtain ⟨hv1, hd1, _, _⟩ := f1
  simp only at hv1 hd1 n1
  obtain ⟨b, w3, hw3, hb⟩ := hbal s1.world
  have h3 := fetchBalanceWithRetry_answered ex { s1 with vars := { s1.vars with
    averages := (firstRung cfg s1.vars.pricePrecision s1.vars.amountPrecision ask).averages } }
    b w3 hw3
  generalize afterCall { s1 with vars := { s1.vars with
    averages := (firstRung cfg s1.vars.pricePrecision s1.vars.amountPrecision ask).averages } }
    w3 Call.fetchBalance = s3 at h3
  have f3 := keeps_fetchBalanceLoop stable_frame ex trivial 5 { s1 with vars := { s1.vars with
    averages := (firstRung cfg s1.vars.pricePrecision s1.vars.amountPrecision ask).averages } }
  have n3 := keeps_fetchBalanceLoop stable_noSellPlacement ex rfl 5
    { s1 with vars := { s1.vars with
      averages := (firstRung cfg s1.vars.pricePrecision s1.vars.amountPrecision ask).averages } }
  rw [← fetchBalanceWithRetry, h3] at f3 n3
  obtain ⟨hv3, hd3, _, _⟩ := f3
  simp only at hv3 hd3 n3
  have hpp : s3.vars.pricePrecision = s.vars.pricePrecision := by rw [hv3, hv1]
  have hladder : cfg.dca.foldl (dcaStep s3.vars.pricePrecision)
      (firstRung cfg s1.vars.pricePrecision s1.vars.amountPrecision ask) =
      ladder cfg s.vars.pricePrecision s.vars.amountPrecision ask := by
    rw [ladder, hpp, hv1]
  obtain ⟨av, h5⟩ := dcaForEach_live_ok cfg hlive free cfg.dca
    (firstRung cfg s1.vars.pricePrecision s1.vars.amountPrecision ask)
    { s3 with vars := { s3.vars with balance := b cfg.base } } hb
    (by
      intro a ha
      apply hfree a
      simp only [hladder] at ha
      simpa [firstRung] using ha)
  simp only [hladder] at h5
  obtain ⟨hl1, hl2⟩ := ladder_lengths cfg s.vars.pricePrecision s.vars.amountPrecision ask
  obtain ⟨s', ids, h6, h7, h8, h9, h10⟩ := placeRungs_live_ok ex cfg hlive hplace
    (ladder cfg s.vars.pricePrecision s.vars.amountPrecision ask).amounts 0
    (ladder cfg s.vars.pricePrecision s.vars.amountPrecision ask).prices
    (ladder cfg s.vars.pricePrecision s.vars.amountPrecision ask).amounts rfl
    (by rw [hl1, hl2])
    { s3 with vars := { s3.vars with balance := b cfg.base, averages := av } }
    (by simp only [hd3, hd1, hdb, hv3, hv1, hempty])
  have hids : s'.vars.sellOrders = ids := by
    rw [h7]
    simp only [hv3, hv1, hempty, List.nil_append]
  refine ⟨s', ?_, h8, ?_, ?_⟩
  · simp only [buildDCA, bind_apply, M.bind, tryCatch_ok _ _ _ _ h1, getBot, modifyBot, hlive,
      if_true, tryCatch_ok _ _ _ _ h3, h5]
    exact h6
  · rw [hids]
    exact h9
  · rw [h10]
    simp only [n3]
    rw [n1]

theorem mem_of_issued {W : Type} (s s' : Bot W) (c : Call) (new : List Call)
    (h : s'.calls = s.calls ++ new) (hc : Issued s s' c) : c ∈ new := by
  obtain ⟨pre, post, hc⟩ := hc
  rw [h, List.append_assoc] at hc
  rw [List.append_cancel_left hc]
  simp

theorem forall₂_mem_right {α β : Type} (R : α → β → Prop) (l : List α) (ids : List β)
    (h : List.Forall₂ R l ids) (id : β) (hid : id ∈ ids) : ∃ a, R a id := by
  induction h with
  | nil => simp at hid
  | cons hab _ ih =>
    rcases List.mem_cons.mp hid with h | h
    · exact ⟨_, h ▸ hab⟩
    · exact ih h

theorem checkOrdersWithBuyOrder_closed {W : Type} (ex : Exchange W) (cfg : Config) (s s1 : Bot W)
    (order : Order) (ask free : ℚ) (hlive : cfg.live = true)
    (hbuy : fetchOrderWithRetry ex (s.vars.buyOrder.getD "") s = (Res.ok order, s1))
    (hclosed : order.status = "closed")
    (hcancel : ∀ id ∈ s.vars.sellOrders, ∀ t,
      ∃ m t', cancelOrderWithRetry ex id t = (Res.ok m, t'))
    (hask : ∀ w, ∃ w', ex.fetchTicker w = (some ask, w')) (hask0 : ask ≠ 0)
    (hbal : ∀ w, ∃ b w', ex.fetchBalance w = (some b, w') ∧ b cfg.base = some free)
    (hfree : ∀ a ∈ (ladder cfg s.vars.pricePrecision s.vars.amountPrecision ask).amounts.tail,
      a * 2 ≤ free)
    (hplace : ∀ amount price w,
      ∃ o w', ex.createLimitSellOrder amount price w = (some o, w') ∧ o.id ≠ "") :
    ∃ sC s', checkOrdersWithBuyOrder ex cfg s = (Res.ok (), s') ∧
      buildDCA ex cfg
        { sC with
          vars := { sC.vars with sellOrders := [] },
          db := { sC.db with sellOrders := [], firstSellPrice := none } } = (Res.ok (), s') ∧
      sC.vars = { s.vars with buyOrder := none, buyOrderPrice := none } ∧
      sC.db = { s.db with buyOrder := none, buyOrderPrice := none } ∧
      (∃ new, s1.calls = s.calls ++ new) ∧ (∃ new, sC.calls = s1.calls ++ new) ∧
      sC.calls.filter Call.isSellPlacement = s.calls.filter Call.isSellPlacement ∧
      (∀ id ∈ s.vars.sellOrders, ∃ r, Issued s1 sC (Call.fetchOrder id (some r)) ∧
        (r.status = "open" → Issued s1 sC (Call.cancelOrder id))) ∧
      s'.db.sellOrders = s'.vars.sellOrders ∧
      List.Forall₂
        (fun pa id => ∃ o w w', ex.createLimitSellOrder pa.2 pa.1 w = (some o, w') ∧ o.id = id)
        ((ladder cfg s.vars.pricePrecision s.vars.amountPrecision ask).prices.zip
          (ladder cfg s.vars.pricePrecision s.vars.amountPrecision ask).amounts)
        s'.vars.sellOrders ∧
      s'.calls.filter Call.isSellPlacement =
        sC.calls.filter Call.isSellPlacement ++
          List.zipWith (fun p a => Call.createLimitSellOrder a p)
            (ladder cfg s.vars.pricePrecision s.vars.amountPrecision ask).prices
            (ladder cfg s.vars.pricePrecision s.vars.amountPrecision ask).amounts := by
  have f0 := keeps_fetchOrderWithRetry stable_frame ex (s.vars.buyOrder.getD "")
    (fun _ => trivial) s
  have n0 := keeps_fetchOrderWithRetry stable_noSellPlacement ex (s.vars.buyOrder.getD "")
    (fun _ => rfl) s
  rw [hbuy] at f0 n0
  obtain ⟨hv0, hd0, hx0, _⟩ := f0
  simp only at hv0 hd0 hx0 n0
  obtain ⟨sC, hC, fC, eC⟩ := cancelAllOrders_all_ok ex
    { s1 with
      vars := { s1.vars with buyOrder := none, buyOrderPrice := none },
      db := { s1.db with buyOrder := none, buyOrderPrice := none } }
    (by
      intro id hid
      apply hcancel id
      simpa only [hv0] using hid)
  have nC := keeps_cancelAllOrders stable_noSellPlacement (fun _ _ h => by rw [h.2.2.2.2.1])
    ex (fun _ _ => rfl) (fun _ => rfl)
    { s1 with
      vars := { s1.vars with buyOrder := none, buyOrderPrice := none },
      db := { s1.db with buyOrder := none, buyOrderPrice := none } }
  rw [hC] at nC
  obtain ⟨hvC, hdC, hxC, _⟩ := fC
  simp only at hvC hdC hxC nC
  obtain ⟨s', hB, hB1, hB2, hB3⟩ := buildDCA_live_ok ex cfg hlive ask free
    { sC with
      vars := { sC.vars with sellOrders := [] },
      db := { sC.db with sellOrders := [], firstSellPrice := none } } rfl rfl hask hask0 hbal
    (by simpa only [hvC, hv0] using hfree) hplace
  simp only [hvC, hv0] at hB2 hB3
  have hrun : checkOrdersWithBuyOrder ex cfg s = (Res.ok (), s') := by
    simp only [checkOrdersWithBuyOrder, bind_apply, M.bind, getBot, tryCatch_ok _ _ _ _ hbuy,
      hclosed, if_true, clearBuyOrder_apply, clearBuyOrderPrice_apply, hC]
    exact hB
  refine ⟨sC, s', hrun, hB, by rw [hvC, hv0], by rw [hdC, hd0], hx0, hxC, by rw [nC, n0], ?_,
    hB1, hB2, hB3⟩
  intro id hid
  obtain ⟨r, hr1, hr2⟩ := eC id (by simpa only [hv0] using hid)
  exact ⟨r, ⟨hr1.choose, hr1.choose_spec⟩, fun hopen => ⟨(hr2 hopen).choose, (hr2 hopen).choose_spec⟩⟩

/-- C14 as amended: in live mode, when the tracked buy order is reported `closed`, every cancel of
a tracked sell order succeeds, the exchange answers the ticker request with the ask `ask` and the
balance request with a free balance that covers every step of the ladder, and it accepts every
sell placement, `checkOrdersWithBuyOrder` completes with `buyOrder` and `buyOrderPrice` null in
the variables and in the store.  Among the calls of the cycle there is the fetch of the buy order
and, for every previously tracked sell order, a fetch of its status and, when that was `open`, a
cancel request; the sell placements of the cycle are exactly those of the rungs of the
ladder built from `ask`, one per rung and in rung order; `sellOrders` (the same list in the
variables and in the store) holds one id per rung, each the id of an order the exchange returned
for a placement at the amount and price of that rung; and none of the old ids is in the list
provided the exchange never returns the id of a previously tracked order for a placement. -/
theorem C14_closed_buy_order_restarts {W : Type} (ex : Exchange W) (cfg : Config) (s s1 : Bot W)
    (order : Order) (ask free : ℚ) (hlive : cfg.live = true)
    (hbuy : fetchOrderWithRetry ex (s.vars.buyOrder.getD "") s = (Res.ok order, s1))
    (hclosed : order.status = "closed")
    (hcancel : ∀ id ∈ s.vars.sellOrders, ∀ t,
      ∃ m t', cancelOrderWithRetry ex id t = (Res.ok m, t'))
    (hask : ∀ w, ∃ w', ex.fetchTicker w = (some ask, w')) (hask0 : ask ≠ 0)
    (hbal : ∀ w, ∃ b w', ex.fetchBalance w = (some b, w') ∧ b cfg.base = some free)
    (hfree : ∀ a ∈ (ladder cfg s.vars.pricePrecision s.vars.amountPrecision ask).amounts.tail,
      a * 2 ≤ free)
    (hplace : ∀ amount price w,
      ∃ o w', ex.createLimitSellOrder amount price w = (some o, w') ∧ o.id ≠ "") :
    ∃ s' new, checkOrdersWithBuyOrder ex cfg s = (Res.ok (), s') ∧ s'.calls = s.calls ++ new ∧
      Call.fetchOrder (s.vars.buyOrder.getD "") (some order) ∈ new ∧
      s'.vars.buyOrder = none ∧ s'.vars.buyOrderPrice = none ∧
      s'.db.buyOrder = none ∧ s'.db.buyOrderPrice = none ∧
      (∀ id ∈ s.vars.sellOrders, ∃ r, Call.fetchOrder id (some r) ∈ new ∧
        (r.status = "open" → Call.cancelOrder id ∈ new)) ∧
      new.filter Call.isSellPlacement =
        List.zipWith (fun p a => Call.createLimitSellOrder a p)
          (ladder cfg s.vars.pricePrecision s.vars.amountPrecision ask).prices
          (ladder cfg s.vars.pricePrecision s.vars.amountPrecision ask).amounts ∧
      s'.vars.sellOrders.length = 1 + cfg.dca.length ∧
      s'.db.sellOrders = s'.vars.sellOrders ∧
      List.Forall₂
        (fun pa id => ∃ o w w', ex.createLimitSellOrder pa.2 pa.1 w = (some o, w') ∧ o.id = id)
        ((ladder cfg s.vars.pricePrecision s.vars.amountPrecision ask).prices.zip
          (ladder cfg s.vars.pricePrecision s.vars.amountPrecision ask).amounts)
        s'.vars.sellOrders ∧
      ((∀ amount price w o w', ex.createLimitSellOrder amount price w = (some o, w') →
          o.id ∉ s.vars.sellOrders) →
        ∀ id ∈ s'.vars.sellOrders, id ∉ s.vars.sellOrders) := by
  obtain ⟨sC, s', hrun, hB, hvC, hdC, ⟨n0, hn0⟩, ⟨nC, hnC⟩, hfC, eC, hB1, hB2, hB3⟩ :=
    checkOrdersWithBuyOrder_closed ex cfg s s1 order ask free hlive hbuy hclosed hcancel hask
      hask0 hbal hfree hplace
  have kB := keeps_buildDCA stable_buyFields (fun _ _ h => ⟨h.1, h.2.1, h.2.2.1, h.2.2.2.1⟩)
    ex cfg (fun _ _ => trivial) trivial trivial
    { sC with
      vars := { sC.vars with sellOrders := [] },
      db := { sC.db with sellOrders := [], firstSellPrice := none } }
  have xB := keeps_buildDCA stable_extends (fun _ _ h => ⟨[], by rw [h.2.2.2.2.1]; simp⟩)
    ex cfg (fun _ _ => trivial) trivial trivial
    { sC with
      vars := { sC.vars with sellOrders := [] },
      db := { sC.db with sellOrders := [], firstSellPrice := none } }
  rw [hB] at kB xB
  simp only [hvC, hdC] at kB
  obtain ⟨nB, hnB⟩ := xB
  simp only at hnB
  have hnew : s'.calls = s.calls ++ (n0 ++ nC ++ nB) := by
    rw [hnB, hnC, hn0]
    simp
  have hlen := hB2.length_eq
  obtain ⟨hl1, hl2⟩ := ladder_lengths cfg s.vars.pricePrecision s.vars.amountPrecision ask
  have hfetched : Call.fetchOrder (s.vars.buyOrder.getD "") (some order) ∈ n0 := by
    obtain ⟨l, hl, hmem, _⟩ := fetchOrderLoop_ok_logged ex (s.vars.buyOrder.getD "") 5 s s1 order
      hbuy
    rw [hn0] at hl
    rw [List.append_cancel_left hl]
    exact hmem
  refine ⟨s', n0 ++ nC ++ nB, hrun, hnew,
    List.mem_append_left _ (List.mem_append_left _ hfetched), kB.1, kB.2.1, kB.2.2.1, kB.2.2.2,
    ?_, ?_, ?_, hB1, hB2, ?_⟩
  · intro id hid
    obtain ⟨r, hr1, hr2⟩ := eC id hid
    have lift : ∀ c, Issued s1 sC c → c ∈ n0 ++ nC ++ nB :=
      fun c hc => mem_of_issued s s' c _ hnew
        (issued_of_right s s1 s' c ⟨n0, hn0⟩ (issued_of_left s1 sC s' c hc ⟨nB, hnB⟩))
    exact ⟨r, lift _ hr1, fun hopen => lift _ (hr2 hopen)⟩
  · have h := hB3
    rw [hfC, hnew, List.filter_append] at h
    exact List.append_cancel_left h
  · rw [← hlen, List.length_zip, hl1, hl2, Nat.min_self]
  · intro hfresh id hid
    obtain ⟨pa, o, w, w', h1, h2⟩ := forall₂_mem_right _ _ _ hB2 id hid
    rw [← h2]
    exact hfresh _ _ _ _ _ h1

/-- Witness of C14: the buy order `b1` is closed, the sell orders `s1` and `s2` are open and their
cancel requests are accepted, the ask is `100`, the free balance `1000` covers the ladder with the
prices `100, 200, 180` and the amounts `1, 1, 2`, and every placement is answered with the id
`new-sell`. -/
theorem C14_closed_buy_order_restarts_witness :
    ∃ s' new, checkOrdersWithBuyOrder completedBuyExchange liveConfig
        (loadedWith ["s1", "s2"] (some "b1") (some 90)) = (Res.ok (), s') ∧
      s'.calls = (loadedWith ["s1", "s2"] (some "b1") (some 90)).calls ++ new ∧
      Call.fetchOrder "b1" (some (orderAt "b1" "closed" 2)) ∈ new ∧
      s'.vars.buyOrder = none ∧ s'.vars.buyOrderPrice = none ∧
      s'.db.buyOrder = none ∧ s'.db.buyOrderPrice = none ∧
      (∀ id ∈ ["s1", "s2"], ∃ r, Call.fetchOrder id (some r) ∈ new ∧
        (r.status = "open" → Call.cancelOrder id ∈ new)) ∧
      new.filter Call.isSellPlacement =
        [Call.createLimitSellOrder 1 100, Call.createLimitSellOrder 1 200,
          Call.createLimitSellOrder 2 180] ∧
      s'.vars.sellOrders = ["new-sell", "new-sell", "new-sell"] ∧
      s'.db.sellOrders = s'.vars.sellOrders ∧
      ∀ id ∈ s'.vars.sellOrders, id ∉ ["s1", "s2"] := by
  have hladder : ladder liveConfig
      (loadedWith ["s1", "s2"] (some "b1") (some 90)).vars.pricePrecision
      (loadedWith ["s1", "s2"] (some "b1") (some 90)).vars.amountPrecision 100 =
      { prices := [100, 200, 180], amounts := [1, 1, 2], averages := [100, 150, 165] } :=
    ladder_liveConfig
  obtain ⟨s', new, h1, h2, h0, h3, h4, h5, h6, h7, h8, _, h10, h11, h12⟩ :=
    C14_closed_buy_order_restarts completedBuyExchange liveConfig
      (loadedWith ["s1", "s2"] (some "b1") (some 90))
      (fetchOrderWithRetry completedBuyExchange "b1"
        (loadedWith ["s1", "s2"] (some "b1") (some 90))).2
      (orderAt "b1" "closed" 2) 100 1000 rfl
      (Prod.ext (fetchOrderWithRetry_completedBuyExchange_b1 _) rfl) rfl
      (by
        intro id hid t
        have hid' : id = "s1" ∨ id = "s2" := by simpa [loadedWith] using hid
        refine ⟨_, _, Prod.ext (cancelOrderWithRetry_completedBuyExchange id ?_ ?_ t) rfl⟩
        · rcases hid' with h | h <;> rw [h] <;> decide
        · rcases hid' with h | h <;> rw [h] <;> decide)
      (fun w => ⟨_, rfl⟩) (by norm_num)
      (fun w => ⟨_, _, rfl, rfl⟩)
      (by
        rw [hladder]
        intro a ha
        simp at ha
        rcases ha with h | h <;> rw [h] <;> norm_num)
      (fun amount price w => ⟨_, _, rfl, by simp⟩)
  rw [hladder] at h8 h11
  have hids : s'.vars.sellOrders = ["new-sell", "new-sell", "new-sell"] := by
    simp only [List.zip_cons_cons, List.zip_nil_right] at h11
    obtain ⟨x, ids1, hx, h11, e1⟩ := List.forall₂_cons_left_iff.mp h11
    obtain ⟨y, ids2, hy, h11, e2⟩ := List.forall₂_cons_left_iff.mp h11
    obtain ⟨z, ids3, hz, h11, e3⟩ := List.forall₂_cons_left_iff.mp h11
    have e4 := List.forall₂_nil_left_iff.mp h11
    have hnew : ∀ a p id, (∃ o w w', completedBuyExchange.createLimitSellOrder a p w =
        (some o, w') ∧ o.id = id) → id = "new-sell" := by
      intro a p id ⟨o, w, w', h, hid⟩
      simp [completedBuyExchange, simpleExchange] at h
      rw [← hid, ← h]
    rw [e1, e2, e3, e4, hnew _ _ _ hx, hnew _ _ _ hy, hnew _ _ _ hz]
  refine ⟨s', new, h1, h2, h0, h3, h4, h5, h6, h7, ?_, hids, h10, ?_⟩
  · simpa using h8
  · rw [hids]
    intro id hid
    simp only [List.mem_cons, List.mem_singleton, List.not_mem_nil, or_false, or_self] at hid
    rw [hid]
    decide

theorem fetchOrderWithRetry_recyclingExchange_b1 (t : Bot Unit) :
    (fetchOrderWithRetry recyclingExchange "b1" t).1 = Res.ok (orderAt "b1" "closed" 2) := by
  simp [fetchOrderWithRetry, fetchOrderLoop, bind_apply, M.bind, tryCatch, callExchange,
    recyclingExchange, completedBuyExchange, simpleExchange, orderAt, pure_apply]

theorem cancelOrderWithRetry_recyclingExchange (id : String) (h1 : id ≠ "") (h2 : id ≠ "b1")
    (t : Bot Unit) :
    (cancelOrderWithRetry recyclingExchange id t).1 = Res.ok "Order canceled" := by
  simp [cancelOrderWithRetry, cancelOrderLoop, fetchOrderWithRetry, fetchOrderLoop, bind_apply,
    M.bind, tryCatch, callExchange, recyclingExchange, completedBuyExchange, simpleExchange,
    orderAt, pure_apply, h1, h2]

/-- C14 as stated fails: the buy order `b1` is closed, the cancels of the tracked sell orders `s1`
and `s2` succeed, and every sell placement succeeds, but the exchange answers each placement with
the id `s1`.  The cycle completes and `sellOrders` holds `s1` three times: an id of the old list
is in the new one. -/
theorem C14_old_id_returned_again :
    (loadedWith ["s1", "s2"] (some "b1") (some 90)).vars.sellOrders = ["s1", "s2"] ∧
    (fetchOrderWithRetry recyclingExchange "b1"
      (loadedWith ["s1", "s2"] (some "b1") (some 90))).1 = Res.ok (orderAt "b1" "closed" 2) ∧
    (orderAt "b1" "closed" 2).status = "closed" ∧
    (∀ id ∈ ["s1", "s2"], ∀ t : Bot Unit,
      (cancelOrderWithRetry recyclingExchange id t).1 = Res.ok "Order canceled") ∧
    (∀ (amount price : ℚ) (w : Unit),
      ∃ o, (recyclingExchange.createLimitSellOrder amount price w).1 = some o ∧ o.id = "s1") ∧
    ∃ s', checkOrdersWithBuyOrder recyclingExchange liveConfig
        (loadedWith ["s1", "s2"] (some "b1") (some 90)) = (Res.ok (), s') ∧
      s'.vars.sellOrders = ["s1", "s1", "s1"] ∧
      ¬ ∀ id ∈ s'.vars.sellOrders,
        id ∉ (loadedWith ["s1", "s2"] (some "b1") (some 90)).vars.sellOrders := by
  have hcancel : ∀ id ∈ ["s1", "s2"], ∀ t : Bot Unit,
      (cancelOrderWithRetry recyclingExchange id t).1 = Res.ok "Order canceled" := by
    intro id hid t
    have hid' : id = "s1" ∨ id = "s2" := by simpa using hid
    refine cancelOrderWithRetry_recyclingExchange id ?_ ?_ t
    · rcases hid' with h | h <;> rw [h] <;> decide
    · rcases hid' with h | h <;> rw [h] <;> decide
  have hladder : ladder liveConfig
      (loadedWith ["s1", "s2"] (some "b1") (some 90)).vars.pricePrecision
      (loadedWith ["s1", "s2"] (some "b1") (some 90)).vars.amountPrecision 100 =
      { prices := [100, 200, 180], amounts := [1, 1, 2], averages := [100, 150, 165] } :=
    ladder_liveConfig
  obtain ⟨sC, s', hrun, _, _, _, _, _, _, _, _, h11, _⟩ :=
    checkOrdersWithBuyOrder_closed recyclingExchange liveConfig
      (loadedWith ["s1", "s2"] (some "b1") (some 90))
      (fetchOrderWithRetry recyclingExchange "b1"
        (loadedWith ["s1", "s2"] (some "b1") (some 90))).2
      (orderAt "b1" "closed" 2) 100 1000 rfl
      (Prod.ext (fetchOrderWithRetry_recyclingExchange_b1 _) rfl) rfl
      (fun id hid t => ⟨_, _, Prod.ext (hcancel id hid t) rfl⟩)
      (fun w => ⟨_, rfl⟩) (by norm_num)
      (fun w => ⟨_, _, rfl, rfl⟩)
      (by
        rw [hladder]
        intro a ha
        simp at ha
        rcases ha with h | h <;> rw [h] <;> norm_num)
      (fun amount price w => ⟨_, _, rfl, by simp⟩)
  rw [hladder] at h11
  have hids : s'.vars.sellOrders = ["s1", "s1", "s1"] := by
    simp only [List.zip_cons_cons, List.zip_nil_right] at h11
    obtain ⟨x, ids1, hx, h11, e1⟩ := List.forall₂_cons_left_iff.mp h11
    obtain ⟨y, ids2, hy, h11, e2⟩ := List.forall₂_cons_left_iff.mp h11
    obtain ⟨z, ids3, hz, h11, e3⟩ := List.forall₂_cons_left_iff.mp h11
    have e4 := List.forall₂_nil_left_iff.mp h11
    have hnew : ∀ a p id, (∃ o w w', recyclingExchange.createLimitSellOrder a p w =
        (some o, w') ∧ o.id = id) → id = "s1" := by
      intro a p id ⟨o, w, w', h, hid⟩
      simp [recyclingExchange] at h
      rw [← hid, ← h]
    rw [e1, e2, e3, e4, hnew _ _ _ hx, hnew _ _ _ hy, hnew _ _ _ hz]
  refine ⟨rfl, fetchOrderWithRetry_recyclingExchange_b1 _, rfl, hcancel,
    fun amount price w => ⟨_, rfl, rfl⟩, s', hrun, hids, ?_⟩
  intro hall
  exact hall "s1" (by rw [hids]; simp) (by simp [loadedWith])

/-! ### The two fields of the buy order are written one after the other -/

/-- C7 as stated fails: the process tracks the buy order `b1` at the price `90`, both fields set
in the variables and in the store, and the exchange reports `b1` closed.  The cycle clears
`buyOrder` (lines 239-240) before `buyOrderPrice` (lines 241-242): after the first of the two
steps `buyOrder` is null and `buyOrderPrice` is still `90`, in the variables and in the store, and
the rest of the cycle runs from that state. -/
theorem C7_buy_order_cleared_before_its_price :
    PairOK ((loadedWith ["s1", "s2"] (some "b1") (some 90)).vars,
      (loadedWith ["s1", "s2"] (some "b1") (some 90)).db) ∧
    (fetchOrderWithRetry completedBuyExchange "b1"
      (loadedWith ["s1", "s2"] (some "b1") (some 90))).1 = Res.ok (orderAt "b1" "closed" 2) ∧
    (clearBuyOrder (fetchOrderWithRetry completedBuyExchange "b1"
      (loadedWith ["s1", "s2"] (some "b1") (some 90))).2).1 = Res.ok () ∧
    checkOrdersWithBuyOrder completedBuyExchange liveConfig
        (loadedWith ["s1", "s2"] (some "b1") (some 90)) =
      (clearBuyOrderPrice >>= fun _ =>
        cancelAllOrders completedBuyExchange >>= fun _ => buildDCA completedBuyExchange liveConfig)
        (clearBuyOrder (fetchOrderWithRetry completedBuyExchange "b1"
          (loadedWith ["s1", "s2"] (some "b1") (some 90))).2).2 ∧
    (clearBuyOrder (fetchOrderWithRetry completedBuyExchange "b1"
      (loadedWith ["s1", "s2"] (some "b1") (some 90))).2).2.vars.buyOrder = none ∧
    (clearBuyOrder (fetchOrderWithRetry completedBuyExchange "b1"
      (loadedWith ["s1", "s2"] (some "b1") (some 90))).2).2.vars.buyOrderPrice = some 90 ∧
    (clearBuyOrder (fetchOrderWithRetry completedBuyExchange "b1"
      (loadedWith ["s1", "s2"] (some "b1") (some 90))).2).2.db.buyOrder = none ∧
    (clearBuyOrder (fetchOrderWithRetry completedBuyExchange "b1"
      (loadedWith ["s1", "s2"] (some "b1") (some 90))).2).2.db.buyOrderPrice = some 90 ∧
    ¬ PairOK
      ((clearBuyOrder (fetchOrderWithRetry completedBuyExchange "b1"
        (loadedWith ["s1", "s2"] (some "b1") (some 90))).2).2.vars,
       (clearBuyOrder (fetchOrderWithRetry completedBuyExchange "b1"
        (loadedWith ["s1", "s2"] (some "b1") (some 90))).2).2.db) := by
  have hfr := keeps_fetchOrderWithRetry stable_frame completedBuyExchange "b1"
    (fun _ => trivial) (loadedWith ["s1", "s2"] (some "b1") (some 90))
  obtain ⟨hv, hd, _, _⟩ := hfr
  have hbuy : fetchOrderWithRetry completedBuyExchange "b1"
      (loadedWith ["s1", "s2"] (some "b1") (some 90)) =
      (Res.ok (orderAt "b1" "closed" 2),
        (fetchOrderWithRetry completedBuyExchange "b1"
          (loadedWith ["s1", "s2"] (some "b1") (some 90))).2) :=
    Prod.ext (fetchOrderWithRetry_completedBuyExchange_b1 _) rfl
  have hid : (loadedWith ["s1", "s2"] (some "b1") (some 90)).vars.buyOrder.getD "" = "b1" := rfl
  have hclosed : (orderAt "b1" "closed" 2).status = "closed" := rfl
  refine ⟨by simp [PairOK, loadedWith, initialVars, initialDb],
    fetchOrderWithRetry_completedBuyExchange_b1 _, rfl, ?_, rfl, ?_, rfl, ?_, ?_⟩
  · simp only [checkOrdersWithBuyOrder, bind_apply, M.bind, getBot, hid, tryCatch_ok _ _ _ _ hbuy,
      hclosed, if_true, clearBuyOrder_apply]
  · rw [clearBuyOrder_apply]
    simp only [hv]
    rfl
  · rw [clearBuyOrder_apply]
    simp only [hd]
    rfl
  · rw [clearBuyOrder_apply]
    simp only [hv, hd, PairOK]
    simp [loadedWith, initialVars, initialDb]

/-! ### Where buy orders are placed -/

theorem stable_noBuyPlacement {W : Type} :
    Stable (fun s s' : Bot W =>
      s'.calls.filter Call.isBuyPlacement = s.calls.filter Call.isBuyPlacement)
      (fun c => c.isBuyPlacement = false) where
  refl := fun _ => rfl
  trans := fun _ _ _ h1 h2 => h2.trans h1
  call := fun s w c hc => by simp [afterCall, List.filter_append, hc]

/-- The reconciler that runs while a buy order is tracked never places a buy order, and so a cycle
of `checkForUpdate` that starts with a buy order tracked places none: buy orders are placed by
`checkOrders` only, which runs when `buyOrder` is not set. -/
theorem checkForUpdate_places_no_buy_order_while_tracked {W : Type} (ex : Exchange W)
    (cfg : Config) (s : Bot W) :
    (checkOrdersWithBuyOrder ex cfg s).2.calls.filter Call.isBuyPlacement =
      s.calls.filter Call.isBuyPlacement ∧
    (truthy s.vars.buyOrder = true →
      (checkForUpdate ex cfg s).2.calls.filter Call.isBuyPlacement =
        s.calls.filter Call.isBuyPlacement) := by
  have hS := stable_noBuyPlacement (W := W)
  have hB : ∀ s s' : Bot W, BuyFrame s s' →
      s'.calls.filter Call.isBuyPlacement = s.calls.filter Call.isBuyPlacement :=
    fun s s' h => by rw [h.2.2.2.2.1]
  have hk : Keeps (fun s s' : Bot W =>
      s'.calls.filter Call.isBuyPlacement = s.calls.filter Call.isBuyPlacement)
      (checkOrdersWithBuyOrder ex cfg) := by
    rw [checkOrdersWithBuyOrder]
    refine keeps_bind hS (keeps_getBot hS) ?_
    intro s
    refine keeps_bind hS (keeps_tryCatch (keeps_fetchOrderWithRetry hS ex _ (fun _ => rfl))) ?_
    intro order
    cases order with
    | error e => exact keeps_pure hS _
    | ok result =>
      dsimp only
      split
      · refine keeps_clearBuyPair hS _ (fun t => rfl) ?_
        exact keeps_bind hS
          (keeps_cancelAllOrders hS hB ex (fun _ _ => rfl) (fun _ => rfl))
          (fun _ => keeps_buildDCA hS hB ex cfg (fun _ _ => rfl) rfl rfl)
      · refine keeps_bind hS (keeps_scanSellOrders hS ex (fun _ _ => rfl) _ _ _ _) ?_
        intro scan
        cases scan with
        | none => exact keeps_pure hS _
        | some v =>
          obtain ⟨filled, price, sum⟩ := v
          dsimp only
          split
          · exact keeps_throwErr hS _
          · exact keeps_pure hS _
  refine ⟨hk s, ?_⟩
  intro htr
  have hk' := keeps_tryCatch hk s
  simp only [checkForUpdate, bind_apply, M.bind, getBot, htr, if_true]
  rcases h : tryCatch (checkOrdersWithBuyOrder ex cfg) s with ⟨r, s'⟩
  rw [h] at hk'
  cases r <;> exact hk'

/-! ### The rounding utilities in binary64 arithmetic -/

namespace Binary64

theorem nearestEven_eq (y : ℚ) (n : ℤ) (h1 : (n : ℚ) - 1 / 2 < y) (h2 : y < n + 1 / 2) :
    nearestEven y = n := by
  rcases lt_or_le y n with h | h
  · have hf : ⌊y⌋ = n - 1 := by
      rw [Int.floor_eq_iff]
      push_cast
      constructor <;> linarith
    have h3 : ¬ y - ((n - 1 : ℤ) : ℚ) < 1 / 2 := by
      push_cast
      linarith
    have h4 : 1 / 2 < y - ((n - 1 : ℤ) : ℚ) := by
      push_cast
      linarith
    rw [nearestEven, hf, if_neg h3, if_pos h4]
    ring
  · have hf : ⌊y⌋ = n := by
      rw [Int.floor_eq_iff]
      constructor <;> linarith
    have h3 : y - (n : ℚ) < 1 / 2 := by linarith
    rw [nearestEven, hf, if_pos h3]

theorem roundMagnitude_eq (x : ℚ) (e n : ℤ) (h0 : 0 < x) (he : -1022 ≤ e)
    (h1 : (2 : ℚ) ^ e ≤ x) (h2 : x < (2 : ℚ) ^ (e + 1))
    (h3 : (n : ℚ) - 1 / 2 < x / 2 ^ (e - 52)) (h4 : x / 2 ^ (e - 52) < n + 1 / 2) :
    roundMagnitude x = n * 2 ^ (e - 52) := by
  have hlog : Int.log 2 x = e := by
    apply le_antisymm
    · have := (Int.lt_zpow_iff_log_lt (b := 2) (by norm_num) h0).mp
        (by exact_mod_cast h2 : x < ((2 : ℕ) : ℚ) ^ (e + 1))
      omega
    · exact (Int.zpow_le_iff_le_log (b := 2) (by norm_num) h0).mp (by exact_mod_cast h1)
  have hulp : ulp x = 2 ^ (e - 52) := by
    rw [ulp, hlog, max_eq_left he]
  rw [roundMagnitude, hulp, nearestEven_eq _ n h3 h4]

theorem ofSignMagnitude_eq (negative : Bool) (x : ℚ) (e n : ℤ) (h0 : 0 < x) (he : -1022 ≤ e)
    (h1 : (2 : ℚ) ^ e ≤ x) (h2 : x < (2 : ℚ) ^ (e + 1))
    (h3 : (n : ℚ) - 1 / 2 < x / 2 ^ (e - 52)) (h4 : x / 2 ^ (e - 52) < n + 1 / 2)
    (h5 : (n : ℚ) * 2 ^ (e - 52) < 2 ^ 1024) :
    ofSignMagnitude negative x = Num.fin negative (n * 2 ^ (e - 52)) := by
  rw [ofSignMagnitude, roundMagnitude_eq x e n h0 he h1 h2 h3 h4, if_pos h5]

theorem ofRat_hundred : ofRat 100 = Num.fin false 100 := by
  have h := ofSignMagnitude_eq false 100 6 7036874417766400 (by norm_num) (by norm_num)
    (by norm_num) (by norm_num) (by norm_num) (by norm_num) (by norm_num)
  have e : ((7036874417766400 : ℤ) : ℚ) * 2 ^ ((6 : ℤ) - 52) = 100 := by norm_num
  rw [e] at h
  rw [ofRat]
  simpa using h

theorem pow10_two : pow10 2 = Num.fin false 100 := by
  have e : ((10 : ℚ) ^ 2) = 100 := by norm_num
  rw [pow10, e, ofRat_hundred]

theorem ofRat_1095 : ofRat (219 / 200) = Num.fin false (4931441591970693 / 2 ^ 52) := by
  have h := ofSignMagnitude_eq false (219 / 200) 0 4931441591970693 (by norm_num) (by norm_num)
    (by norm_num) (by norm_num) (by norm_num) (by norm_num) (by norm_num)
  have e : ((4931441591970693 : ℤ) : ℚ) * 2 ^ ((0 : ℤ) - 52) = 4931441591970693 / 2 ^ 52 := by
    norm_num
  rw [e] at h
  have ha : |(219 / 200 : ℚ)| = 219 / 200 := abs_of_pos (by norm_num)
  have hn : decide ((219 / 200 : ℚ) < 0) = false := by
    rw [decide_eq_false_iff_not]
    norm_num
  rw [ofRat, ha, hn, h]

theorem ofRat_11 : ofRat (11 / 10) = Num.fin false (4953959590107546 / 2 ^ 52) := by
  have h := ofSignMagnitude_eq false (11 / 10) 0 4953959590107546 (by norm_num) (by norm_num)
    (by norm_num) (by norm_num) (by norm_num) (by norm_num) (by norm_num)
  have e : ((4953959590107546 : ℤ) : ℚ) * 2 ^ ((0 : ℤ) - 52) = 4953959590107546 / 2 ^ 52 := by
    norm_num
  rw [e] at h
  have ha : |(11 / 10 : ℚ)| = 11 / 10 := abs_of_pos (by norm_num)
  have hn : decide ((11 / 10 : ℚ) < 0) = false := by
    rw [decide_eq_false_iff_not]
    norm_num
  rw [ofRat, ha, hn, h]

theorem ofRat_111 : ofRat (111 / 100) = Num.fin false (4998995586381251 / 2 ^ 52) := by
  have h := ofSignMagnitude_eq false (111 / 100) 0 4998995586381251 (by norm_num) (by norm_num)
    (by norm_num) (by norm_num) (by norm_num) (by norm_num) (by norm_num)
  have e : ((4998995586381251 : ℤ) : ℚ) * 2 ^ ((0 : ℤ) - 52) = 4998995586381251 / 2 ^ 52 := by
    norm_num
  rw [e] at h
  have ha : |(111 / 100 : ℚ)| = 111 / 100 := abs_of_pos (by norm_num)
  have hn : decide ((111 / 100 : ℚ) < 0) = false := by
    rw [decide_eq_false_iff_not]
    norm_num
  rw [ofRat, ha, hn, h]

/-- In binary64, `100 * 1.095` is `109.5`: the exact product lies below `109.5` by less than
half the spacing `2 ^ (-46)` of the values there. -/
theorem mul_hundred_1095 :
    mul (Num.fin false 100) (Num.fin false (4931441591970693 / 2 ^ 52)) =
      Num.fin false (219 / 2) := by
  have h := ofSignMagnitude_eq false (100 * (4931441591970693 / 2 ^ 52)) 6 7705377487454208
    (by norm_num) (by norm_num) (by norm_num) (by norm_num) (by norm_num) (by norm_num)
    (by norm_num)
  have e : ((7705377487454208 : ℤ) : ℚ) * 2 ^ ((6 : ℤ) - 52) = 219 / 2 := by norm_num
  rw [e] at h
  rw [mul]
  exact h

/-- In binary64, `100 * 1.1` is `110.00000000000001`, the value next above `110`: the number
`1.1` is the binary64 value just above eleven tenths, and the exact product lies nearer to
`110 + 2 ^ (-46)` than to `110`. -/
theorem mul_hundred_11 :
    mul (Num.fin false 100) (Num.fin false (4953959590107546 / 2 ^ 52)) =
      Num.fin false (110 + 1 / 2 ^ 46) := by
  have h := ofSignMagnitude_eq false (100 * (4953959590107546 / 2 ^ 52)) 6 7740561859543041
    (by norm_num) (by norm_num) (by norm_num) (by norm_num) (by norm_num) (by norm_num)
    (by norm_num)
  have e : ((7740561859543041 : ℤ) : ℚ) * 2 ^ ((6 : ℤ) - 52) = 110 + 1 / 2 ^ 46 := by norm_num
  rw [e] at h
  rw [mul]
  exact h

theorem div_hundred (n : ℚ) (q : ℚ) (h : ofRat (n / 100) = Num.fin false q) (hn : 0 ≤ n) :
    div (Num.fin false n) (Num.fin false 100) = Num.fin false q := by
  have h100 : ¬ (100 : ℚ) = 0 := by norm_num
  have ha : |n / 100| = n / 100 := abs_of_nonneg (by positivity)
  have hd : decide (n / 100 < 0) = false := by
    rw [decide_eq_false_iff_not]
    exact not_lt.mpr (by positivity)
  rw [ofRat, ha, hd] at h
  rw [div, if_neg h100]
  exact h

theorem getCleanPrice_1095 : getCleanPrice 2 (ofRat (219 / 200)) = ofRat (11 / 10) := by
  have hc : (⌈(219 / 2 : ℚ)⌉ : ℤ) = 110 := ceil_eq_of_bounds _ _ (by norm_num) (by norm_num)
  have e : (((110 : ℤ) : ℚ)) / 100 = 11 / 10 := by norm_num
  rw [getCleanPrice, pow10_two, ofRat_1095, mul_hundred_1095, ceil, hc,
    div_hundred _ _ (by rw [e]; exact ofRat_11) (by norm_num), ofRat_11]

theorem getCleanPrice_11 : getCleanPrice 2 (ofRat (11 / 10)) = ofRat (111 / 100) := by
  have hc : (⌈(110 + 1 / 2 ^ 46 : ℚ)⌉ : ℤ) = 111 :=
    ceil_eq_of_bounds _ _ (by norm_num) (by norm_num)
  have e : (((111 : ℤ) : ℚ)) / 100 = 111 / 100 := by norm_num
  rw [getCleanPrice, pow10_two, ofRat_11, mul_hundred_11, ceil, hc,
    div_hundred _ _ (by rw [e]; exact ofRat_111) (by norm_num), ofRat_111]

theorem ofRat_111_ne_11 : ofRat (111 / 100) ≠ ofRat (11 / 10) := by
  rw [ofRat_111, ofRat_11]
  intro h
  injection h with _ h
  norm_num at h

end Binary64

/-- C3 on the code: at precision `2` the number `1.095` is rounded to `1.1`, and `1.1` is rounded
to `1.11`, so rounding the result again does not return it.  All four utilities have the same
body. -/
theorem C3_rounding_not_idempotent :
    Binary64.getCleanPrice 2 (Binary64.ofRat (219 / 200)) = Binary64.ofRat (11 / 10) ∧
    Binary64.getCleanPrice 2 (Binary64.ofRat (11 / 10)) = Binary64.ofRat (111 / 100) ∧
    Binary64.ofRat (11 / 10) = Binary64.Num.fin false (4953959590107546 / 2 ^ 52) ∧
    Binary64.ofRat (111 / 100) = Binary64.Num.fin false (4998995586381251 / 2 ^ 52) ∧
    Binary64.getCleanPrice 2 (Binary64.getCleanPrice 2 (Binary64.ofRat (219 / 200))) ≠
      Binary64.getCleanPrice 2 (Binary64.ofRat (219 / 200)) ∧
    Binary64.getCleanPriceFloor 2 (Binary64.getCleanPriceFloor 2 (Binary64.ofRat (219 / 200))) ≠
      Binary64.getCleanPriceFloor 2 (Binary64.ofRat (219 / 200)) ∧
    Binary64.getCleanAmount 2 (Binary64.getCleanAmount 2 (Binary64.ofRat (219 / 200))) ≠
      Binary64.getCleanAmount 2 (Binary64.ofRat (219 / 200)) ∧
    Binary64.getCleanAmountFloor 2
        (Binary64.getCleanAmountFloor 2 (Binary64.ofRat (219 / 200))) ≠
      Binary64.getCleanAmountFloor 2 (Binary64.ofRat (219 / 200)) := by
  have h : Binary64.getCleanPrice 2 (Binary64.getCleanPrice 2 (Binary64.ofRat (219 / 200))) ≠
      Binary64.getCleanPrice 2 (Binary64.ofRat (219 / 200)) := by
    rw [Binary64.getCleanPrice_1095, Binary64.getCleanPrice_11]
    exact Binary64.ofRat_111_ne_11
  exact ⟨Binary64.getCleanPrice_1095, Binary64.getCleanPrice_11, Binary64.ofRat_11,
    Binary64.ofRat_111, h, h, h, h⟩

end CossReverseDca
